import Mathlib

/-! # Polylogarithm: dilogarithm, Clausen functions and the negative eta table

A shallow embedding of `src/Li2.c`, `src/cpp/Cl2.cpp`, `src/cpp/Cl3.cpp` and
`src/cpp/eta.cpp`.

Conventions of the embedding.

* The floating-point evaluators are written over an arbitrary linearly ordered
  field `α`; every decimal literal of the source stands for the rational number
  it spells.  Instantiated at `ℚ` the definitions run; instantiated at `ℝ`
  they are the evaluation "in exact real arithmetic over the code's
  constants".  Rounding, NaN and signed zeros are not part of this model.
* The functions `li2` and `Cl2` are embedded a second time in floating-point
  arithmetic (`li2_ieee`, `Cl2_ieee`, `Cl2_long_double_ieee`): over `ℚ`, with
  the constants the numbers of the format nearest to the literals and with
  every arithmetic operation followed by a rounding to the format.
* The library functions `log` and `clog` are parameters of the evaluators.
* `int64_t` values are integers; each arithmetic operation of the source is
  followed by an explicit two's-complement wrap, and the conversion to the
  unsigned `size_t` is explicit as well.
* Array reads of `eta.cpp` return `Option`: `none` is a read outside the array.
-/

namespace polylogarithm

variable {α : Type} [LinearOrderedField α]

/-! ## `Li2.c`: the real dilogarithm -/

/-- The constant `PI` of `li2` (and of `cli2`). -/
def li2.PI : α := 3.141592653589793

/-- The constant `HF` of `li2`. -/
def li2.HF : α := 0.5

/-- The constant `PI2 = PI*PI` of `li2`. -/
def li2.PI2 : α := li2.PI * li2.PI

/-- The constant `PI3 = PI2/3` of `li2`. -/
def li2.PI3 : α := li2.PI2 / 3

/-- The constant `PI6 = PI2/6` of `li2`. -/
def li2.PI6 : α := li2.PI2 / 6

/-- The constant `PI12 = PI2/12` of `li2`. -/
def li2.PI12 : α := li2.PI2 / 12

/-- The Chebyshev coefficient table `C[20]` of `li2`. -/
def li2.C : List α :=
  [ 0.42996693560813697, 0.40975987533077106,
   -0.01858843665014592, 0.00145751084062268, -0.00014304184442340,
    0.00001588415541880, -0.00000190784959387, 0.00000024195180854,
   -0.00000003193341274, 0.00000000434545063, -0.00000000060578480,
    0.00000000008612098, -0.00000000001244332, 0.00000000000182256,
   -0.00000000000027007, 0.00000000000004042, -0.00000000000000610,
    0.00000000000000093, -0.00000000000000014, 0.00000000000000002]

/-- The range classification of `li2` (lines 46-76): from `T = -x` to the
triple `(Y, S, A)`. -/
def li2.classify (log : α → α) (T : α) : α × α × α :=
  if T ≤ -2 then
    let Y := (-1) / (1 + T)
    let S := 1
    let B1 := log (-T)
    let B2 := log (1 + 1 / T)
    let A := -li2.PI3 + li2.HF * (B1 * B1 - B2 * B2)
    (Y, S, A)
  else if T < -1 then
    let Y := -1 - T
    let S := -1
    let A := log (-T)
    let A := -li2.PI6 + A * (A + log (1 + 1 / T))
    (Y, S, A)
  else if T ≤ -0.5 then
    let Y := (-(1 + T)) / T
    let S := 1
    let A := log (-T)
    let A := -li2.PI6 + A * (-li2.HF * A + log (1 + T))
    (Y, S, A)
  else if T < 0 then
    let Y := (-T) / (1 + T)
    let S := -1
    let B1 := log (1 + T)
    let A := li2.HF * B1 * B1
    (Y, S, A)
  else if T ≤ 1 then
    let Y := T
    let S := 1
    let A := 0
    (Y, S, A)
  else
    let Y := 1 / T
    let S := -1
    let B1 := log T
    let A := li2.PI6 + li2.HF * B1 * B1
    (Y, S, A)

/-- One pass of the loop body of `li2` (lines 82-84) on the state
`(B0, B1, B2)`, reading `C[i]`. -/
def li2.step (ALFA : α) (st : α × α × α) (i : Nat) : α × α × α :=
  let B0 := li2.C.getD i 0 + ALFA * st.2.1 - st.2.2
  let B2 := st.2.1
  let B1 := B0
  (B0, B1, B2)

/-- The loop `for (int i = 19; i >= 0; i--)` of `li2`, started from
`B1 = B2 = 0` (`B0` is not initialised by the source; it is assigned in the
first pass). -/
def li2.loop (ALFA : α) : α × α × α :=
  ((List.range 20).reverse).foldl (li2.step ALFA) (0, 0, 0)

/-- The function `double li2(double x)`. -/
def li2 (log : α → α) (x : α) : α :=
  if x = 1 then
    li2.PI6
  else if x = -1 then
    -li2.PI12
  else
    let T := -x
    let YSA := li2.classify log T
    let Y := YSA.1
    let S := YSA.2.1
    let A := YSA.2.2
    let H := Y + Y - 1
    let ALFA := H + H
    let st := li2.loop ALFA
    let B0 := st.1
    let B2 := st.2.2
    let H := -(S * (B0 - H * B2) + A)
    H

/-! ## `Li2.c`: the complex dilogarithm -/

/-- A `double _Complex` value: real and imaginary part. -/
structure DComplex (α : Type) where
  /-- The real part, `creal`. -/
  re : α
  /-- The imaginary part, `cimag`. -/
  im : α

namespace DComplex

/-- A real number as a complex one (the usual arithmetic conversion). -/
def ofReal (r : α) : DComplex α := ⟨r, 0⟩

/-- The imaginary unit `I`. -/
def I : DComplex α := ⟨0, 1⟩

/-- Complex addition. -/
def add (a b : DComplex α) : DComplex α := ⟨a.re + b.re, a.im + b.im⟩

/-- Complex subtraction. -/
def sub (a b : DComplex α) : DComplex α := ⟨a.re - b.re, a.im - b.im⟩

/-- Complex negation. -/
def neg (a : DComplex α) : DComplex α := ⟨-a.re, -a.im⟩

/-- Complex multiplication. -/
def mul (a b : DComplex α) : DComplex α :=
  ⟨a.re * b.re - a.im * b.im, a.re * b.im + a.im * b.re⟩

/-- Complex division. -/
def div (a b : DComplex α) : DComplex α :=
  ⟨(a.re * b.re + a.im * b.im) / (b.re * b.re + b.im * b.im),
   (a.im * b.re - a.re * b.im) / (b.re * b.re + b.im * b.im)⟩

instance : Add (DComplex α) := ⟨add⟩
instance : Sub (DComplex α) := ⟨sub⟩
instance : Neg (DComplex α) := ⟨neg⟩
instance : Mul (DComplex α) := ⟨mul⟩
instance : Div (DComplex α) := ⟨div⟩

end DComplex

/-- The constant `DBL_EPSILON` of `<float.h>`, `2^-52`. -/
def DBL_EPSILON : α := 1 / 2 ^ 52

/-- The table `bf[10]` of `cli2`. -/
def cli2.bf : List α :=
  [ (-1.0) / 4.0,
    1.0 / 36.0,
    (-1.0) / 3600.0,
    1.0 / 211680.0,
    (-1.0) / 10886400.0,
    1.0 / 526901760.0,
    -4.064761645144226e-11,
    8.921691020456453e-13,
    -1.993929586072108e-14,
    4.518980029619918e-16 ]

/-- The general path of `cli2` (lines 133-180): the transformation to
`|z| < 1`, `Re(z) <= 0.5`, the series and the recombination. -/
def cli2.general (clog : DComplex α → DComplex α) (z : DComplex α) : DComplex α :=
  let PI : α := li2.PI
  let bf (i : Nat) : DComplex α := DComplex.ofReal (cli2.bf.getD i 0)
  let r (v : α) : DComplex α := DComplex.ofReal v
  let rz := z.re
  let iz := z.im
  let nz := rz * rz + iz * iz
  let inversion : DComplex α × DComplex α × Int × Int :=
    let lz := clog (-z)
    let cy := r (-0.5) * lz * lz
    let cz := -clog (r 1.0 - r 1.0 / z)
    (cy, cz, -1, -2)
  let t : DComplex α × DComplex α × Int × Int :=
    if rz ≤ 0.5 then
      if nz > 1.0 then
        inversion
      else
        let cy := r 0
        let cz := -clog (r 1.0 - z)
        (cy, cz, 1, 0)
    else
      if nz ≤ 2 * rz then
        let cz := -clog z
        let cy := cz * clog (r 1.0 - z)
        (cy, cz, -1, 2)
      else
        inversion
  let cy := t.1
  let cz := t.2.1
  let jsgn := t.2.2.1
  let ipi12 := t.2.2.2
  let cz2 := cz * cz
  let sum :=
    cz +
    cz2 * (bf 0 +
    cz  * (bf 1 +
    cz2 * (bf 2 +
    cz2 * (bf 3 +
    cz2 * (bf 4 +
    cz2 * (bf 5 +
    cz2 * (bf 6 +
    cz2 * (bf 7 +
    cz2 * (bf 8 +
    cz2 * (bf 9))))))))))
  r (jsgn : α) * sum + cy + r ((ipi12 : α) * PI * PI / 12.0)

/-- The function `static double _Complex cli2(const double _Complex z)`. -/
def cli2 (log : α → α) (clog : DComplex α → DComplex α) (z : DComplex α) :
    DComplex α :=
  let PI : α := li2.PI
  let rz := z.re
  let iz := z.im
  let nz := rz * rz + iz * iz
  if iz = 0.0 then
    if rz ≤ 1.0 then
      DComplex.ofReal (li2 log rz) + DComplex.ofReal 0.0 * DComplex.I
    else if rz > 1.0 then
      DComplex.ofReal (li2 log rz) - DComplex.ofReal (PI * log rz) * DComplex.I
    else
      cli2.general clog z
  else if nz < DBL_EPSILON then
    z
  else
    cli2.general clog z

/-- The function `void cli2_(double re, double im, double* res_re,
double* res_im)`; the two output locations are the returned pair. -/
def cli2_ (log : α → α) (clog : DComplex α → DComplex α) (re im : α) : α × α :=
  let result := cli2 log clog (DComplex.ofReal re + DComplex.I * DComplex.ofReal im)
  (result.re, result.im)

/-! ## `Cl2.cpp` and `Cl3.cpp`: the Clausen functions -/

/-- The library function `std::fmod(x, y)` for `y ≠ 0`: `x - n*y` where `n` is
the quotient `x/y` with its fractional part cut off. -/
def fmod [FloorRing α] (x y : α) : α :=
  let n : Int := if 0 ≤ x / y then ⌊x / y⌋ else ⌈x / y⌉
  x - (n : α) * y

/-- The template `T horner(T x, const T (&c)[N])` of `Cl2.cpp`. -/
def horner (x : α) (c : List α) : α :=
  let N := c.length
  let p := c.getD (N - 1) 0
  ((List.range (N - 1)).reverse).foldl (fun p i => p * x + c.getD i 0) p

/-- The table `P[]` of the `x < PIH` branch of `Cl2(double)`. -/
def Cl2.low.P : List α := [
    2.7951565822419270e-02, -8.8865360514541522e-04,
    6.8282348222485902e-06, -7.5276232403566808e-09
  ]

/-- The table `Q[]` of the `x < PIH` branch of `Cl2(double)`. -/
def Cl2.low.Q : List α := [
    1.0000000000000000e+00, -3.6904397961160525e-02,
    3.7342870576106476e-04, -8.7460760866531179e-07
  ]

/-- The table `P[]` of the `x >= PIH` branch of `Cl2(double)`. -/
def Cl2.high.P : List α := [
    6.4005702446195512e-01, -2.0641655351338783e-01,
    2.4175305223497718e-02, -1.2355955287855728e-03,
    2.5649833551291124e-05, -1.4783829128773320e-07
  ]

/-- The table `Q[]` of the `x >= PIH` branch of `Cl2(double)`. -/
def Cl2.high.Q : List α := [
    1.0000000000000000e+00, -2.5299102015666356e-01,
    2.2148751048467057e-02, -7.8183920462457496e-04,
    9.5432542196310670e-06, -1.8184302880448247e-08
  ]

/-- The `x < PIH` branch of `Cl2(double)`: the value of `h`. -/
def Cl2.low (log : α → α) (PI28 x : α) : α :=
  let P (i : Nat) : α := Cl2.low.P.getD i 0
  let Q (i : Nat) : α := Cl2.low.Q.getD i 0
  let y := x * x
  let z := y - PI28
  let z2 := z * z
  let p := P 0 + z * P 1 + z2 * (P 2 + z * P 3)
  let q := Q 0 + z * Q 1 + z2 * (Q 2 + z * Q 3)
  x * (1 - log x + y * p / q / 2)

/-- The `x >= PIH` branch of `Cl2(double)`: the value of `h`. -/
def Cl2.high (PI PI28 x : α) : α :=
  let P (i : Nat) : α := Cl2.high.P.getD i 0
  let Q (i : Nat) : α := Cl2.high.Q.getD i 0
  let y := PI - x
  let z := y * y - PI28
  let z2 := z * z
  let z4 := z2 * z2
  let p := P 0 + z * P 1 + z2 * (P 2 + z * P 3) +
    z4 * (P 4 + z * P 5)
  let q := Q 0 + z * Q 1 + z2 * (Q 2 + z * Q 3) +
    z4 * (Q 4 + z * Q 5)
  y * p / q

/-- The function `double Cl2(double x)`. -/
def Cl2 [FloorRing α] (log : α → α) (x : α) : α :=
  let PI : α := 3.14159265358979324
  let PI2 := 2 * PI
  let PIH := PI / 2
  let PI28 := PI * PI / 8
  let sgn : α := 1
  let s1 : α × α := if x < 0 then (-x, -1) else (x, sgn)
  let x := s1.1
  let sgn := s1.2
  let x := if x ≥ PI2 then fmod x PI2 else x
  let s2 : α × α :=
    if x > PI then
      let p0 : α := 6.28125
      let p1 : α := 0.0019353071795864769253
      ((p0 - x) + p1, -sgn)
    else (x, sgn)
  let x := s2.1
  let sgn := s2.2
  if x = 0 ∨ x = PI then
    0
  else
    let h := if x < PIH then Cl2.low log PI28 x else Cl2.high PI PI28 x
    sgn * h

/-- The table `P[]` of the `x < PIH` branch of `Cl2(long double)`. -/
def Cl2_long_double.low.P : List α := [
    2.795156582241927046412081735910646612854e-02,
    -2.704528039782130831727668760352473119745e-03,
    1.058576547177802928762582430994046913011e-04,
    -2.147507975446829791077479076828450780219e-06,
    2.401415296681270093111305488326496124531e-08,
    -1.450571790543608936928129678333156785370e-10,
    4.280534901040925211965221454555516657749e-13,
    -4.792802237226483806823208684186867186935e-16,
    8.883657381852830471176782778999368430017e-20
  ]

/-- The table `Q[]` of the `x < PIH` branch of `Cl2(long double)`. -/
def Cl2_long_double.low.Q : List α := [
    1.0,
    -1.018694323414614410071369720193716012304e-01,
    4.248408782245281612900840467370146443889e-03,
    -9.337710301347963985908084056584187570954e-05,
    1.159379163193822053103946363960603543601e-06,
    -8.083352720393357000801675734774176899515e-09,
    2.949313240431512997069808854213308209519e-11,
    -4.742700419624204182400715964695278593777e-14,
    2.158380636740175386190809152807629331877e-17
  ]

/-- The table `P[]` of the `x >= PIH` branch of `Cl2(long double)`. -/
def Cl2_long_double.high.P : List α := [
    6.400570244619551220929428522356830562481e-01,
    -4.651631624886004423703445967760673575997e-01,
    1.487130845262105644024901814213146749895e-01,
    -2.749665174801454303884783494225610407035e-02,
    3.251522465413666561950482170352156048203e-03,
    -2.567438381297475310848635518657180974512e-04,
    1.372076105130164861564020074178493529151e-05,
    -4.924179093673498700461153483531075799113e-07,
    1.153267936031337440182387313169828395860e-08,
    -1.667578310677508029208023423625588832295e-10,
    1.348437292247918547169070120217729056878e-12,
    -5.052245092698477071447850656280954693011e-15,
    5.600638109466570497480415519182233229048e-18  -- no `l` suffix in the source
  ]

/-- The table `Q[]` of the `x >= PIH` branch of `Cl2(long double)`. -/
def Cl2_long_double.high.Q : List α := [
    1.0,
    -6.572465772185054284667746526549393897676e-01,
    1.886234634096976582977630140163583172173e-01,
    -3.103347567899737687117030083178445406132e-02,
    3.230860399291224478336071920154030050234e-03,
    -2.216546569335921728108984951507368387512e-04,
    1.011949972138985643994631167412420906088e-05,
    -3.033400935206767852937290458763547850384e-07,
    5.748454611964843057644023468691231929690e-09,
    -6.408350048413952604351408631173781906861e-11,
    3.678584366662951864267349037579031493395e-13,
    -8.240439699357036167611014086997683837396e-16,
    3.041049046123062158788159773779755292771e-19
  ]

/-- The `x < PIH` branch of `Cl2(long double)`: the value of `h`. -/
def Cl2_long_double.low (log : α → α) (PI28 x : α) : α :=
  let y := x * x
  let z := y - PI28
  let p := horner z Cl2_long_double.low.P
  let q := horner z Cl2_long_double.low.Q
  x * (1 - log x + y * p / q / 2)

/-- The `x >= PIH` branch of `Cl2(long double)`: the value of `h`. -/
def Cl2_long_double.high (PI PI28 x : α) : α :=
  let y := PI - x
  let z := y * y - PI28
  let p := horner z Cl2_long_double.high.P
  let q := horner z Cl2_long_double.high.Q
  y * p / q

/-- The function `long double Cl2(long double x)`. -/
def Cl2_long_double [FloorRing α] (log : α → α) (x : α) : α :=
  let PI : α := 3.14159265358979323846264338327950288
  let PI2 := 2 * PI
  let PIH := PI / 2
  let PI28 := PI * PI / 8
  let sgn : α := 1
  let s1 : α × α := if x < 0 then (-x, -1) else (x, sgn)
  let x := s1.1
  let sgn := s1.2
  let x := if x ≥ PI2 then fmod x PI2 else x
  let s2 : α × α :=
    if x > PI then
      let p0 : α := 6.28125
      let p1 : α := 0.0019353071795864769252867665590057683943
      ((p0 - x) + p1, -sgn)
    else (x, sgn)
  let x := s2.1
  let sgn := s2.2
  if x = 0 ∨ x = PI then
    0
  else
    let h := if x < PIH then Cl2_long_double.low log PI28 x else Cl2_long_double.high PI PI28 x
    sgn * h

/-- The table `P[]` of the `x < PIH` branch of `Cl3(double)`. -/
def Cl3.low.P : List α := [
    -7.5430148591242361e-01, 1.6121940167854339e-02,
    -3.7484056212140535e-05, -2.5191292110169198e-07
  ]

/-- The table `Q[]` of the `x < PIH` branch of `Cl3(double)`. -/
def Cl3.low.Q : List α := [
    1.0000000000000000e+00, -2.6015033560727570e-02,
    1.5460630299236049e-04, -1.0987530650923219e-07
  ]

/-- The table `P[]` of the `x >= PIH` branch of `Cl3(double)`. -/
def Cl3.high.P : List α := [
    -4.9017024647634973e-01, 4.1559155224660940e-01,
    -7.9425531417806701e-02, 5.9420152260602943e-03,
    -1.8302227163540190e-04, 1.8027408929418533e-06
  ]

/-- The table `Q[]` of the `x >= PIH` branch of `Cl3(double)`. -/
def Cl3.high.Q : List α := [
    1.0000000000000000e+00, -1.9495887541644712e-01,
    1.2059410236484074e-02, -2.5235889467301620e-04,
    1.0199322763377861e-06, 1.9612106499469264e-09
  ]

/-- The `x < PIH` branch of `Cl3(double)`: the value of `h`. -/
def Cl3.low (log : α → α) (PI28 zeta3 x : α) : α :=
  let P (i : Nat) : α := Cl3.low.P.getD i 0
  let Q (i : Nat) : α := Cl3.low.Q.getD i 0
  let y := x * x
  let z := y - PI28
  let z2 := z * z
  let p := P 0 + z * P 1 + z2 * (P 2 + z * P 3)
  let q := Q 0 + z * Q 1 + z2 * (Q 2 + z * Q 3)
  zeta3 + y * (p / q + log x / 2)

/-- The `x >= PIH` branch of `Cl3(double)`: the value of `h`. -/
def Cl3.high (PI PI28 x : α) : α :=
  let P (i : Nat) : α := Cl3.high.P.getD i 0
  let Q (i : Nat) : α := Cl3.high.Q.getD i 0
  let y := PI - x
  let z := y * y - PI28
  let z2 := z * z
  let z4 := z2 * z2
  let p := P 0 + z * P 1 + z2 * (P 2 + z * P 3) +
    z4 * (P 4 + z * P 5)
  let q := Q 0 + z * Q 1 + z2 * (Q 2 + z * Q 3) +
    z4 * (Q 4 + z * Q 5)
  p / q

/-- The function `double Cl3(double x)`. -/
def Cl3 [FloorRing α] (log : α → α) (x : α) : α :=
  let PI : α := 3.14159265358979324
  let PI2 := 2 * PI
  let PIH := PI / 2
  let PI28 := PI * PI / 8
  let zeta3 : α := 1.2020569031595943
  let x := if x < 0 then -x else x
  let x := if x ≥ PI2 then fmod x PI2 else x
  let x :=
    if x > PI then
      let p0 : α := 6.28125
      let p1 : α := 0.0019353071795864769253
      (p0 - x) + p1
    else x
  if x = 0 then
    zeta3
  else
    let h := if x < PIH then Cl3.low log PI28 zeta3 x else Cl3.high PI PI28 x
    h

/-- The table `P[]` of the `x < PIH` branch of `Cl3(long double)`. -/
def Cl3_long_double.low.P : List α := [
    -7.543014859124236086513359303676733979191e-01,
    6.402301836868117230156416581268033099875e-02,
    -2.127896098530218208963041584986434591351e-03,
    3.463165731182357705183279540808782152120e-05,
    -2.754862729116033380287404534774919686497e-07,
    8.052538909862304289974104174276673516832e-10,
    1.346114649676610056675054469405688579693e-12,
    -9.624573206929882592200009480606020302094e-15,
    8.275206821858140239162250779757575466957e-18
  ]

/-- The table `Q[]` of the `x < PIH` branch of `Cl3(long double)`. -/
def Cl3_long_double.low.Q : List α := [
    1.000000000000000000000000000000000000000e+00,
    -8.951892304715004068142060061380434166813e-02,
    3.220693717342225233144437822487371940443e-03,
    -5.958192714621426181787114562889325229941e-05,
    6.014846196895560469030445734629791881016e-07,
    -3.236076181461994705051496031602571907271e-09,
    8.340438662048507021623726184074556662658e-12,
    -7.892956808623089379250167198187183753861e-15,
    1.129224149808716947279552120998699589829e-18
  ]

/-- The table `P[]` of the `x >= PIH` branch of `Cl3(long double)`. -/
def Cl3_long_double.high.P : List α := [
    -4.901702464763497295023867883920487195585e-01,
    1.383627100551763417738051599449773818178e+00,
    -1.844002682148364621305380083013461847933e+00,
    1.563880808732850065996446127297492925273e+00,
    -9.527454451278452672142805742734474223237e-01,
    4.444304509117015442253289733308961077770e-01,
    -1.647875030685306314220378800538115071507e-01,
    4.967825071601030726970818647842992410835e-02,
    -1.233860796084952133261104412894436518532e-02,
    2.541279038266908987516674931803683131910e-03,
    -4.345955367166196341753615932772484893528e-04,
    6.151865219319515057283373610462827653393e-05,
    -7.156818018509654192384040775515653410043e-06,
    6.767889054848634496309672687089961659404e-07,
    -5.125309226510821380097226378219650957199e-08,
    3.048859537856972635577813264215347682070e-09,
    -1.389976271585941361238252210621219258086e-10,
    4.704164267289991379740337499442804533393e-12,
    -1.132342670092216676813702977101988168170e-13,
    1.824345098049373687569378456747139377638e-15,
    -1.791641454777807114948357142007867857930e-17,
    9.108765355959209109895175829397816299966e-20,
    -1.660401736402055166724718838052384514483e-22
  ]

/-- The table `Q[]` of the `x >= PIH` branch of `Cl3(long double)`. -/
def Cl3_long_double.high.Q : List α := [
    1.000000000000000000000000000000000000000e+00,
    -2.169855465456334109398757427681231252557e+00,
    2.322591192513290976964726281913672818074e+00,
    -1.625275527588871360012554245669893880287e+00,
    8.307827568524387115453112563337808771609e-01,
    -3.283520342971423622595752570043633453066e-01,
    1.036112385177655663181226022787541960128e-01,
    -2.658049675854302301943410969110308213449e-02,
    5.594232916811019674312451829387056772971e-03,
    -9.682117420514440669170644446720530951119e-04,
    1.373775076479943342597652514135717056402e-04,
    -1.585377827830451443222728940538258932617e-05,
    1.469487119911154060364041910223012615302e-06,
    -1.075235400618754592467376790070172663512e-07,
    6.072406717259994215240055677751661462408e-09,
    -2.571318839166908430254322849495115672150e-10,
    7.860204435599274911316716981969539571217e-12,
    -1.647194263529074575838983448164465153777e-13,
    2.194513208755261829948257460166939183883e-15,
    -1.645669178927884807010050119309005828655e-17,
    5.496854459511181731052565995680338061501e-20,
    -4.060391001681163801807157030538815464753e-23,
    -1.500455700173452211389785169624351996026e-26
  ]

/-- The `x < PIH` branch of `Cl3(long double)`: the value of `h`. -/
def Cl3_long_double.low (log : α → α) (PI28 zeta3 x : α) : α :=
  let P (i : Nat) : α := Cl3_long_double.low.P.getD i 0
  let Q (i : Nat) : α := Cl3_long_double.low.Q.getD i 0
  let y := x * x
  let z := y - PI28
  let z2 := z * z
  let z4 := z2 * z2
  let z8 := z4 * z4
  let p := P 0 + z * P 1 + z2 * (P 2 + z * P 3) +
    z4 * (P 4 + z * P 5 + z2 * (P 6 + z * P 7)) + z8 * P 8
  let q := Q 0 + z * Q 1 + z2 * (Q 2 + z * Q 3) +
    z4 * (Q 4 + z * Q 5 + z2 * (Q 6 + z * Q 7)) + z8 * Q 8
  zeta3 + y * (p / q + log x / 2)

/-- The `x >= PIH` branch of `Cl3(long double)`: the value of `h`. -/
def Cl3_long_double.high (PI PI28 x : α) : α :=
  let P (i : Nat) : α := Cl3_long_double.high.P.getD i 0
  let Q (i : Nat) : α := Cl3_long_double.high.Q.getD i 0
  let y := PI - x
  let z := y * y - PI28
  let z2 := z * z
  let z4 := z2 * z2
  let z8 := z4 * z4
  let z16 := z8 * z8
  let p := P 0 + z * P 1 + z2 * (P 2 + z * P 3) +
    z4 * (P 4 + z * P 5 + z2 * (P 6 + z * P 7)) +
    z8 * (P 8 + z * P 9 + z2 * (P 10 + z * P 11) +
        z4 * (P 12 + z * P 13 + z2 * (P 14 + z * P 15))) +
    z16 * (P 16 + z * P 17 + z2 * (P 18 + z * P 19) +
         z4 * (P 20 + z * P 21 + z2 * P 22))
  let q := Q 0 + z * Q 1 + z2 * (Q 2 + z * Q 3) +
    z4 * (Q 4 + z * Q 5 + z2 * (Q 6 + z * Q 7)) +
    z8 * (Q 8 + z * Q 9 + z2 * (Q 10 + z * Q 11) +
        z4 * (Q 12 + z * Q 13 + z2 * (Q 14 + z * Q 15))) +
    z16 * (Q 16 + z * Q 17 + z2 * (Q 18 + z * Q 19) +
         z4 * (Q 20 + z * Q 21 + z2 * Q 22))
  p / q

/-- The function `long double Cl3(long double x)`. -/
def Cl3_long_double [FloorRing α] (log : α → α) (x : α) : α :=
  let PI : α := 3.14159265358979323846264338327950288
  let PI2 := 2 * PI
  let PIH := PI / 2
  let PI28 := PI * PI / 8
  let zeta3 : α := 1.2020569031595942853997381615114499908
  let x := if x < 0 then -x else x
  let x := if x ≥ PI2 then fmod x PI2 else x
  let x :=
    if x > PI then
      let p0 : α := 6.28125
      let p1 : α := 0.0019353071795864769252867665590057683943
      (p0 - x) + p1
    else x
  if x = 0 then
    zeta3
  else
    let h := if x < PIH then Cl3_long_double.low log PI28 zeta3 x else Cl3_long_double.high PI PI28 x
    h

/-! ## `eta.cpp`: the negative Dirichlet eta function at integers -/

/-- A `double` as `neg_eta` returns it: a finite value or one of the two
infinities of `std::numeric_limits<double>`. -/
inductive Dbl where
  /-- A finite value. -/
  | fin (v : ℚ)
  /-- The value `std::numeric_limits<double>::infinity()`. -/
  | inf
  /-- The value `-std::numeric_limits<double>::infinity()`. -/
  | negInf
deriving DecidableEq

/-- The table `NEG_ETA[54]`: `Table[PolyLog[n,-1], {n,1,54}]`. -/
def NEG_ETA : List ℚ := [
    -0.69314718055994531, -0.82246703342411322, -0.90154267736969571,
    -0.94703282949724592, -0.97211977044690931, -0.98555109129743510,
    -0.99259381992283028, -0.99623300185264790, -0.99809429754160533,
    -0.99903950759827157, -0.99951714349806075, -0.99975768514385819,
    -0.99987854276326512, -0.99993917034597972, -0.99996955121309924,
    -0.99998476421490611, -0.99999237829204101, -0.99999618786961011,
    -0.99999809350817168, -0.99999904661158152, -0.99999952325821554,
    -0.99999976161323082, -0.99999988080131844, -0.99999994039889239,
    -0.99999997019885696, -0.99999998509923200, -0.99999999254955048,
    -0.99999999627475340, -0.99999999813736942, -0.99999999906868228,
    -0.9999999995343403 , -0.9999999997671699 , -0.9999999998835849 ,
    -0.9999999999417924 , -0.9999999999708962 , -0.9999999999854481 ,
    -0.9999999999927240 , -0.9999999999963620 , -0.9999999999981810 ,
    -0.9999999999990905 , -0.9999999999995453 , -0.9999999999997726 ,
    -0.9999999999998863 , -0.9999999999999432 , -0.9999999999999716 ,
    -0.9999999999999858 , -0.9999999999999929 , -0.9999999999999964 ,
    -0.9999999999999982 , -0.9999999999999991 , -0.9999999999999996 ,
    -0.9999999999999998 , -0.9999999999999999 , -0.9999999999999999
]

/-- The table `NEG_ETA_NEG_N[]`: `Table[PolyLog[-2n+1,-1], {n,1,109}]`. -/
def NEG_ETA_NEG_N : List ℚ := [
   -0.25, 0.125           , -0.25                  ,  1.0625                ,
   -7.75                  ,  86.375                , -1365.25               ,
    29049.03125           , -800572.75             ,  2.7741322625e7        ,
   -1.18052913025e9       ,  6.05239800516875e10   , -3.67941677853775e12   ,
    2.6170760990658388e014, -2.1531418140800295e016,  2.0288775575173016e018,
   -2.1708009902623771e020,  2.6173826968455815e022, -3.5324148876863878e024,
    5.3042033406864907e026, -8.8138218364311577e028,  1.6128065107490779e031,
   -3.2355470001722734e033,  7.0876727476537493e035, -1.6890450341293966e038,
    4.3639690731216831e040, -1.2185998827061261e043,  3.6670584803153006e045,
   -1.1859898526302099e048,  4.1120769493584015e050, -1.5249042436787620e053,
    6.0349693196941307e055, -2.5437161764210696e058,  1.1396923802632288e061,
   -5.4180861064753979e063,  2.7283654799994374e066, -1.4529750514918543e069,
    8.1705519371067450e071, -4.8445781606678368e074,  3.0246694206649519e077,
   -1.9858807961690493e080,  1.3694474620720087e083, -9.9070382984295808e085,
    7.5103780796592646e088, -5.9598418264260881e091,  4.9455988887500020e094,
   -4.2873596927020241e097,  3.8791952037716163e100, -3.6600317773156342e103,
    3.5978775704117284e106, -3.6818662617467813e109,  3.9192743066421374e112,
   -4.3363921885063858e115,  4.9833162711780838e118, -5.9438653020209606e121,
    7.3533439019770134e124, -9.4293465716973561e127,  1.2525196404154548e131,
   -1.7223787163994400e134,  2.4505178680729537e137, -3.6051616659014189e140,
    5.4813803836499771e143, -8.6083892012122616e146,  1.3957139354298160e150,
   -2.3350508860591630e153,  4.0291297374794860e156, -7.1669946227411534e159,
    1.3136385964069363e163, -2.4799083462304252e166,  4.8198083696385558e169,
   -9.6400031196958281e172,  1.9833611905147644e176, -4.1959717912682865e179,
    9.1243724595750010e182, -2.0386902382464212e186,  4.6786408066350383e189,
   -1.1024400389046488e193,  2.6662916424238258e196, -6.6165585014771755e199,
    1.6841726974970032e203, -4.3957474813006951e206,  1.1760766011899571e210,
   -3.2245094671360478e213,  9.0570855543185808e216, -2.6054618058433054e220,
    7.6741449421726560e223, -2.3136880427961752e227,  7.1382598572408242e230,
   -2.2530900128907084e234,  7.2736404696018159e237, -2.4010608416429639e241,
    8.1026279414941787e244, -2.7945745738098571e248,  9.8485095122481192e251,
   -3.5456055356238575e255,  1.3036999220919921e259, -4.8948166866453784e262,
    1.8761736309852136e266, -7.3399918877807488e269,  2.9303136033539038e273,
   -1.1935494277949469e277,  4.9589310621971370e280, -2.1012240064879845e284,
    9.0784179834777353e287, -3.9987113012775244e291,  1.7952380922182709e295,
   -8.2136799002055846e298,  3.8290431596908477e302, -1.8184610414701105e306
]

/-- The least `int64_t`. -/
def INT64_MIN : Int := -2 ^ 63

/-- The greatest `int64_t`. -/
def INT64_MAX : Int := 2 ^ 63 - 1

/-- Two's-complement reduction of an integer to the `int64_t` range. -/
def wrap64 (z : Int) : Int := (z + 2 ^ 63) % 2 ^ 64 - 2 ^ 63

/-- Conversion of an `int64_t` to the unsigned 64-bit `size_t`. -/
def toSizeT (z : Int) : Nat := (z % 2 ^ 64).toNat

/-- The `int64_t` sum `a + b`. -/
def add64 (a b : Int) : Int := wrap64 (a + b)

/-- The `int64_t` difference `a - b`. -/
def sub64 (a b : Int) : Int := wrap64 (a - b)

/-- The `int64_t` negation `-a`. -/
def neg64 (a : Int) : Int := wrap64 (-a)

/-- The `int64_t` quotient `a / b`, rounded towards zero. -/
def div64 (a b : Int) : Int := wrap64 (Int.tdiv a b)

/-- The `int64_t` remainder `a % b`, with the sign of `a`. -/
def mod64 (a b : Int) : Int := wrap64 (Int.tmod a b)

/-- The read `t[i]` of a table of doubles at an `int64_t` index. -/
def readAt (t : List ℚ) (i : Int) : Option Dbl :=
  if i < 0 then none else (t.get? i.toNat).map Dbl.fin

/-- The function `constexpr bool is_even(int64_t n)`. -/
def is_even (n : Int) : Bool := mod64 n 2 == 0

/-- The function `double neg_eta(int64_t n)`. -/
def neg_eta (n : Int) : Option Dbl :=
  if n < 0 then
    if is_even n then
      some (Dbl.fin 0.0)
    else if toSizeT (div64 (neg64 (add64 1 n)) 2) < NEG_ETA_NEG_N.length then
      readAt NEG_ETA_NEG_N (div64 (neg64 (add64 1 n)) 2)
    else if is_even (div64 (sub64 1 n) 2) then
      some Dbl.inf
    else
      some Dbl.negInf
  else if n = 0 then
    some (Dbl.fin (-0.5))
  else if toSizeT n ≤ NEG_ETA.length then
    readAt NEG_ETA (sub64 n 1)
  else
    some (Dbl.fin (-1.0))

/-! ## Stages of the evaluators, named for the statements below

Each definition of this section is a fragment of one of the functions above,
with the same text; the lemmas of the section "The stages are the code" state
that the functions above are built from them. -/

/-- A call `log(a)` of `li2` that fails on an argument that is not strictly
positive. -/
def checkedLog (log : α → α) (a : α) : Option α :=
  if 0 < a then some (log a) else none

/-- A division `a / b` of `li2` that fails on the divisor zero. -/
def checkedDiv (a b : α) : Option α :=
  if b = 0 then none else some (a / b)

/-- The range classification of `li2` (lines 46-76) with every logarithm and
every division checked: `none` when a logarithm is taken of a number that is
not strictly positive, or a division has the divisor zero. -/
def li2.classify_checked (log : α → α) (T : α) : Option (α × α × α) :=
  if T ≤ -2 then do
    let Y ← checkedDiv (-1) (1 + T)
    let S := 1
    let B1 ← checkedLog log (-T)
    let B2 ← (checkedDiv 1 T).bind (fun d => checkedLog log (1 + d))
    let A := -li2.PI3 + li2.HF * (B1 * B1 - B2 * B2)
    pure (Y, S, A)
  else if T < -1 then do
    let Y := -1 - T
    let S := -1
    let A ← checkedLog log (-T)
    let L ← (checkedDiv 1 T).bind (fun d => checkedLog log (1 + d))
    let A := -li2.PI6 + A * (A + L)
    pure (Y, S, A)
  else if T ≤ -0.5 then do
    let Y ← checkedDiv (-(1 + T)) T
    let S := 1
    let A ← checkedLog log (-T)
    let L ← checkedLog log (1 + T)
    let A := -li2.PI6 + A * (-li2.HF * A + L)
    pure (Y, S, A)
  else if T < 0 then do
    let Y ← checkedDiv (-T) (1 + T)
    let S := -1
    let B1 ← checkedLog log (1 + T)
    let A := li2.HF * B1 * B1
    pure (Y, S, A)
  else if T ≤ 1 then
    let Y := T
    let S := 1
    let A := 0
    pure (Y, S, A)
  else do
    let Y ← checkedDiv 1 T
    let S := -1
    let B1 ← checkedLog log T
    let A := li2.PI6 + li2.HF * B1 * B1
    pure (Y, S, A)

/-- The transformation of `cli2` (lines 133-163): the tuple
`(cy, cz, jsgn, ipi12)`. -/
def cli2.transform (clog : DComplex α → DComplex α) (z : DComplex α) :
    DComplex α × DComplex α × Int × Int :=
  let r (v : α) : DComplex α := DComplex.ofReal v
  let rz := z.re
  let iz := z.im
  let nz := rz * rz + iz * iz
  let inversion : DComplex α × DComplex α × Int × Int :=
    let lz := clog (-z)
    let cy := r (-0.5) * lz * lz
    let cz := -clog (r 1.0 - r 1.0 / z)
    (cy, cz, -1, -2)
  if rz ≤ 0.5 then
    if nz > 1.0 then
      inversion
    else
      let cy := r 0
      let cz := -clog (r 1.0 - z)
      (cy, cz, 1, 0)
  else
    if nz ≤ 2 * rz then
      let cz := -clog z
      let cy := cz * clog (r 1.0 - z)
      (cy, cz, -1, 2)
    else
      inversion

/-- The constant `PI` of `Cl2(double)`. -/
def Cl2.PI : α := 3.14159265358979324

/-- The constant `p0` of `Cl2(double)`. -/
def Cl2.p0 : α := 6.28125

/-- The constant `p1` of `Cl2(double)`. -/
def Cl2.p1 : α := 0.0019353071795864769253

/-- The first two steps of `Cl2(double)` (lines 37-46): the absolute value with
its sign, and the remainder modulo `PI2`; the pair `(x, sgn)`. -/
def Cl2.remainder [FloorRing α] (x : α) : α × α :=
  let PI : α := Cl2.PI
  let PI2 := 2 * PI
  let sgn : α := 1
  let s1 : α × α := if x < 0 then (-x, -1) else (x, sgn)
  let x := s1.1
  let sgn := s1.2
  let x := if x ≥ PI2 then fmod x PI2 else x
  (x, sgn)

/-- The argument reduction of `Cl2(double)` (lines 37-53): the remainder,
reflected when it exceeds `PI`; the pair `(x, sgn)`. -/
def Cl2.reduce [FloorRing α] (x : α) : α × α :=
  let PI : α := Cl2.PI
  let s := Cl2.remainder x
  let x := s.1
  let sgn := s.2
  if x > PI then
    let p0 : α := Cl2.p0
    let p1 : α := Cl2.p1
    ((p0 - x) + p1, -sgn)
  else (x, sgn)

/-- The constant `PI` of `Cl2(long double)`. -/
def Cl2_long_double.PI : α := 3.14159265358979323846264338327950288

/-- The constant `p0` of `Cl2(long double)`. -/
def Cl2_long_double.p0 : α := 6.28125

/-- The constant `p1` of `Cl2(long double)`. -/
def Cl2_long_double.p1 : α := 0.0019353071795864769252867665590057683943

/-- The first two steps of `Cl2(long double)` (lines 117-126): the pair
`(x, sgn)`. -/
def Cl2_long_double.remainder [FloorRing α] (x : α) : α × α :=
  let PI : α := Cl2_long_double.PI
  let PI2 := 2 * PI
  let sgn : α := 1
  let s1 : α × α := if x < 0 then (-x, -1) else (x, sgn)
  let x := s1.1
  let sgn := s1.2
  let x := if x ≥ PI2 then fmod x PI2 else x
  (x, sgn)

/-- The argument reduction of `Cl2(long double)` (lines 117-133): the pair
`(x, sgn)`. -/
def Cl2_long_double.reduce [FloorRing α] (x : α) : α × α :=
  let PI : α := Cl2_long_double.PI
  let s := Cl2_long_double.remainder x
  let x := s.1
  let sgn := s.2
  if x > PI then
    let p0 : α := Cl2_long_double.p0
    let p1 : α := Cl2_long_double.p1
    ((p0 - x) + p1, -sgn)
  else (x, sgn)

/-- The numerator `p` of the `x < PIH` branch of `Cl3(long double)`
(lines 143-148), as a function of `z`. -/
def Cl3_long_double.low.p (z : α) : α :=
  let P (i : Nat) : α := Cl3_long_double.low.P.getD i 0
  let z2 := z * z
  let z4 := z2 * z2
  let z8 := z4 * z4
  P 0 + z * P 1 + z2 * (P 2 + z * P 3) +
    z4 * (P 4 + z * P 5 + z2 * (P 6 + z * P 7)) + z8 * P 8

/-- The denominator `q` of the `x < PIH` branch of `Cl3(long double)`
(lines 143-150), as a function of `z`. -/
def Cl3_long_double.low.q (z : α) : α :=
  let Q (i : Nat) : α := Cl3_long_double.low.Q.getD i 0
  let z2 := z * z
  let z4 := z2 * z2
  let z8 := z4 * z4
  Q 0 + z * Q 1 + z2 * (Q 2 + z * Q 3) +
    z4 * (Q 4 + z * Q 5 + z2 * (Q 6 + z * Q 7)) + z8 * Q 8

/-- The numerator `p` of the `x >= PIH` branch of `Cl3(long double)`
(lines 205-214), as a function of `z`. -/
def Cl3_long_double.high.p (z : α) : α :=
  let P (i : Nat) : α := Cl3_long_double.high.P.getD i 0
  let z2 := z * z
  let z4 := z2 * z2
  let z8 := z4 * z4
  let z16 := z8 * z8
  P 0 + z * P 1 + z2 * (P 2 + z * P 3) +
    z4 * (P 4 + z * P 5 + z2 * (P 6 + z * P 7)) +
    z8 * (P 8 + z * P 9 + z2 * (P 10 + z * P 11) +
        z4 * (P 12 + z * P 13 + z2 * (P 14 + z * P 15))) +
    z16 * (P 16 + z * P 17 + z2 * (P 18 + z * P 19) +
         z4 * (P 20 + z * P 21 + z2 * P 22))

/-- The denominator `q` of the `x >= PIH` branch of `Cl3(long double)`
(lines 205-220), as a function of `z`. -/
def Cl3_long_double.high.q (z : α) : α :=
  let Q (i : Nat) : α := Cl3_long_double.high.Q.getD i 0
  let z2 := z * z
  let z4 := z2 * z2
  let z8 := z4 * z4
  let z16 := z8 * z8
  Q 0 + z * Q 1 + z2 * (Q 2 + z * Q 3) +
    z4 * (Q 4 + z * Q 5 + z2 * (Q 6 + z * Q 7)) +
    z8 * (Q 8 + z * Q 9 + z2 * (Q 10 + z * Q 11) +
        z4 * (Q 12 + z * Q 13 + z2 * (Q 14 + z * Q 15))) +
    z16 * (Q 16 + z * Q 17 + z2 * (Q 18 + z * Q 19) +
         z4 * (Q 20 + z * Q 21 + z2 * Q 22))

/-! ## Literal types, signs and the unbounded `neg_eta` -/

/-- The type that the suffix of a floating-point literal gives it: `double`
without a suffix, `long double` with the suffix `l` or `L`. -/
inductive LiteralType where
  /-- A literal without suffix. -/
  | double
  /-- A literal with the suffix `l` or `L`. -/
  | long_double
deriving DecidableEq

/-- The literals of the table `P[]` of the `x < PIH` branch of
`Cl2(long double)`, each with the type of its suffix in the source. -/
def Cl2_long_double.low.P_literals : List (α × LiteralType) := [
    (2.795156582241927046412081735910646612854e-02, LiteralType.long_double),
    (-2.704528039782130831727668760352473119745e-03, LiteralType.long_double),
    (1.058576547177802928762582430994046913011e-04, LiteralType.long_double),
    (-2.147507975446829791077479076828450780219e-06, LiteralType.long_double),
    (2.401415296681270093111305488326496124531e-08, LiteralType.long_double),
    (-1.450571790543608936928129678333156785370e-10, LiteralType.long_double),
    (4.280534901040925211965221454555516657749e-13, LiteralType.long_double),
    (-4.792802237226483806823208684186867186935e-16, LiteralType.long_double),
    (8.883657381852830471176782778999368430017e-20, LiteralType.long_double)
  ]

/-- The literals of the table `Q[]` of the `x < PIH` branch of
`Cl2(long double)`, each with the type of its suffix in the source. -/
def Cl2_long_double.low.Q_literals : List (α × LiteralType) := [
    (1.0, LiteralType.long_double),
    (-1.018694323414614410071369720193716012304e-01, LiteralType.long_double),
    (4.248408782245281612900840467370146443889e-03, LiteralType.long_double),
    (-9.337710301347963985908084056584187570954e-05, LiteralType.long_double),
    (1.159379163193822053103946363960603543601e-06, LiteralType.long_double),
    (-8.083352720393357000801675734774176899515e-09, LiteralType.long_double),
    (2.949313240431512997069808854213308209519e-11, LiteralType.long_double),
    (-4.742700419624204182400715964695278593777e-14, LiteralType.long_double),
    (2.158380636740175386190809152807629331877e-17, LiteralType.long_double)
  ]

/-- The literals of the table `P[]` of the `x >= PIH` branch of
`Cl2(long double)`, each with the type of its suffix in the source. -/
def Cl2_long_double.high.P_literals : List (α × LiteralType) := [
    (6.400570244619551220929428522356830562481e-01, LiteralType.long_double),
    (-4.651631624886004423703445967760673575997e-01, LiteralType.long_double),
    (1.487130845262105644024901814213146749895e-01, LiteralType.long_double),
    (-2.749665174801454303884783494225610407035e-02, LiteralType.long_double),
    (3.251522465413666561950482170352156048203e-03, LiteralType.long_double),
    (-2.567438381297475310848635518657180974512e-04, LiteralType.long_double),
    (1.372076105130164861564020074178493529151e-05, LiteralType.long_double),
    (-4.924179093673498700461153483531075799113e-07, LiteralType.long_double),
    (1.153267936031337440182387313169828395860e-08, LiteralType.long_double),
    (-1.667578310677508029208023423625588832295e-10, LiteralType.long_double),
    (1.348437292247918547169070120217729056878e-12, LiteralType.long_double),
    (-5.052245092698477071447850656280954693011e-15, LiteralType.long_double),
    (5.600638109466570497480415519182233229048e-18, LiteralType.double)
  ]

/-- The literals of the table `Q[]` of the `x >= PIH` branch of
`Cl2(long double)`, each with the type of its suffix in the source. -/
def Cl2_long_double.high.Q_literals : List (α × LiteralType) := [
    (1.0, LiteralType.long_double),
    (-6.572465772185054284667746526549393897676e-01, LiteralType.long_double),
    (1.886234634096976582977630140163583172173e-01, LiteralType.long_double),
    (-3.103347567899737687117030083178445406132e-02, LiteralType.long_double),
    (3.230860399291224478336071920154030050234e-03, LiteralType.long_double),
    (-2.216546569335921728108984951507368387512e-04, LiteralType.long_double),
    (1.011949972138985643994631167412420906088e-05, LiteralType.long_double),
    (-3.033400935206767852937290458763547850384e-07, LiteralType.long_double),
    (5.748454611964843057644023468691231929690e-09, LiteralType.long_double),
    (-6.408350048413952604351408631173781906861e-11, LiteralType.long_double),
    (3.678584366662951864267349037579031493395e-13, LiteralType.long_double),
    (-8.240439699357036167611014086997683837396e-16, LiteralType.long_double),
    (3.041049046123062158788159773779755292771e-19, LiteralType.long_double)
  ]

/-- The sign of a `double`: `-1` for a strictly negative value and for
`-infinity`, `1` for a strictly positive value and for `+infinity`, `0` for
zero. -/
def Dbl.sign : Dbl → Int
  | Dbl.fin v => if v < 0 then -1 else if 0 < v then 1 else 0
  | Dbl.inf => 1
  | Dbl.negInf => -1

/-- The branches of `neg_eta` evaluated over the unbounded integers: the same
tests and the same results as `neg_eta`, with no wraparound and no conversion
to `size_t`. -/
def neg_eta_unbounded (n : Int) : Option Dbl :=
  if n < 0 then
    if Int.tmod n 2 = 0 then
      some (Dbl.fin 0.0)
    else if Int.tdiv (-(1 + n)) 2 < (NEG_ETA_NEG_N.length : Int) then
      readAt NEG_ETA_NEG_N (Int.tdiv (-(1 + n)) 2)
    else if Int.tmod (Int.tdiv (1 - n) 2) 2 = 0 then
      some Dbl.inf
    else
      some Dbl.negInf
  else if n = 0 then
    some (Dbl.fin (-0.5))
  else if n ≤ (NEG_ETA.length : Int) then
    readAt NEG_ETA (n - 1)
  else
    some (Dbl.fin (-1.0))

/-! ## Binary floating point: formats and rounding to nearest

The finite numbers of a binary floating-point format are the integers of
magnitude below `2^p` times a power of two whose exponent lies between `emin`
and `emax`: `p = 53`, `emin = -1074`, `emax = 971` for IEEE `double`;
`p = 64`, `emin = -16445`, `emax = 16320` for the extended format of the x87;
`p = 113`, `emin = -16494`, `emax = 16271` for IEEE binary128.  The rounding
to nearest with ties to even is a function on the rationals; it does not model
overflow: no evaluation below leaves the range of the finite numbers. -/

/-- A finite number of the binary floating-point format with `p` significant
bits and last-place exponents from `emin` to `emax`. -/
def IsFloat (p : Nat) (emin emax : Int) (q : ℚ) : Prop :=
  ∃ m e : Int, |m| < 2 ^ p ∧ emin ≤ e ∧ e ≤ emax ∧ q = (m : ℚ) * (2 : ℚ) ^ e

/-- A finite IEEE `double`: an integer of magnitude below `2^53` times a power
of two with exponent between `-1074` and `971`. -/
def IsDouble (q : ℚ) : Prop :=
  IsFloat 53 (-1074) 971 q

/-- The binary logarithm of a natural number, rounded down, by repeated
halving (`0` at `0`); the first argument bounds the number of halvings. -/
def log2Fuel : Nat → Nat → Nat
  | 0, _ => 0
  | fuel + 1, n => if 2 ≤ n then log2Fuel fuel (n / 2) + 1 else 0

/-- The binade of a positive rational `a`: the exponent `e` with
`2^e ≤ a < 2^(e+1)`. -/
def ilog2 (a : ℚ) : Int :=
  let e0 : Int := (log2Fuel a.num.natAbs a.num.natAbs : Int) - (log2Fuel a.den a.den : Int)
  if (2 : ℚ) ^ e0 ≤ a then e0 else e0 - 1

/-- The integer nearest to a rational, the even one of the two at a tie. -/
def roundHalfEven (q : ℚ) : Int :=
  let f := ⌊q⌋
  let r := q - f
  if r < 1 / 2 then f else if 1 / 2 < r then f + 1 else if f % 2 = 0 then f else f + 1

/-- The exponent of the spacing of the format with `p` significant bits at a
rational `q`: the binade of `q` less `p - 1`, and `emin` in the subnormal
range. -/
def ulpExp (p : Nat) (emin : Int) (q : ℚ) : Int :=
  max (ilog2 |q| - ((p : Int) - 1)) emin

/-- The number of the format with `p` significant bits nearest to a rational,
ties to even: the multiple of the spacing `2^e` of the format at `q` that is
nearest to `q`. -/
def roundFloat (p : Nat) (emin : Int) (q : ℚ) : ℚ :=
  let e := ulpExp p emin q
  (roundHalfEven (q / 2 ^ e) : ℚ) * 2 ^ e

/-- The double nearest to a rational, ties to even. -/
def roundDouble (q : ℚ) : ℚ :=
  roundFloat 53 (-1074) q

/-! ## `Cl2(double)` in IEEE double arithmetic

The function `Cl2(double)` once more, over the rationals, with the constants
the doubles nearest to the literals of the source and with every arithmetic
operation followed by the rounding `rnd` to a double.  The absolute value, the
negation, the comparisons and `fmod` are exact in IEEE arithmetic and carry no
rounding; `std::log` is the parameter `log`, called through `checkedLog`, so
that the result is `none` when a logarithm is taken of a number that is not
strictly positive.  Fused operations and wider intermediate precision are not
part of this model. -/

/-- The constant `PI` of `Cl2(double)`: the double nearest to the literal
`3.14159265358979324`. -/
def Cl2_ieee.PI : ℚ := roundDouble 3.14159265358979324

/-- The constant `p0` of `Cl2(double)`: the double nearest to the literal
`6.28125`. -/
def Cl2_ieee.p0 : ℚ := roundDouble 6.28125

/-- The constant `p1` of `Cl2(double)`: the double nearest to the literal
`0.0019353071795864769253`. -/
def Cl2_ieee.p1 : ℚ := roundDouble 0.0019353071795864769253

/-- The table `P[]` of the `x < PIH` branch of `Cl2(double)` as doubles. -/
def Cl2_ieee.low.P : List ℚ := (Cl2.low.P : List ℚ).map roundDouble

/-- The table `Q[]` of the `x < PIH` branch of `Cl2(double)` as doubles. -/
def Cl2_ieee.low.Q : List ℚ := (Cl2.low.Q : List ℚ).map roundDouble

/-- The table `P[]` of the `x >= PIH` branch of `Cl2(double)` as doubles. -/
def Cl2_ieee.high.P : List ℚ := (Cl2.high.P : List ℚ).map roundDouble

/-- The table `Q[]` of the `x >= PIH` branch of `Cl2(double)` as doubles. -/
def Cl2_ieee.high.Q : List ℚ := (Cl2.high.Q : List ℚ).map roundDouble

/-- The first two steps of `Cl2(double)` (lines 37-46) in double arithmetic:
the pair `(x, sgn)`. -/
def Cl2_ieee.remainder (rnd : ℚ → ℚ) (x : ℚ) : ℚ × ℚ :=
  let PI : ℚ := Cl2_ieee.PI
  let PI2 := rnd (2 * PI)
  let sgn : ℚ := 1
  let s1 : ℚ × ℚ := if x < 0 then (-x, -1) else (x, sgn)
  let x := s1.1
  let sgn := s1.2
  let x := if x ≥ PI2 then fmod x PI2 else x
  (x, sgn)

/-- The argument reduction of `Cl2(double)` (lines 37-53) in double
arithmetic: the pair `(x, sgn)` reached before the early exit. -/
def Cl2_ieee.reduce (rnd : ℚ → ℚ) (x : ℚ) : ℚ × ℚ :=
  let PI : ℚ := Cl2_ieee.PI
  let s := Cl2_ieee.remainder rnd x
  let x := s.1
  let sgn := s.2
  if x > PI then
    let p0 : ℚ := Cl2_ieee.p0
    let p1 : ℚ := Cl2_ieee.p1
    (rnd (rnd (p0 - x) + p1), -sgn)
  else (x, sgn)

/-- The `x < PIH` branch of `Cl2(double)` in double arithmetic: the value of
`h`, or `none` when `log` is called on a number that is not strictly
positive. -/
def Cl2_ieee.low (rnd : ℚ → ℚ) (log : ℚ → ℚ) (PI28 x : ℚ) : Option ℚ :=
  let P (i : Nat) : ℚ := Cl2_ieee.low.P.getD i 0
  let Q (i : Nat) : ℚ := Cl2_ieee.low.Q.getD i 0
  let y := rnd (x * x)
  let z := rnd (y - PI28)
  let z2 := rnd (z * z)
  let p := rnd (rnd (P 0 + rnd (z * P 1)) + rnd (z2 * rnd (P 2 + rnd (z * P 3))))
  let q := rnd (rnd (Q 0 + rnd (z * Q 1)) + rnd (z2 * rnd (Q 2 + rnd (z * Q 3))))
  (checkedLog log x).map
    (fun l => rnd (x * rnd (rnd (1 - l) + rnd (rnd (rnd (y * p) / q) / 2))))

/-- The `x >= PIH` branch of `Cl2(double)` in double arithmetic: the value of
`h`. -/
def Cl2_ieee.high (rnd : ℚ → ℚ) (PI PI28 x : ℚ) : ℚ :=
  let P (i : Nat) : ℚ := Cl2_ieee.high.P.getD i 0
  let Q (i : Nat) : ℚ := Cl2_ieee.high.Q.getD i 0
  let y := rnd (PI - x)
  let z := rnd (rnd (y * y) - PI28)
  let z2 := rnd (z * z)
  let z4 := rnd (z2 * z2)
  let p := rnd (rnd (rnd (P 0 + rnd (z * P 1)) + rnd (z2 * rnd (P 2 + rnd (z * P 3))))
    + rnd (z4 * rnd (P 4 + rnd (z * P 5))))
  let q := rnd (rnd (rnd (Q 0 + rnd (z * Q 1)) + rnd (z2 * rnd (Q 2 + rnd (z * Q 3))))
    + rnd (z4 * rnd (Q 4 + rnd (z * Q 5))))
  rnd (rnd (y * p) / q)

/-- The function `double Cl2(double x)` in double arithmetic; `none` when a
logarithm is taken of a number that is not strictly positive. -/
def Cl2_ieee (rnd : ℚ → ℚ) (log : ℚ → ℚ) (x : ℚ) : Option ℚ :=
  let PI : ℚ := Cl2_ieee.PI
  let PIH := rnd (PI / 2)
  let PI28 := rnd (rnd (PI * PI) / 8)
  let s := Cl2_ieee.reduce rnd x
  let x := s.1
  let sgn := s.2
  if x = 0 ∨ x = PI then
    some 0
  else
    let h := if x < PIH then Cl2_ieee.low rnd log PI28 x
      else some (Cl2_ieee.high rnd PI PI28 x)
    h.map (fun h => rnd (sgn * h))

/-! ## `Cl2(long double)` in floating-point arithmetic

The function `Cl2(long double)` in the arithmetic of a binary format with `p`
significant bits and least exponent `emin`, which stands for the format of
`long double` on the platform.  A literal with the suffix `l` or `L` is the
number of the format nearest to it; the one literal without suffix is first
rounded to a double.  Every arithmetic operation is followed by the rounding
`rnd` to the format. -/

/-- The value of a literal in the long double format: rounded to the format,
after a rounding to double when the literal has no suffix. -/
def Cl2_long_double_ieee.literal (p : Nat) (emin : Int) (c : ℚ × LiteralType) : ℚ :=
  match c.2 with
  | LiteralType.double => roundFloat p emin (roundDouble c.1)
  | LiteralType.long_double => roundFloat p emin c.1

/-- The constant `PI` of `Cl2(long double)` in the format. -/
def Cl2_long_double_ieee.PI (p : Nat) (emin : Int) : ℚ :=
  roundFloat p emin 3.14159265358979323846264338327950288

/-- The constant `p0` of `Cl2(long double)` in the format. -/
def Cl2_long_double_ieee.p0 (p : Nat) (emin : Int) : ℚ :=
  roundFloat p emin 6.28125

/-- The constant `p1` of `Cl2(long double)` in the format. -/
def Cl2_long_double_ieee.p1 (p : Nat) (emin : Int) : ℚ :=
  roundFloat p emin 0.0019353071795864769252867665590057683943

/-- The template `horner` of `Cl2.cpp` in floating-point arithmetic: each
pass is `p = p*x + c[i]` with two roundings. -/
def horner_ieee (rnd : ℚ → ℚ) (x : ℚ) (c : List ℚ) : ℚ :=
  let N := c.length
  let p := c.getD (N - 1) 0
  ((List.range (N - 1)).reverse).foldl (fun p i => rnd (rnd (p * x) + c.getD i 0)) p

/-- The first two steps of `Cl2(long double)` (lines 117-126) in
floating-point arithmetic: the pair `(x, sgn)`. -/
def Cl2_long_double_ieee.remainder (p : Nat) (emin : Int) (rnd : ℚ → ℚ) (x : ℚ) :
    ℚ × ℚ :=
  let PI : ℚ := Cl2_long_double_ieee.PI p emin
  let PI2 := rnd (2 * PI)
  let sgn : ℚ := 1
  let s1 : ℚ × ℚ := if x < 0 then (-x, -1) else (x, sgn)
  let x := s1.1
  let sgn := s1.2
  let x := if x ≥ PI2 then fmod x PI2 else x
  (x, sgn)

/-- The argument reduction of `Cl2(long double)` (lines 117-133) in
floating-point arithmetic: the pair `(x, sgn)` reached before the early
exit. -/
def Cl2_long_double_ieee.reduce (p : Nat) (emin : Int) (rnd : ℚ → ℚ) (x : ℚ) :
    ℚ × ℚ :=
  let PI : ℚ := Cl2_long_double_ieee.PI p emin
  let s := Cl2_long_double_ieee.remainder p emin rnd x
  let x := s.1
  let sgn := s.2
  if x > PI then
    let p0 : ℚ := Cl2_long_double_ieee.p0 p emin
    let p1 : ℚ := Cl2_long_double_ieee.p1 p emin
    (rnd (rnd (p0 - x) + p1), -sgn)
  else (x, sgn)

/-- The `x < PIH` branch of `Cl2(long double)` in floating-point arithmetic:
the value of `h`, or `none` when `log` is called on a number that is not
strictly positive. -/
def Cl2_long_double_ieee.low (p : Nat) (emin : Int) (rnd : ℚ → ℚ) (log : ℚ → ℚ)
    (PI28 x : ℚ) : Option ℚ :=
  let P : List ℚ := (Cl2_long_double.low.P_literals : List (ℚ × LiteralType)).map
    (Cl2_long_double_ieee.literal p emin)
  let Q : List ℚ := (Cl2_long_double.low.Q_literals : List (ℚ × LiteralType)).map
    (Cl2_long_double_ieee.literal p emin)
  let y := rnd (x * x)
  let z := rnd (y - PI28)
  let pp := horner_ieee rnd z P
  let q := horner_ieee rnd z Q
  (checkedLog log x).map
    (fun l => rnd (x * rnd (rnd (1 - l) + rnd (rnd (rnd (y * pp) / q) / 2))))

/-- The `x >= PIH` branch of `Cl2(long double)` in floating-point arithmetic:
the value of `h`. -/
def Cl2_long_double_ieee.high (p : Nat) (emin : Int) (rnd : ℚ → ℚ) (PI PI28 x : ℚ) : ℚ :=
  let P : List ℚ := (Cl2_long_double.high.P_literals : List (ℚ × LiteralType)).map
    (Cl2_long_double_ieee.literal p emin)
  let Q : List ℚ := (Cl2_long_double.high.Q_literals : List (ℚ × LiteralType)).map
    (Cl2_long_double_ieee.literal p emin)
  let y := rnd (PI - x)
  let z := rnd (rnd (y * y) - PI28)
  let pp := horner_ieee rnd z P
  let q := horner_ieee rnd z Q
  rnd (rnd (y * pp) / q)

/-- The function `long double Cl2(long double x)` in floating-point
arithmetic; `none` when a logarithm is taken of a number that is not strictly
positive. -/
def Cl2_long_double_ieee (p : Nat) (emin : Int) (rnd : ℚ → ℚ) (log : ℚ → ℚ) (x : ℚ) :
    Option ℚ :=
  let PI : ℚ := Cl2_long_double_ieee.PI p emin
  let PIH := rnd (PI / 2)
  let PI28 := rnd (rnd (PI * PI) / 8)
  let s := Cl2_long_double_ieee.reduce p emin rnd x
  let x := s.1
  let sgn := s.2
  if x = 0 ∨ x = PI then
    some 0
  else
    let h := if x < PIH then Cl2_long_double_ieee.low p emin rnd log PI28 x
      else some (Cl2_long_double_ieee.high p emin rnd PI PI28 x)
    h.map (fun h => rnd (sgn * h))

/-- The argument reduction that the two overloads of `Cl2` share (lines
37-53 and 117-133), with the constants `PI`, `p0`, `p1` as arguments: first
the pair `(x, sgn)` after the absolute value and the remainder. -/
def Cl2_float.remainder (PI : ℚ) (rnd : ℚ → ℚ) (x : ℚ) : ℚ × ℚ :=
  let PI2 := rnd (2 * PI)
  let sgn : ℚ := 1
  let s1 : ℚ × ℚ := if x < 0 then (-x, -1) else (x, sgn)
  let x := s1.1
  let sgn := s1.2
  let x := if x ≥ PI2 then fmod x PI2 else x
  (x, sgn)

/-- The argument reduction that the two overloads of `Cl2` share, with the
constants as arguments: the pair `(x, sgn)` reached before the early exit. -/
def Cl2_float.reduce (PI p0 p1 : ℚ) (rnd : ℚ → ℚ) (x : ℚ) : ℚ × ℚ :=
  let s := Cl2_float.remainder PI rnd x
  let x := s.1
  let sgn := s.2
  if x > PI then
    (rnd (rnd (p0 - x) + p1), -sgn)
  else (x, sgn)

/-! ## `li2` in IEEE double arithmetic

The function `li2` once more with the constants the doubles that the
literals denote and with every arithmetic operation followed by a rounding.
Negation and the comparisons are exact; the zero of the rationals stands for
both signed zeros, which the comparisons of `li2` do not tell apart; `log` is
the parameter `log`.  Fused operations and wider intermediate precision are
not part of this model. -/

/-- The constant `PI` of `li2` as a double. -/
def li2_ieee.PI (rnd : ℚ → ℚ) : ℚ := rnd 3.141592653589793

/-- The constant `HF` of `li2` as a double. -/
def li2_ieee.HF (rnd : ℚ → ℚ) : ℚ := rnd 0.5

/-- The constant `PI2 = PI*PI` of `li2` as a double. -/
def li2_ieee.PI2 (rnd : ℚ → ℚ) : ℚ := rnd (li2_ieee.PI rnd * li2_ieee.PI rnd)

/-- The constant `PI3 = PI2/3` of `li2` as a double. -/
def li2_ieee.PI3 (rnd : ℚ → ℚ) : ℚ := rnd (li2_ieee.PI2 rnd / 3)

/-- The constant `PI6 = PI2/6` of `li2` as a double. -/
def li2_ieee.PI6 (rnd : ℚ → ℚ) : ℚ := rnd (li2_ieee.PI2 rnd / 6)

/-- The constant `PI12 = PI2/12` of `li2` as a double. -/
def li2_ieee.PI12 (rnd : ℚ → ℚ) : ℚ := rnd (li2_ieee.PI2 rnd / 12)

/-- The table `C[20]` of `li2` as doubles: every literal rounded. -/
def li2_ieee.C (rnd : ℚ → ℚ) : List ℚ := (li2.C : List ℚ).map rnd

/-- The range classification of `li2` (lines 46-76) in double arithmetic:
from `T = -x` to the triple `(Y, S, A)`. -/
def li2_ieee.classify (rnd : ℚ → ℚ) (log : ℚ → ℚ) (T : ℚ) : ℚ × ℚ × ℚ :=
  let HF := li2_ieee.HF rnd
  if T ≤ -2 then
    let Y := rnd ((-1) / rnd (1 + T))
    let S := 1
    let B1 := log (-T)
    let B2 := log (rnd (1 + rnd (1 / T)))
    let A := rnd (-li2_ieee.PI3 rnd + rnd (HF * rnd (rnd (B1 * B1) - rnd (B2 * B2))))
    (Y, S, A)
  else if T < -1 then
    let Y := rnd (-1 - T)
    let S := -1
    let A := log (-T)
    let A := rnd (-li2_ieee.PI6 rnd + rnd (A * rnd (A + log (rnd (1 + rnd (1 / T))))))
    (Y, S, A)
  else if T ≤ -0.5 then
    let Y := rnd ((-rnd (1 + T)) / T)
    let S := 1
    let A := log (-T)
    let A := rnd (-li2_ieee.PI6 rnd + rnd (A * rnd (rnd (-HF * A) + log (rnd (1 + T)))))
    (Y, S, A)
  else if T < 0 then
    let Y := rnd ((-T) / rnd (1 + T))
    let S := -1
    let B1 := log (rnd (1 + T))
    let A := rnd (rnd (HF * B1) * B1)
    (Y, S, A)
  else if T ≤ 1 then
    let Y := T
    let S := 1
    let A := 0
    (Y, S, A)
  else
    let Y := rnd (1 / T)
    let S := -1
    let B1 := log T
    let A := rnd (li2_ieee.PI6 rnd + rnd (rnd (HF * B1) * B1))
    (Y, S, A)

/-- One pass of the loop body of `li2` (lines 82-84) in double arithmetic on
the state `(B0, B1, B2)`, reading `C[i]`. -/
def li2_ieee.step (rnd : ℚ → ℚ) (ALFA : ℚ) (st : ℚ × ℚ × ℚ) (i : Nat) : ℚ × ℚ × ℚ :=
  let B0 := rnd (rnd ((li2_ieee.C rnd).getD i 0 + rnd (ALFA * st.2.1)) - st.2.2)
  let B2 := st.2.1
  let B1 := B0
  (B0, B1, B2)

/-- The loop `for (int i = 19; i >= 0; i--)` of `li2` in double arithmetic,
started from `B1 = B2 = 0`. -/
def li2_ieee.loop (rnd : ℚ → ℚ) (ALFA : ℚ) : ℚ × ℚ × ℚ :=
  ((List.range 20).reverse).foldl (li2_ieee.step rnd ALFA) (0, 0, 0)

/-- The lines 77-86 of `li2` in double arithmetic: from `(Y, S, A)` to the
returned `H = -(S*(B0-H*B2)+A)`. -/
def li2_ieee.series (rnd : ℚ → ℚ) (Y S A : ℚ) : ℚ :=
  let H := rnd (rnd (Y + Y) - 1)
  let ALFA := rnd (H + H)
  let st := li2_ieee.loop rnd ALFA
  let B0 := st.1
  let B2 := st.2.2
  let H := -(rnd (rnd (S * rnd (B0 - rnd (H * B2))) + A))
  H

/-- The function `double li2(double x)` in double arithmetic. -/
def li2_ieee (rnd : ℚ → ℚ) (log : ℚ → ℚ) (x : ℚ) : ℚ :=
  if x = 1 then
    li2_ieee.PI6 rnd
  else if x = -1 then
    -li2_ieee.PI12 rnd
  else
    let T := -x
    let YSA := li2_ieee.classify rnd log T
    li2_ieee.series rnd YSA.1 YSA.2.1 YSA.2.2

/-! ## The literals `0.0` and `1.0` -/

theorem lit_zero : (0.0 : α) = 0 := by norm_num

theorem lit_one : (1.0 : α) = 1 := by norm_num

theorem lit_half : (0.5 : α) = 1 / 2 := by norm_num

/-! ## Component lemmas for `DComplex` -/

namespace DComplex

@[simp] theorem ofReal_re (r : α) : (ofReal r).re = r := rfl
@[simp] theorem ofReal_im (r : α) : (ofReal r).im = 0 := rfl
@[simp] theorem I_re : (I : DComplex α).re = 0 := rfl
@[simp] theorem I_im : (I : DComplex α).im = 1 := rfl
@[simp] theorem add_re (a b : DComplex α) : (a + b).re = a.re + b.re := rfl
@[simp] theorem add_im (a b : DComplex α) : (a + b).im = a.im + b.im := rfl
@[simp] theorem sub_re (a b : DComplex α) : (a - b).re = a.re - b.re := rfl
@[simp] theorem sub_im (a b : DComplex α) : (a - b).im = a.im - b.im := rfl
@[simp] theorem mul_re (a b : DComplex α) :
    (a * b).re = a.re * b.re - a.im * b.im := rfl
@[simp] theorem mul_im (a b : DComplex α) :
    (a * b).im = a.re * b.im + a.im * b.re := rfl

end DComplex

/-! ## The special values of `li2` and the real axis of `cli2` -/

/-- C1: `li2(1)` is `PI*PI/6` and `li2(-1)` is `-(PI*PI)/12` with
`PI = 3.141592653589793`, whatever the library `log` is: the two values are
produced by the first two tests of `li2`, before the range classification and
the Chebyshev loop. -/
theorem li2_special_values (log : α → α) :
    li2 log 1 = (3.141592653589793 : α) * 3.141592653589793 / 6 ∧
    li2 log (-1) = -((3.141592653589793 : α) * 3.141592653589793) / 12 := by
  have hne : (-1 : α) ≠ 1 := by norm_num
  constructor
  · simp [li2, li2.PI6, li2.PI2, li2.PI]
  · simp [li2, hne, li2.PI12, li2.PI2, li2.PI, neg_div]

/-- C2: on the real axis, `cli2(x + 0i)` has real part `li2(x)` and imaginary
part `0` for `x <= 1`, `-PI*log(x)` for `x > 1`; `cli2_(x, 0, &re, &im)` writes
exactly these two components. -/
theorem cli2_real_axis (log : α → α) (clog : DComplex α → DComplex α) (x : α) :
    (cli2 log clog ⟨x, 0⟩).re = li2 log x ∧
    (cli2 log clog ⟨x, 0⟩).im = (if x ≤ 1 then 0 else -li2.PI * log x) ∧
    cli2_ log clog x 0 = (li2 log x, if x ≤ 1 then 0 else -li2.PI * log x) := by
  have hz : DComplex.ofReal x + DComplex.I * DComplex.ofReal (0 : α)
      = (⟨x, 0⟩ : DComplex α) := by
    show DComplex.mk _ _ = _
    simp
  have key : cli2 log clog ⟨x, 0⟩ =
      ⟨li2 log x, if x ≤ 1 then 0 else -li2.PI * log x⟩ := by
    by_cases h : x ≤ 1
    · have : cli2 log clog ⟨x, 0⟩
          = DComplex.ofReal (li2 log x) + DComplex.ofReal 0.0 * DComplex.I := by
        simp [cli2, h, lit_zero, lit_one]
      rw [this]
      show DComplex.mk _ _ = _
      simp [h, lit_zero]
    · have h1 : 1 < x := lt_of_not_ge h
      have : cli2 log clog ⟨x, 0⟩
          = DComplex.ofReal (li2 log x)
            - DComplex.ofReal (li2.PI * log x) * DComplex.I := by
        simp [cli2, h, h1, lit_zero, lit_one]
      rw [this]
      show DComplex.mk _ _ = _
      simp [h, lit_zero]
  refine ⟨by rw [key], by rw [key], ?_⟩
  simp only [cli2_, hz, key]

/-! ## Symmetry of the Clausen functions -/

/-- C3: `Cl2` is odd in both tiers: `Cl2(-theta) = -Cl2(theta)` for the
`double` and for the `long double` overload. -/
theorem Cl2_odd [FloorRing α] (log : α → α) (θ : α) :
    Cl2 log (-θ) = -Cl2 log θ ∧
    Cl2_long_double log (-θ) = -Cl2_long_double log θ := by
  rcases lt_trichotomy θ 0 with h | h | h
  · have h' : ¬ (-θ < 0) := by
      simp only [neg_lt_zero, not_lt]
      exact h.le
    constructor
    · simp only [Cl2, h, h', if_true, if_false, neg_neg]
      split_ifs <;> ring
    · simp only [Cl2_long_double, h, h', if_true, if_false, neg_neg]
      split_ifs <;> ring
  · subst h
    have hPI2 : ¬ ((2 : α) * 3.14159265358979324 ≤ 0) := by norm_num
    have hPI : ¬ ((3.14159265358979324 : α) < 0) := by norm_num
    have hPI2l : ¬ ((2 : α) * 3.14159265358979323846264338327950288 ≤ 0) := by
      norm_num
    have hPIl : ¬ ((3.14159265358979323846264338327950288 : α) < 0) := by
      norm_num
    constructor
    · simp [Cl2, hPI2, hPI]
    · simp [Cl2_long_double, hPI2l, hPIl]
  · have h' : -θ < 0 := by
      simp only [neg_lt_zero]
      exact h
    have hge : ¬ (θ < 0) := not_lt.mpr h.le
    constructor
    · simp only [Cl2, h', hge, if_true, if_false, neg_neg]
      split_ifs <;> ring
    · simp only [Cl2_long_double, h', hge, if_true, if_false, neg_neg]
      split_ifs <;> ring

/-- C4: `Cl3` is even in both tiers: `Cl3(-theta) = Cl3(theta)` for the
`double` and for the `long double` overload. -/
theorem Cl3_even [FloorRing α] (log : α → α) (θ : α) :
    Cl3 log (-θ) = Cl3 log θ ∧
    Cl3_long_double log (-θ) = Cl3_long_double log θ := by
  rcases lt_trichotomy θ 0 with h | h | h
  · have h' : ¬ (-θ < 0) := by
      simp only [neg_lt_zero, not_lt]
      exact h.le
    constructor
    · simp only [Cl3, h, h', if_true, if_false, neg_neg]
    · simp only [Cl3_long_double, h, h', if_true, if_false, neg_neg]
  · subst h
    simp
  · have h' : -θ < 0 := by
      simp only [neg_lt_zero]
      exact h
    have hge : ¬ (θ < 0) := not_lt.mpr h.le
    constructor
    · simp only [Cl3, h', hge, if_true, if_false, neg_neg]
    · simp only [Cl3_long_double, h', hge, if_true, if_false, neg_neg]

/-! ## `int64_t` arithmetic -/

theorem tdiv_two (n : Int) :
    Int.tdiv n 2 = if 0 ≤ n then n / 2 else -((-n) / 2) := by
  split_ifs with h
  · exact Int.tdiv_eq_ediv h (by decide)
  · have h' : 0 ≤ -n := by omega
    have := Int.tdiv_eq_ediv h' (show (0 : Int) ≤ 2 by decide)
    rw [← this, Int.neg_tdiv, neg_neg]

theorem tmod_two (n : Int) :
    Int.tmod n 2 = if 0 ≤ n then n % 2 else -((-n) % 2) := by
  rw [Int.tmod_def, tdiv_two]
  split_ifs with h <;> omega

theorem wrap64_eq (z : Int) (h1 : -9223372036854775808 ≤ z)
    (h2 : z < 9223372036854775808) : wrap64 z = z := by
  unfold wrap64
  norm_num
  omega

theorem is_even_iff (n : Int) : is_even n = true ↔ n % 2 = 0 := by
  unfold is_even mod64
  rw [tmod_two]
  split_ifs with h
  · rw [wrap64_eq _ (by omega) (by omega)]
    simp
  · rw [wrap64_eq _ (by omega) (by omega)]
    simp only [beq_iff_eq]
    omega

theorem NEG_ETA_length : (NEG_ETA).length = 54 := rfl

theorem NEG_ETA_NEG_N_length : (NEG_ETA_NEG_N).length = 109 := rfl

theorem wrap64_lit (z : Int) :
    wrap64 z = (z + 9223372036854775808) % 18446744073709551616
      - 9223372036854775808 := by
  unfold wrap64
  norm_num

theorem toSizeT_lit (z : Int) :
    toSizeT z = (z % 18446744073709551616).toNat := by
  unfold toSizeT
  norm_num

theorem INT64_MIN_lit : INT64_MIN = -9223372036854775808 := by
  unfold INT64_MIN
  norm_num

theorem INT64_MAX_lit : INT64_MAX = 9223372036854775807 := by
  unfold INT64_MAX
  norm_num

theorem is_even_eq_false (n : Int) (h : n % 2 = 1) : is_even n = false := by
  rw [Bool.eq_false_iff]
  intro he
  have := (is_even_iff n).mp he
  omega

/-- The index `-(1 + n)/2` of `neg_eta`, computed in `int64_t`, is the
integer `(-(1 + n))/2` for every negative odd `n`. -/
theorem neg_index_eq (n : Int) (hmin : INT64_MIN ≤ n) (hneg : n < 0)
    (hodd : n % 2 = 1) :
    div64 (neg64 (add64 1 n)) 2 = Int.tdiv (-(1 + n)) 2 ∧
    Int.tdiv (-(1 + n)) 2 = (-(1 + n)) / 2 := by
  rw [INT64_MIN_lit] at hmin
  have e1 : add64 1 n = 1 + n := wrap64_eq _ (by omega) (by omega)
  have e2 : neg64 (1 + n) = -(1 + n) := wrap64_eq _ (by omega) (by omega)
  have e3 : Int.tdiv (-(1 + n)) 2 = (-(1 + n)) / 2 := by
    rw [tdiv_two, if_pos (by omega)]
  refine ⟨?_, e3⟩
  rw [e1, e2]
  unfold div64
  rw [e3]
  exact wrap64_eq _ (by omega) (by omega)

/-- The parity test `is_even((1 - n)/2)` of `neg_eta`, computed in `int64_t`
with wraparound, is the parity of the integer `(1 - n)/2` for every odd
`n`. -/
theorem overflow_parity (n : Int) (hodd : n % 2 = 1) :
    is_even (div64 (sub64 1 n) 2) = true ↔ (1 - n) / 2 % 2 = 0 := by
  rw [is_even_iff]
  unfold div64 sub64
  rw [tdiv_two]
  simp only [wrap64_lit]
  split_ifs <;> omega

/-- The function `neg_eta` on a negative odd `int64_t`: a read of
`NEG_ETA_NEG_N` at `(-(1 + n))/2` from `-217` on, an infinity below. -/
theorem neg_eta_neg_odd (n : Int) (hmin : INT64_MIN ≤ n) (hneg : n < 0)
    (hodd : n % 2 = 1) :
    neg_eta n =
      if -217 ≤ n then readAt NEG_ETA_NEG_N ((-(1 + n)) / 2)
      else if (1 - n) / 2 % 2 = 0 then some Dbl.inf else some Dbl.negInf := by
  have hidx := neg_index_eq n hmin hneg hodd
  have hpar := overflow_parity n hodd
  have hne := is_even_eq_false n hodd
  rw [INT64_MIN_lit] at hmin
  unfold neg_eta
  rw [if_pos hneg, hne, hidx.1, hidx.2, NEG_ETA_NEG_N_length, toSizeT_lit]
  simp only [Bool.false_eq_true, if_false]
  by_cases h : -217 ≤ n
  · rw [if_pos h, if_pos]
    omega
  · rw [if_neg h, if_neg (by omega)]
    by_cases hp : (1 - n) / 2 % 2 = 0
    · rw [if_pos hp, if_pos (hpar.mpr hp)]
    · have : ¬ is_even (div64 (sub64 1 n) 2) = true := fun hc => hp (hpar.mp hc)
      rw [if_neg hp, if_neg this]

/-- A read `readAt t i` succeeds exactly when `0 <= i < length`, and then
returns the entry `i`. -/
theorem readAt_eq_some (t : List ℚ) (i : Int) :
    (∃ v, t.get? i.toNat = some v ∧ readAt t i = some (Dbl.fin v)) ↔
      (0 ≤ i ∧ i < t.length) := by
  unfold readAt
  constructor
  · rintro ⟨v, hv, hr⟩
    by_cases hi : i < 0
    · simp [hi] at hr
    · have hlt : i.toNat < t.length := by
        by_contra hc
        have := List.get?_eq_none.mpr (not_lt.mp hc)
        rw [this] at hv
        exact Option.noConfusion hv
      omega
  · rintro ⟨h0, h1⟩
    have hlt : i.toNat < t.length := by omega
    cases hget : t.get? i.toNat with
    | none =>
      have := List.get?_eq_none.mp hget
      omega
    | some v =>
      refine ⟨v, rfl, ?_⟩
      rw [if_neg (by omega)]
      rfl

/-! ## The branches of `neg_eta` -/

/-- C5: `neg_eta(n)` is exactly `0` for every negative even `int64_t` value
`n`, the least one included. -/
theorem neg_eta_neg_even (n : Int) (_hmin : INT64_MIN ≤ n) (hneg : n < 0)
    (heven : Even n) : neg_eta n = some (Dbl.fin 0) := by
  have he : is_even n = true := (is_even_iff n).mpr (Int.even_iff.mp heven)
  simp [neg_eta, hneg, he, lit_zero]

/-- The least `int64_t` value is a negative even number, and `neg_eta`
returns `0` there. -/
theorem neg_eta_neg_even_witness : neg_eta INT64_MIN = some (Dbl.fin 0) :=
  neg_eta_neg_even INT64_MIN (le_refl _) (by decide) ⟨-2 ^ 62, by decide⟩

/-- C6: on a non-negative `int64_t` argument `neg_eta` is piecewise: `-0.5` at
`0`, the read of entry `n - 1` of the 54-entry table `NEG_ETA` for
`1 <= n <= 54`, and `-1.0` above; the read is inside the table exactly for
`1 <= n <= 54`. -/
theorem neg_eta_nonneg (n : Int) (h0 : 0 ≤ n) (hmax : n ≤ INT64_MAX) :
    (NEG_ETA).length = 54 ∧
    neg_eta n =
      (if n = 0 then some (Dbl.fin (-0.5))
       else if n ≤ 54 then readAt NEG_ETA (n - 1)
       else some (Dbl.fin (-1.0))) ∧
    ((∃ v, (NEG_ETA).get? (n - 1).toNat = some v ∧
        readAt NEG_ETA (n - 1) = some (Dbl.fin v)) ↔ (1 ≤ n ∧ n ≤ 54)) := by
  rw [INT64_MAX_lit] at hmax
  refine ⟨NEG_ETA_length, ?_, ?_⟩
  · unfold neg_eta
    rw [if_neg (by omega)]
    by_cases hz : n = 0
    · rw [if_pos hz, if_pos hz]
    · rw [if_neg hz, if_neg hz, NEG_ETA_length, toSizeT_lit]
      have hs : sub64 n 1 = n - 1 := wrap64_eq _ (by omega) (by omega)
      by_cases h : n ≤ 54
      · rw [if_pos h, if_pos (by omega), hs]
      · rw [if_neg h, if_neg (by omega)]
  · rw [readAt_eq_some, NEG_ETA_length]
    omega

/-- At `n = 100` the hypotheses of C6 hold and `neg_eta(100)` is `-1.0`. -/
theorem neg_eta_nonneg_witness : neg_eta 100 = some (Dbl.fin (-1.0)) :=
  (neg_eta_nonneg 100 (by decide) (by decide)).2.1

/-- C7: for a negative odd `int64_t` value `n`, `neg_eta` reads the
109-entry table `NEG_ETA_NEG_N` exactly when `-217 <= n`; the index
`k = -(1+n)/2` then satisfies `0 <= k <= 108` and the result is entry `k`.
Below `-217` the guard of the read fails and an infinity is returned.  In
particular `neg_eta(-1) = -0.25`, `neg_eta(-3) = 0.125` and
`neg_eta(-217) = -1.8184610414701105e306`. -/
theorem neg_eta_neg_odd_table (n : Int) (hmin : INT64_MIN ≤ n) (hneg : n < 0)
    (hodd : Odd n) :
    (NEG_ETA_NEG_N).length = 109 ∧
    (if -217 ≤ n then
      0 ≤ Int.tdiv (-(1 + n)) 2 ∧ Int.tdiv (-(1 + n)) 2 ≤ 108 ∧
      ∃ v, (NEG_ETA_NEG_N).get? (Int.tdiv (-(1 + n)) 2).toNat = some v ∧
        neg_eta n = some (Dbl.fin v)
    else
      ¬ (toSizeT (div64 (neg64 (add64 1 n)) 2) < (NEG_ETA_NEG_N).length) ∧
      (neg_eta n = some Dbl.inf ∨ neg_eta n = some Dbl.negInf)) ∧
    neg_eta (-1) = some (Dbl.fin (-0.25)) ∧
    neg_eta (-3) = some (Dbl.fin 0.125) ∧
    neg_eta (-217) = some (Dbl.fin (-1.8184610414701105e306)) := by
  have hodd' : n % 2 = 1 := Int.odd_iff.mp hodd
  have hidx := neg_index_eq n hmin hneg hodd'
  have hval := neg_eta_neg_odd n hmin hneg hodd'
  refine ⟨NEG_ETA_NEG_N_length, ?_, rfl, rfl, rfl⟩
  by_cases h : -217 ≤ n
  · rw [if_pos h, hidx.2]
    rw [if_pos h] at hval
    have hr : 0 ≤ (-(1 + n)) / 2 ∧ (-(1 + n)) / 2 < ((NEG_ETA_NEG_N).length : Int) := by
      rw [NEG_ETA_NEG_N_length]
      omega
    obtain ⟨v, hv, hrd⟩ := (readAt_eq_some NEG_ETA_NEG_N _).mpr hr
    refine ⟨by omega, by omega, v, hv, ?_⟩
    rw [hval, hrd]
  · rw [if_neg h]
    rw [if_neg h] at hval
    rw [INT64_MIN_lit] at hmin
    constructor
    · rw [hidx.1, hidx.2, NEG_ETA_NEG_N_length, toSizeT_lit]
      omega
    · rw [hval]
      by_cases hp : (1 - n) / 2 % 2 = 0
      · left
        rw [if_pos hp]
      · right
        rw [if_neg hp]

/-- At `n = -217`, the last odd argument inside the table, the hypotheses of
C7 hold. -/
theorem neg_eta_neg_odd_table_witness :
    ∃ v, (NEG_ETA_NEG_N).get? (Int.tdiv (-(1 + (-217))) 2).toNat = some v ∧
      neg_eta (-217) = some (Dbl.fin v) :=
  ((neg_eta_neg_odd_table (-217) (by decide) (by decide)
    ⟨-109, by decide⟩).2.1).2.2

/-- C8: for every odd `int64_t` value `n <= -219`, `neg_eta(n)` is an
infinity: `+infinity` when `(1-n)/2` is even and `-infinity` when it is odd;
`neg_eta(-219) = +infinity` and `neg_eta(-221) = -infinity`. -/
theorem neg_eta_neg_odd_overflow (n : Int) (hmin : INT64_MIN ≤ n)
    (hle : n ≤ -219) (hodd : Odd n) :
    neg_eta n = (if Even ((1 - n) / 2) then some Dbl.inf else some Dbl.negInf) ∧
    neg_eta (-219) = some Dbl.inf ∧
    neg_eta (-221) = some Dbl.negInf := by
  have hodd' : n % 2 = 1 := Int.odd_iff.mp hodd
  have hval := neg_eta_neg_odd n hmin (by omega) hodd'
  rw [if_neg (by omega)] at hval
  refine ⟨?_, rfl, rfl⟩
  rw [hval]
  by_cases hp : (1 - n) / 2 % 2 = 0
  · rw [if_pos hp, if_pos (Int.even_iff.mpr hp)]
  · rw [if_neg hp, if_neg (fun hc => hp (Int.even_iff.mp hc))]

/-- At the least odd `int64_t` value, where `1 - n` overflows, the hypotheses
of C8 hold and the result is `+infinity`. -/
theorem neg_eta_neg_odd_overflow_witness :
    neg_eta (INT64_MIN + 1) = some Dbl.inf :=
  ((neg_eta_neg_odd_overflow (INT64_MIN + 1) (by decide) (by decide)
    ⟨-2 ^ 62, by decide⟩).1).trans (if_pos ⟨2 ^ 61, by decide⟩)

/-- C9 as stated fails at `n = -219`: `neg_eta(-219)` and `neg_eta(-219 - 4)`
are both `+infinity`, so a step of 4 does not change the sign. -/
theorem neg_eta_step_four_same_sign :
    Odd (-219 : Int) ∧ INT64_MIN ≤ (-219 : Int) - 4 ∧
    neg_eta (-219) = some Dbl.inf ∧ neg_eta (-219 - 4) = some Dbl.inf ∧
    ¬ ((neg_eta (-219) = some Dbl.inf ∧ neg_eta (-219 - 4) = some Dbl.negInf) ∨
       (neg_eta (-219) = some Dbl.negInf ∧ neg_eta (-219 - 4) = some Dbl.inf)) := by
  have h1 : neg_eta (-219) = some Dbl.inf := rfl
  have h2 : neg_eta (-219 - 4) = some Dbl.inf := rfl
  refine ⟨⟨-110, by decide⟩, by decide, h1, h2, ?_⟩
  rw [h1, h2]
  decide

/-- C9, amended: for every odd `int64_t` value `n <= -219` with `n - 4`
representable, `neg_eta(n)` is `+infinity` or `-infinity`, the sign alternates
as `n` decreases by steps of 2 (`neg_eta(n-2)` has the opposite sign), and
`neg_eta(n-4)` equals `neg_eta(n)`. -/
theorem neg_eta_overflow_alternates (n : Int) (hodd : Odd n) (hle : n ≤ -219)
    (hmin : INT64_MIN ≤ n - 4) :
    (neg_eta n = some Dbl.inf ∨ neg_eta n = some Dbl.negInf) ∧
    ((neg_eta n = some Dbl.inf ∧ neg_eta (n - 2) = some Dbl.negInf) ∨
     (neg_eta n = some Dbl.negInf ∧ neg_eta (n - 2) = some Dbl.inf)) ∧
    neg_eta (n - 4) = neg_eta n := by
  have hodd' : n % 2 = 1 := Int.odd_iff.mp hodd
  have hm := hmin
  rw [INT64_MIN_lit] at hm
  have hmin0 : INT64_MIN ≤ n := by rw [INT64_MIN_lit]; omega
  have hmin2 : INT64_MIN ≤ n - 2 := by rw [INT64_MIN_lit]; omega
  have v0 := neg_eta_neg_odd n hmin0 (by omega) hodd'
  have v2 := neg_eta_neg_odd (n - 2) hmin2 (by omega) (by omega)
  have v4 := neg_eta_neg_odd (n - 4) hmin (by omega) (by omega)
  rw [if_neg (by omega)] at v0 v2 v4
  by_cases hp : (1 - n) / 2 % 2 = 0
  · have hp2 : ¬ (1 - (n - 2)) / 2 % 2 = 0 := by omega
    have hp4 : (1 - (n - 4)) / 2 % 2 = 0 := by omega
    rw [if_pos hp] at v0
    rw [if_neg hp2] at v2
    rw [if_pos hp4] at v4
    exact ⟨Or.inl v0, Or.inl ⟨v0, v2⟩, v4.trans v0.symm⟩
  · have hp2 : (1 - (n - 2)) / 2 % 2 = 0 := by omega
    have hp4 : ¬ (1 - (n - 4)) / 2 % 2 = 0 := by omega
    rw [if_neg hp] at v0
    rw [if_pos hp2] at v2
    rw [if_neg hp4] at v4
    exact ⟨Or.inr v0, Or.inr ⟨v0, v2⟩, v4.trans v0.symm⟩

/-- At `n = -219`, the first odd argument outside the table, the hypotheses of
the amended C9 hold. -/
theorem neg_eta_overflow_alternates_witness :
    (neg_eta (-219) = some Dbl.inf ∧ neg_eta (-219 - 2) = some Dbl.negInf) ∨
    (neg_eta (-219) = some Dbl.negInf ∧ neg_eta (-219 - 2) = some Dbl.inf) :=
  (neg_eta_overflow_alternates (-219) ⟨-110, by decide⟩ (by decide)
    (by decide)).2.1

/-! ## The reflection identity of `li2` -/

theorem li2_step_two_19 :
    li2.step (2 : α) (0, 0, 0) 19
      = (0.00000000000000002, 0.00000000000000002, 0) := by
  simp only [li2.step, li2.C, List.getD_cons_succ, List.getD_cons_zero,
    Prod.mk.injEq]
  norm_num

theorem li2_step_two_18 :
    li2.step (2 : α) (0.00000000000000002, 0.00000000000000002, 0) 18
      = (-0.00000000000000010, -0.00000000000000010, 0.00000000000000002) := by
  simp only [li2.step, li2.C, List.getD_cons_succ, List.getD_cons_zero,
    Prod.mk.injEq]
  norm_num

theorem li2_step_two_17 :
    li2.step (2 : α) (-0.00000000000000010, -0.00000000000000010, 0.00000000000000002) 17
      = (0.00000000000000071, 0.00000000000000071, -0.00000000000000010) := by
  simp only [li2.step, li2.C, List.getD_cons_succ, List.getD_cons_zero,
    Prod.mk.injEq]
  norm_num

theorem li2_step_two_16 :
    li2.step (2 : α) (0.00000000000000071, 0.00000000000000071, -0.00000000000000010) 16
      = (-0.00000000000000458, -0.00000000000000458, 0.00000000000000071) := by
  simp only [li2.step, li2.C, List.getD_cons_succ, List.getD_cons_zero,
    Prod.mk.injEq]
  norm_num

theorem li2_step_two_15 :
    li2.step (2 : α) (-0.00000000000000458, -0.00000000000000458, 0.00000000000000071) 15
      = (0.00000000000003055, 0.00000000000003055, -0.00000000000000458) := by
  simp only [li2.step, li2.C, List.getD_cons_succ, List.getD_cons_zero,
    Prod.mk.injEq]
  norm_num

theorem li2_step_two_14 :
    li2.step (2 : α) (0.00000000000003055, 0.00000000000003055, -0.00000000000000458) 14
      = (-0.00000000000020439, -0.00000000000020439, 0.00000000000003055) := by
  simp only [li2.step, li2.C, List.getD_cons_succ, List.getD_cons_zero,
    Prod.mk.injEq]
  norm_num

theorem li2_step_two_13 :
    li2.step (2 : α) (-0.00000000000020439, -0.00000000000020439, 0.00000000000003055) 13
      = (0.00000000000138323, 0.00000000000138323, -0.00000000000020439) := by
  simp only [li2.step, li2.C, List.getD_cons_succ, List.getD_cons_zero,
    Prod.mk.injEq]
  norm_num

theorem li2_step_two_12 :
    li2.step (2 : α) (0.00000000000138323, 0.00000000000138323, -0.00000000000020439) 12
      = (-0.00000000000947247, -0.00000000000947247, 0.00000000000138323) := by
  simp only [li2.step, li2.C, List.getD_cons_succ, List.getD_cons_zero,
    Prod.mk.injEq]
  norm_num

theorem li2_step_two_11 :
    li2.step (2 : α) (-0.00000000000947247, -0.00000000000947247, 0.00000000000138323) 11
      = (0.00000000006579281, 0.00000000006579281, -0.00000000000947247) := by
  simp only [li2.step, li2.C, List.getD_cons_succ, List.getD_cons_zero,
    Prod.mk.injEq]
  norm_num

theorem li2_step_two_10 :
    li2.step (2 : α) (0.00000000006579281, 0.00000000006579281, -0.00000000000947247) 10
      = (-0.00000000046472671, -0.00000000046472671, 0.00000000006579281) := by
  simp only [li2.step, li2.C, List.getD_cons_succ, List.getD_cons_zero,
    Prod.mk.injEq]
  norm_num

theorem li2_step_two_9 :
    li2.step (2 : α) (-0.00000000046472671, -0.00000000046472671, 0.00000000006579281) 9
      = (0.00000000335020440, 0.00000000335020440, -0.00000000046472671) := by
  simp only [li2.step, li2.C, List.getD_cons_succ, List.getD_cons_zero,
    Prod.mk.injEq]
  norm_num

theorem li2_step_two_8 :
    li2.step (2 : α) (0.00000000335020440, 0.00000000335020440, -0.00000000046472671) 8
      = (-0.00000002476827723, -0.00000002476827723, 0.00000000335020440) := by
  simp only [li2.step, li2.C, List.getD_cons_succ, List.getD_cons_zero,
    Prod.mk.injEq]
  norm_num

theorem li2_step_two_7 :
    li2.step (2 : α) (-0.00000002476827723, -0.00000002476827723, 0.00000000335020440) 7
      = (0.00000018906504968, 0.00000018906504968, -0.00000002476827723) := by
  simp only [li2.step, li2.C, List.getD_cons_succ, List.getD_cons_zero,
    Prod.mk.injEq]
  norm_num

theorem li2_step_two_6 :
    li2.step (2 : α) (0.00000018906504968, 0.00000018906504968, -0.00000002476827723) 6
      = (-0.00000150495121728, -0.00000150495121728, 0.00000018906504968) := by
  simp only [li2.step, li2.C, List.getD_cons_succ, List.getD_cons_zero,
    Prod.mk.injEq]
  norm_num

theorem li2_step_two_5 :
    li2.step (2 : α) (-0.00000150495121728, -0.00000150495121728, 0.00000018906504968) 5
      = (0.00001268518793456, 0.00001268518793456, -0.00000150495121728) := by
  simp only [li2.step, li2.C, List.getD_cons_succ, List.getD_cons_zero,
    Prod.mk.injEq]
  norm_num

theorem li2_step_two_4 :
    li2.step (2 : α) (0.00001268518793456, 0.00001268518793456, -0.00000150495121728) 4
      = (-0.00011616651733700, -0.00011616651733700, 0.00001268518793456) := by
  simp only [li2.step, li2.C, List.getD_cons_succ, List.getD_cons_zero,
    Prod.mk.injEq]
  norm_num

theorem li2_step_two_3 :
    li2.step (2 : α) (-0.00011616651733700, -0.00011616651733700, 0.00001268518793456) 3
      = (0.00121249261801412, 0.00121249261801412, -0.00011616651733700) := by
  simp only [li2.step, li2.C, List.getD_cons_succ, List.getD_cons_zero,
    Prod.mk.injEq]
  norm_num

theorem li2_step_two_2 :
    li2.step (2 : α) (0.00121249261801412, 0.00121249261801412, -0.00011616651733700) 2
      = (-0.01604728489678068, -0.01604728489678068, 0.00121249261801412) := by
  simp only [li2.step, li2.C, List.getD_cons_succ, List.getD_cons_zero,
    Prod.mk.injEq]
  norm_num

theorem li2_step_two_1 :
    li2.step (2 : α) (-0.01604728489678068, -0.01604728489678068, 0.00121249261801412) 1
      = (0.37645281291919558, 0.37645281291919558, -0.01604728489678068) := by
  simp only [li2.step, li2.C, List.getD_cons_succ, List.getD_cons_zero,
    Prod.mk.injEq]
  norm_num

theorem li2_step_two_0 :
    li2.step (2 : α) (0.37645281291919558, 0.37645281291919558, -0.01604728489678068) 0
      = (1.19891984634330881, 1.19891984634330881, 0.37645281291919558) := by
  simp only [li2.step, li2.C, List.getD_cons_succ, List.getD_cons_zero,
    Prod.mk.injEq]
  norm_num

/-- The Chebyshev loop of `li2` at `ALFA = 2` (that is `H = 1`), evaluated
pass by pass. -/
theorem li2_loop_two :
    li2.loop (2 : α)
      = (1.19891984634330881, 1.19891984634330881, 0.37645281291919558) := by
  have hr : (List.range 20).reverse
      = [19, 18, 17, 16, 15, 14, 13, 12, 11, 10, 9, 8, 7, 6, 5, 4, 3, 2, 1, 0] := by
    decide
  unfold li2.loop
  rw [hr]
  simp only [List.foldl]
  rw [li2_step_two_19, li2_step_two_18, li2_step_two_17, li2_step_two_16, li2_step_two_15, li2_step_two_14, li2_step_two_13,
    li2_step_two_12, li2_step_two_11, li2_step_two_10, li2_step_two_9, li2_step_two_8, li2_step_two_7, li2_step_two_6,
    li2_step_two_5, li2_step_two_4, li2_step_two_3, li2_step_two_2, li2_step_two_1, li2_step_two_0]

/-- The third range of `li2.classify`, `-1 <= T <= -0.5`. -/
theorem classify_third (log : α → α) (T : α) (h1 : -1 ≤ T) (h2 : T ≤ -1 / 2) :
    li2.classify log T =
      ((-(1 + T)) / T, 1,
        -li2.PI6 + log (-T) * (-li2.HF * log (-T) + log (1 + T))) := by
  unfold li2.classify
  rw [if_neg (by linarith), if_neg (by linarith), if_pos (by rw [lit_half]; linarith)]

/-- The fourth range of `li2.classify`, `-0.5 < T < 0`. -/
theorem classify_fourth (log : α → α) (T : α) (h1 : -1 / 2 < T) (h2 : T < 0) :
    li2.classify log T =
      ((-T) / (1 + T), -1, li2.HF * log (1 + T) * log (1 + T)) := by
  unfold li2.classify
  rw [if_neg (by linarith), if_neg (by linarith),
    if_neg (by rw [lit_half]; linarith), if_pos h2]

/-- The general path of `li2` in terms of the classification triple. -/
theorem li2_of_classify (log : α → α) (x Y S A : α) (hx1 : x ≠ 1) (hx2 : x ≠ -1)
    (hc : li2.classify log (-x) = (Y, S, A)) :
    li2 log x =
      -(S * ((li2.loop (Y + Y - 1 + (Y + Y - 1))).1
          - (Y + Y - 1) * (li2.loop (Y + Y - 1 + (Y + Y - 1))).2.2) + A) := by
  simp only [li2, if_neg hx1, if_neg hx2, hc]

/-- The reflection identity below one half: for `0 < x < 1/2` the arguments
`x` and `1 - x` share the reduced variable `Y = x/(1-x)` with opposite sign
flags, and the sum is exactly `PI^2/6 - log(x)*log(1-x)`. -/
theorem li2_reflection_lt_half (log : α → α) (x : α) (h0 : 0 < x) (h1 : x < 1 / 2) :
    li2 log x + li2 log (1 - x) = li2.PI ^ 2 / 6 - log x * log (1 - x) ∧
    (li2.classify log (-x)).1 = (li2.classify log (-(1 - x))).1 ∧
    (li2.classify log (-x)).2.1 = -(li2.classify log (-(1 - x))).2.1 := by
  have hne : 1 - x ≠ 0 := by linarith
  have e1 : (1 : α) + -x = 1 - x := by ring
  have e2 : (1 : α) + -(1 - x) = x := by ring
  have e3 : -(-(1 - x)) = 1 - x := by ring
  have e4 : (- -x) / (1 - x) = x / (1 - x) := by rw [neg_neg]
  have e5 : (-x) / (-(1 - x)) = x / (1 - x) := by rw [neg_div_neg_eq]
  have c1 := classify_fourth log (-x) (by linarith) (by linarith)
  have c2 := classify_third log (-(1 - x)) (by linarith) (by linarith)
  rw [e1, e4] at c1
  rw [e2, e3, e5] at c2
  refine ⟨?_, by rw [c1, c2], by rw [c1, c2]⟩
  rw [li2_of_classify log x _ _ _ (by linarith) (by linarith) c1,
    li2_of_classify log (1 - x) _ _ _ (by linarith) (by linarith) c2]
  simp only [li2.PI6, li2.PI2, li2.HF, lit_half]
  ring

/-- The value of `li2` at one half. -/
theorem li2_half (log : α → α) :
    li2 log (1 / 2) = -(0.82246703342411323
      + (-li2.PI6 + log (1 / 2) * (-li2.HF * log (1 / 2) + log (1 / 2)))) := by
  have c := classify_third log (-(1 / 2)) (by norm_num) (by norm_num)
  have e1 : (-(1 + -(1 / 2 : α))) / (-(1 / 2)) = 1 := by norm_num
  have e2 : -(-(1 / 2 : α)) = 1 / 2 := by norm_num
  have e3 : (1 : α) + -(1 / 2) = 1 / 2 := by norm_num
  rw [e1, e2, e3] at c
  rw [li2_of_classify log (1 / 2) _ _ _ (by norm_num) (by norm_num) c]
  have e4 : (1 : α) + 1 - 1 + (1 + 1 - 1) = 2 := by norm_num
  rw [e4, li2_loop_two]
  norm_num

/-- C10: for `0 < x < 1`, `li2(x) + li2(1-x)` is within `1e-15` of
`PI^2/6 - log(x)*log(1-x)`; for `x` other than `1/2` the two sides are equal,
the arguments `x` and `1-x` having the same reduced variable `Y` and opposite
sign flags `S`. -/
theorem li2_reflection (log : α → α) (x : α) (h0 : 0 < x) (h1 : x < 1) :
    |li2 log x + li2 log (1 - x) - (li2.PI ^ 2 / 6 - log x * log (1 - x))|
      ≤ 1e-15 ∧
    (x = 1 / 2 ∨
      (li2 log x + li2 log (1 - x) = li2.PI ^ 2 / 6 - log x * log (1 - x) ∧
       (li2.classify log (-x)).1 = (li2.classify log (-(1 - x))).1 ∧
       (li2.classify log (-x)).2.1 = -(li2.classify log (-(1 - x))).2.1)) := by
  have hpos : (0 : α) ≤ 1e-15 := by norm_num
  rcases lt_trichotomy x (1 / 2) with h | h | h
  · have key := li2_reflection_lt_half log x h0 h
    refine ⟨?_, Or.inr key⟩
    rw [key.1, sub_self, abs_zero]
    exact hpos
  · subst h
    refine ⟨?_, Or.inl rfl⟩
    have e : (1 : α) - 1 / 2 = 1 / 2 := by norm_num
    rw [e, li2_half]
    simp only [li2.PI6, li2.PI2, li2.PI, li2.HF, lit_half]
    rw [abs_le]
    constructor
    · ring_nf
      norm_num
    · ring_nf
      norm_num
  · have key := li2_reflection_lt_half log (1 - x) (by linarith) (by linarith)
    have e : (1 : α) - (1 - x) = x := by ring
    rw [e] at key
    refine ⟨?_, Or.inr ⟨?_, key.2.1.symm, ?_⟩⟩
    · have : li2 log x + li2 log (1 - x)
          = li2.PI ^ 2 / 6 - log x * log (1 - x) := by
        rw [add_comm, key.1, mul_comm]
      rw [this, sub_self, abs_zero]
      exact hpos
    · rw [add_comm, key.1, mul_comm]
    · rw [key.2.2, neg_neg]

/-- At `x = 1/2`, the one point where the two sides differ, the hypotheses of
C10 hold; the evaluation is over the reals with the natural logarithm. -/
theorem li2_reflection_witness :
    |li2 Real.log (1 / 2) + li2 Real.log (1 - 1 / 2)
        - (li2.PI ^ 2 / 6 - Real.log (1 / 2) * Real.log (1 - 1 / 2))| ≤ 1e-15 :=
  (li2_reflection Real.log (1 / 2) (by norm_num) (by norm_num)).1

/-! ## The stages are the code -/

/-- The function `cli2.general` is the series and the recombination applied to
the tuple of `cli2.transform`. -/
theorem cli2_general_eq (clog : DComplex α → DComplex α) (z : DComplex α) :
    cli2.general clog z =
      (let bf (i : Nat) : DComplex α := DComplex.ofReal (cli2.bf.getD i 0)
       let t := cli2.transform clog z
       let cy := t.1
       let cz := t.2.1
       let jsgn := t.2.2.1
       let ipi12 := t.2.2.2
       let cz2 := cz * cz
       let sum :=
         cz +
         cz2 * (bf 0 +
         cz  * (bf 1 +
         cz2 * (bf 2 +
         cz2 * (bf 3 +
         cz2 * (bf 4 +
         cz2 * (bf 5 +
         cz2 * (bf 6 +
         cz2 * (bf 7 +
         cz2 * (bf 8 +
         cz2 * (bf 9))))))))))
       DComplex.ofReal (jsgn : α) * sum + cy
         + DComplex.ofReal ((ipi12 : α) * li2.PI * li2.PI / 12.0)) :=
  rfl

/-- The function `Cl2(double)` is the early exit and the two branches applied
to the pair of `Cl2.reduce`. -/
theorem Cl2_eq_reduce [FloorRing α] (log : α → α) (x : α) :
    Cl2 log x =
      if (Cl2.reduce x).1 = 0 ∨ (Cl2.reduce x).1 = Cl2.PI then 0
      else (Cl2.reduce x).2 *
        (if (Cl2.reduce x).1 < Cl2.PI / 2
          then Cl2.low log (Cl2.PI * Cl2.PI / 8) (Cl2.reduce x).1
          else Cl2.high Cl2.PI (Cl2.PI * Cl2.PI / 8) (Cl2.reduce x).1) :=
  rfl

/-- The function `Cl2(long double)` is the early exit and the two branches
applied to the pair of `Cl2_long_double.reduce`. -/
theorem Cl2_long_double_eq_reduce [FloorRing α] (log : α → α) (x : α) :
    Cl2_long_double log x =
      if (Cl2_long_double.reduce x).1 = 0
          ∨ (Cl2_long_double.reduce x).1 = Cl2_long_double.PI then 0
      else (Cl2_long_double.reduce x).2 *
        (if (Cl2_long_double.reduce x).1 < Cl2_long_double.PI / 2
          then Cl2_long_double.low log
            (Cl2_long_double.PI * Cl2_long_double.PI / 8) (Cl2_long_double.reduce x).1
          else Cl2_long_double.high Cl2_long_double.PI
            (Cl2_long_double.PI * Cl2_long_double.PI / 8) (Cl2_long_double.reduce x).1) :=
  rfl

/-- The `x < PIH` branch of `Cl3(long double)` in terms of its `p` and `q`. -/
theorem Cl3_long_double_low_eq (log : α → α) (PI28 zeta3 x : α) :
    Cl3_long_double.low log PI28 zeta3 x =
      zeta3 + x * x * (Cl3_long_double.low.p (x * x - PI28)
        / Cl3_long_double.low.q (x * x - PI28) + log x / 2) :=
  rfl

/-- The `x >= PIH` branch of `Cl3(long double)` in terms of its `p` and `q`. -/
theorem Cl3_long_double_high_eq (PI PI28 x : α) :
    Cl3_long_double.high PI PI28 x =
      Cl3_long_double.high.p ((PI - x) * (PI - x) - PI28)
        / Cl3_long_double.high.q ((PI - x) * (PI - x) - PI28) :=
  rfl

/-! ## The inversion identity of `li2` -/

/-- The first range of `li2.classify`, `T <= -2`. -/
theorem classify_first (log : α → α) (T : α) (h : T ≤ -2) :
    li2.classify log T =
      ((-1) / (1 + T), 1,
        -li2.PI3 + li2.HF * (log (-T) * log (-T)
          - log (1 + 1 / T) * log (1 + 1 / T))) := by
  unfold li2.classify
  rw [if_pos h]

/-- The second range of `li2.classify`, `-2 < T < -1`. -/
theorem classify_second (log : α → α) (T : α) (h1 : -2 < T) (h2 : T < -1) :
    li2.classify log T =
      (-1 - T, -1, -li2.PI6 + log (-T) * (log (-T) + log (1 + 1 / T))) := by
  unfold li2.classify
  rw [if_neg (by linarith), if_pos h2]

/-- The fifth range of `li2.classify`, `0 <= T <= 1`. -/
theorem classify_fifth (log : α → α) (T : α) (h1 : 0 ≤ T) (h2 : T ≤ 1) :
    li2.classify log T = (T, 1, 0) := by
  unfold li2.classify
  rw [if_neg (by linarith), if_neg (by linarith),
    if_neg (by rw [lit_half]; linarith), if_neg (by linarith), if_pos h2]

/-- The sixth range of `li2.classify`, `T > 1`. -/
theorem classify_sixth (log : α → α) (T : α) (h : 1 < T) :
    li2.classify log T =
      (1 / T, -1, li2.PI6 + li2.HF * log T * log T) := by
  unfold li2.classify
  rw [if_neg (by linarith), if_neg (by linarith),
    if_neg (by rw [lit_half]; linarith), if_neg (by linarith), if_neg (by linarith)]

/-- The inversion identity above two: for `x > 2` the arguments `x` and `1/x`
share the reduced variable `Y = 1/(x-1)` with opposite sign flags, and
`li2(x) + li2(1/x)` is exactly `PI^2/3 - log(x)^2/2`, whatever `log` is. -/
theorem li2_inversion_gt_two (log : α → α) (x : α) (h : 2 < x) :
    li2 log x + li2 log (1 / x) = li2.PI ^ 2 / 3 - 1 / 2 * log x ^ 2 ∧
    (li2.classify log (-x)).1 = (li2.classify log (-(1 / x))).1 ∧
    (li2.classify log (-x)).2.1 = -(li2.classify log (-(1 / x))).2.1 := by
  have hx0 : (0 : α) < x := by linarith
  have hxne : x ≠ 0 := ne_of_gt hx0
  have hx1 : x - 1 ≠ 0 := by
    have : (0 : α) < x - 1 := by linarith
    exact ne_of_gt this
  have hinv : 1 / x < 1 / 2 := one_div_lt_one_div_of_lt (by norm_num) h
  have hinv0 : 0 < 1 / x := by positivity
  have hxx : x * (1 / x) = 1 := mul_one_div_cancel hxne
  have e1 : (-1 : α) / (1 + -x) = 1 / (x - 1) := by
    have hd : (1 : α) + -x ≠ 0 := by
      intro hc
      apply hx1
      linarith
    field_simp
    ring
  have e2 : -(-x) = x := neg_neg x
  have e3 : (1 : α) + 1 / -x = 1 - 1 / x := by
    rw [div_neg]
    ring
  have e4 : (-(-(1 / x))) / (1 + -(1 / x)) = 1 / (x - 1) := by
    have hd : (1 : α) + -(1 / x) ≠ 0 := by
      have : (0 : α) < 1 + -(1 / x) := by linarith
      exact ne_of_gt this
    rw [div_eq_div_iff hd hx1]
    linear_combination hxx
  have e5 : (1 : α) + -(1 / x) = 1 - 1 / x := by ring
  have c1 := classify_first log (-x) (by linarith)
  have c2 := classify_fourth log (-(1 / x)) (by linarith) (by linarith)
  rw [e1, e2, e3] at c1
  rw [e4, e5] at c2
  refine ⟨?_, by rw [c1, c2], by rw [c1, c2, neg_neg]⟩
  rw [li2_of_classify log x _ _ _ (by linarith) (by linarith) c1,
    li2_of_classify log (1 / x) _ _ _ (by linarith) (by linarith) c2]
  simp only [li2.PI3, li2.PI2, li2.HF, lit_half]
  ring

/-- The inversion identity below two: for `1 < x < 2` the arguments `x` and
`1/x` share the reduced variable `Y = x - 1` with opposite sign flags, and
`li2(x) + li2(1/x)` is exactly `PI^2/3 - log(x)^2/2` for a `log` with
`log(1/x) = -log(x)`. -/
theorem li2_inversion_lt_two (log : α → α) (x : α) (h1 : 1 < x) (h2 : x < 2)
    (hlog : log (1 / x) = -log x) :
    li2 log x + li2 log (1 / x) = li2.PI ^ 2 / 3 - 1 / 2 * log x ^ 2 ∧
    (li2.classify log (-x)).1 = (li2.classify log (-(1 / x))).1 ∧
    (li2.classify log (-x)).2.1 = -(li2.classify log (-(1 / x))).2.1 := by
  have hx0 : (0 : α) < x := by linarith
  have hxne : x ≠ 0 := ne_of_gt hx0
  have hinv : 1 / 2 < 1 / x := one_div_lt_one_div_of_lt hx0 h2
  have hinv0 : 0 < 1 / x := by positivity
  have hxx : x * (1 / x) = 1 := mul_one_div_cancel hxne
  have hinv1 : 1 / x < 1 := by
    rw [div_lt_one hx0]
    exact h1
  have e1 : -1 - -x = x - 1 := by ring
  have e2 : -(-x) = x := neg_neg x
  have e3 : (1 : α) + 1 / -x = 1 - 1 / x := by
    rw [div_neg]
    ring
  have e4 : (-(1 + -(1 / x))) / (-(1 / x)) = x - 1 := by
    rw [div_eq_iff (neg_ne_zero.mpr (ne_of_gt hinv0))]
    linear_combination hxx
  have e5 : -(-(1 / x)) = 1 / x := neg_neg _
  have e6 : (1 : α) + -(1 / x) = 1 - 1 / x := by ring
  have c1 := classify_second log (-x) (by linarith) (by linarith)
  have c2 := classify_third log (-(1 / x)) (by linarith) (by linarith)
  rw [e1, e2, e3] at c1
  rw [e4, e5, e6, hlog] at c2
  refine ⟨?_, by rw [c1, c2], by rw [c1, c2]⟩
  rw [li2_of_classify log x _ _ _ (by linarith) (by linarith) c1,
    li2_of_classify log (1 / x) _ _ _ (by linarith) (by linarith) c2]
  simp only [li2.PI6, li2.PI2, li2.HF, lit_half]
  ring

/-- The value of `li2` at two. -/
theorem li2_two (log : α → α) :
    li2 log 2 = -(0.82246703342411323
      + (-li2.PI3 + li2.HF * (log 2 * log 2 - log (1 / 2) * log (1 / 2)))) := by
  have c := classify_first log (-2) (le_refl _)
  have e1 : (-1 : α) / (1 + -2) = 1 := by norm_num
  have e2 : -(-2 : α) = 2 := by norm_num
  have e3 : (1 : α) + 1 / -2 = 1 / 2 := by norm_num
  rw [e1, e2, e3] at c
  rw [li2_of_classify log 2 _ _ _ (by norm_num) (by norm_num) c]
  have e4 : (1 : α) + 1 - 1 + (1 + 1 - 1) = 2 := by norm_num
  rw [e4, li2_loop_two]
  norm_num

/-- The inversion identity for every `x > 1`: `li2(x) + li2(1/x)` is within
`1e-15` of `PI^2/3 - log(x)^2/2` for a `log` with `log(1/x) = -log(x)`; the two
differ at `x = 2` only. -/
theorem li2_inversion_sum (log : α → α) (x : α) (h1 : 1 < x)
    (hlog : log (1 / x) = -log x) :
    |li2 log x + li2 log (1 / x) - (li2.PI ^ 2 / 3 - 1 / 2 * log x ^ 2)|
      ≤ 1e-15 := by
  have hpos : (0 : α) ≤ 1e-15 := by norm_num
  rcases lt_trichotomy x 2 with h | h | h
  · rw [(li2_inversion_lt_two log x h1 h hlog).1, sub_self, abs_zero]
    exact hpos
  · subst h
    rw [li2_two, li2_half]
    simp only [li2.PI3, li2.PI6, li2.PI2, li2.PI, li2.HF, lit_half]
    rw [abs_le]
    constructor
    · ring_nf
      norm_num
    · ring_nf
      norm_num
  · rw [(li2_inversion_gt_two log x h).1, sub_self, abs_zero]
    exact hpos

/-- C11 as stated fails at `x = 3`: over the reals, with the natural
logarithm, `li2(3)` differs from `-li2(1/3) - PI^2/6 - ln(3)^2/2` by
`PI^2/2`, which is more than `4`. -/
theorem li2_inversion_stated_fails :
    (1 : ℝ) < 3 ∧
    li2 Real.log 3 - (-li2 Real.log (1 / 3) - li2.PI ^ 2 / 6
      - 1 / 2 * Real.log 3 ^ 2) = li2.PI ^ 2 / 2 ∧
    ¬ |li2 Real.log 3 - (-li2 Real.log (1 / 3) - li2.PI ^ 2 / 6
      - 1 / 2 * Real.log 3 ^ 2)| ≤ 1e-15 := by
  have key := (li2_inversion_gt_two Real.log (3 : ℝ) (by norm_num)).1
  have e : li2 Real.log 3 - (-li2 Real.log (1 / 3) - li2.PI ^ 2 / 6
      - 1 / 2 * Real.log 3 ^ 2) = li2.PI ^ 2 / 2 := by
    have : li2 Real.log 3 = li2.PI ^ 2 / 3 - 1 / 2 * Real.log 3 ^ 2
        - li2 Real.log (1 / 3) := by
      rw [← key]
      ring
    rw [this]
    ring
  refine ⟨by norm_num, e, ?_⟩
  rw [e]
  simp only [li2.PI]
  rw [abs_of_pos (by norm_num)]
  norm_num

/-- C11, amended: for every real `x > 1`, `li2(x)` agrees with
`-li2(1/x) + PI^2/3 - ln(x)^2/2` to within `1e-15`, in exact real arithmetic
over the constants of the code and with the natural logarithm. -/
theorem li2_inversion (x : ℝ) (hx : 1 < x) :
    |li2 Real.log x - (-li2 Real.log (1 / x) + li2.PI ^ 2 / 3
      - 1 / 2 * Real.log x ^ 2)| ≤ 1e-15 := by
  have hlog : Real.log (1 / x) = -Real.log x := by
    rw [one_div, Real.log_inv]
  have key := li2_inversion_sum Real.log x hx hlog
  have e : li2 Real.log x - (-li2 Real.log (1 / x) + li2.PI ^ 2 / 3
      - 1 / 2 * Real.log x ^ 2)
      = li2 Real.log x + li2 Real.log (1 / x)
        - (li2.PI ^ 2 / 3 - 1 / 2 * Real.log x ^ 2) := by
    ring
  rw [e]
  exact key

/-- At `x = 2`, the one point where the two sides differ, the hypothesis of
the amended C11 holds. -/
theorem li2_inversion_witness :
    |li2 Real.log 2 - (-li2 Real.log (1 / 2) + li2.PI ^ 2 / 3
      - 1 / 2 * Real.log 2 ^ 2)| ≤ 1e-15 :=
  li2_inversion 2 (by norm_num)

/-! ## The near-zero case of `cli2` -/

/-- The Chebyshev loop of `li2` at `ALFA = -2` (that is `H = -1`), evaluated
pass by pass. -/
theorem li2_loop_neg_two :
    li2.loop (-2 : α)
      = (-0.45197431182699463, -0.45197431182699463, 0.45197431182699462) := by
  have hr : (List.range 20).reverse
      = [19, 18, 17, 16, 15, 14, 13, 12, 11, 10, 9, 8, 7, 6, 5, 4, 3, 2, 1, 0] := by
    decide
  unfold li2.loop
  rw [hr]
  simp only [List.foldl]
  have s19 : li2.step (-2 : α) (0, 0, 0) 19
      = (0.00000000000000002, 0.00000000000000002, 0) := by
    simp only [li2.step, li2.C, List.getD_cons_succ, List.getD_cons_zero,
      Prod.mk.injEq]
    norm_num
  rw [s19]
  have s18 : li2.step (-2 : α) (0.00000000000000002, 0.00000000000000002, 0) 18
      = (-0.00000000000000018, -0.00000000000000018, 0.00000000000000002) := by
    simp only [li2.step, li2.C, List.getD_cons_succ, List.getD_cons_zero,
      Prod.mk.injEq]
    norm_num
  rw [s18]
  have s17 : li2.step (-2 : α) (-0.00000000000000018, -0.00000000000000018, 0.00000000000000002) 17
      = (0.00000000000000127, 0.00000000000000127, -0.00000000000000018) := by
    simp only [li2.step, li2.C, List.getD_cons_succ, List.getD_cons_zero,
      Prod.mk.injEq]
    norm_num
  rw [s17]
  have s16 : li2.step (-2 : α) (0.00000000000000127, 0.00000000000000127, -0.00000000000000018) 16
      = (-0.00000000000000846, -0.00000000000000846, 0.00000000000000127) := by
    simp only [li2.step, li2.C, List.getD_cons_succ, List.getD_cons_zero,
      Prod.mk.injEq]
    norm_num
  rw [s16]
  have s15 : li2.step (-2 : α) (-0.00000000000000846, -0.00000000000000846, 0.00000000000000127) 15
      = (0.00000000000005607, 0.00000000000005607, -0.00000000000000846) := by
    simp only [li2.step, li2.C, List.getD_cons_succ, List.getD_cons_zero,
      Prod.mk.injEq]
    norm_num
  rw [s15]
  have s14 : li2.step (-2 : α) (0.00000000000005607, 0.00000000000005607, -0.00000000000000846) 14
      = (-0.00000000000037375, -0.00000000000037375, 0.00000000000005607) := by
    simp only [li2.step, li2.C, List.getD_cons_succ, List.getD_cons_zero,
      Prod.mk.injEq]
    norm_num
  rw [s14]
  have s13 : li2.step (-2 : α) (-0.00000000000037375, -0.00000000000037375, 0.00000000000005607) 13
      = (0.00000000000251399, 0.00000000000251399, -0.00000000000037375) := by
    simp only [li2.step, li2.C, List.getD_cons_succ, List.getD_cons_zero,
      Prod.mk.injEq]
    norm_num
  rw [s13]
  have s12 : li2.step (-2 : α) (0.00000000000251399, 0.00000000000251399, -0.00000000000037375) 12
      = (-0.00000000001709755, -0.00000000001709755, 0.00000000000251399) := by
    simp only [li2.step, li2.C, List.getD_cons_succ, List.getD_cons_zero,
      Prod.mk.injEq]
    norm_num
  rw [s12]
  have s11 : li2.step (-2 : α) (-0.00000000001709755, -0.00000000001709755, 0.00000000000251399) 11
      = (0.00000000011780209, 0.00000000011780209, -0.00000000001709755) := by
    simp only [li2.step, li2.C, List.getD_cons_succ, List.getD_cons_zero,
      Prod.mk.injEq]
    norm_num
  rw [s11]
  have s10 : li2.step (-2 : α) (0.00000000011780209, 0.00000000011780209, -0.00000000001709755) 10
      = (-0.00000000082429143, -0.00000000082429143, 0.00000000011780209) := by
    simp only [li2.step, li2.C, List.getD_cons_succ, List.getD_cons_zero,
      Prod.mk.injEq]
    norm_num
  rw [s10]
  have s9 : li2.step (-2 : α) (-0.00000000082429143, -0.00000000082429143, 0.00000000011780209) 9
      = (0.00000000587623140, 0.00000000587623140, -0.00000000082429143) := by
    simp only [li2.step, li2.C, List.getD_cons_succ, List.getD_cons_zero,
      Prod.mk.injEq]
    norm_num
  rw [s9]
  have s8 : li2.step (-2 : α) (0.00000000587623140, 0.00000000587623140, -0.00000000082429143) 8
      = (-0.00000004286158411, -0.00000004286158411, 0.00000000587623140) := by
    simp only [li2.step, li2.C, List.getD_cons_succ, List.getD_cons_zero,
      Prod.mk.injEq]
    norm_num
  rw [s8]
  have s7 : li2.step (-2 : α) (-0.00000004286158411, -0.00000004286158411, 0.00000000587623140) 7
      = (0.00000032179874536, 0.00000032179874536, -0.00000004286158411) := by
    simp only [li2.step, li2.C, List.getD_cons_succ, List.getD_cons_zero,
      Prod.mk.injEq]
    norm_num
  rw [s7]
  have s6 : li2.step (-2 : α) (0.00000032179874536, 0.00000032179874536, -0.00000004286158411) 6
      = (-0.00000250858550048, -0.00000250858550048, 0.00000032179874536) := by
    simp only [li2.step, li2.C, List.getD_cons_succ, List.getD_cons_zero,
      Prod.mk.injEq]
    norm_num
  rw [s6]
  have s5 : li2.step (-2 : α) (-0.00000250858550048, -0.00000250858550048, 0.00000032179874536) 5
      = (0.00002057952767440, 0.00002057952767440, -0.00000250858550048) := by
    simp only [li2.step, li2.C, List.getD_cons_succ, List.getD_cons_zero,
      Prod.mk.injEq]
    norm_num
  rw [s5]
  have s4 : li2.step (-2 : α) (0.00002057952767440, 0.00002057952767440, -0.00000250858550048) 4
      = (-0.00018169231427172, -0.00018169231427172, 0.00002057952767440) := by
    simp only [li2.step, li2.C, List.getD_cons_succ, List.getD_cons_zero,
      Prod.mk.injEq]
    norm_num
  rw [s4]
  have s3 : li2.step (-2 : α) (-0.00018169231427172, -0.00018169231427172, 0.00002057952767440) 3
      = (0.00180031594149172, 0.00180031594149172, -0.00018169231427172) := by
    simp only [li2.step, li2.C, List.getD_cons_succ, List.getD_cons_zero,
      Prod.mk.injEq]
    norm_num
  rw [s3]
  have s2 : li2.step (-2 : α) (0.00180031594149172, 0.00180031594149172, -0.00018169231427172) 2
      = (-0.02200737621885764, -0.02200737621885764, 0.00180031594149172) := by
    simp only [li2.step, li2.C, List.getD_cons_succ, List.getD_cons_zero,
      Prod.mk.injEq]
    norm_num
  rw [s2]
  have s1 : li2.step (-2 : α) (-0.02200737621885764, -0.02200737621885764, 0.00180031594149172) 1
      = (0.45197431182699462, 0.45197431182699462, -0.02200737621885764) := by
    simp only [li2.step, li2.C, List.getD_cons_succ, List.getD_cons_zero,
      Prod.mk.injEq]
    norm_num
  rw [s1]
  have s0 : li2.step (-2 : α) (0.45197431182699462, 0.45197431182699462, -0.02200737621885764) 0
      = (-0.45197431182699463, -0.45197431182699463, 0.45197431182699462) := by
    simp only [li2.step, li2.C, List.getD_cons_succ, List.getD_cons_zero,
      Prod.mk.injEq]
    norm_num
  rw [s0]

/-- The value of `li2` at zero: the Chebyshev sum at `H = -1` leaves `1e-17`. -/
theorem li2_zero (log : α → α) : li2 log 0 = 1e-17 := by
  have c := classify_fifth log (-0) (by norm_num) (by norm_num)
  rw [li2_of_classify log 0 _ _ _ (by norm_num) (by norm_num) c]
  have e : -(0 : α) + -0 - 1 + (-0 + -0 - 1) = -2 := by norm_num
  rw [e, li2_loop_neg_two]
  norm_num

/-- On the real axis `cli2(x + 0i)` is `li2(x)` with the imaginary part `0`
for `x <= 1` and `-PI*log(x)` above. -/
theorem cli2_of_real (log : α → α) (clog : DComplex α → DComplex α) (x : α) :
    cli2 log clog ⟨x, 0⟩ =
      ⟨li2 log x, if x ≤ 1 then 0 else -li2.PI * log x⟩ := by
  by_cases h : x ≤ 1
  · have : cli2 log clog ⟨x, 0⟩
        = DComplex.ofReal (li2 log x) + DComplex.ofReal 0.0 * DComplex.I := by
      simp [cli2, h, lit_zero, lit_one]
    rw [this]
    show DComplex.mk _ _ = _
    simp [h, lit_zero]
  · have h1 : 1 < x := lt_of_not_ge h
    have : cli2 log clog ⟨x, 0⟩
        = DComplex.ofReal (li2 log x)
          - DComplex.ofReal (li2.PI * log x) * DComplex.I := by
      simp [cli2, h, h1, lit_zero, lit_one]
    rw [this]
    show DComplex.mk _ _ = _
    simp [h]

/-- C12 as stated fails at `z = 0`: the squared modulus `0` is below
`DBL_EPSILON`, but the imaginary part is zero, so `cli2(0)` is `li2(0) + 0i`,
and `li2(0)` is `1e-17`, not `0`. -/
theorem cli2_zero_not_returned :
    ((0 : ℝ) * 0 + 0 * 0 < DBL_EPSILON) ∧
    (∀ (log : ℝ → ℝ) (clog : DComplex ℝ → DComplex ℝ),
      (cli2 log clog ⟨0, 0⟩).re = 1e-17 ∧
      (cli2 log clog ⟨0, 0⟩).re ≠ (⟨0, 0⟩ : DComplex ℝ).re) := by
  refine ⟨by norm_num [DBL_EPSILON], fun log clog => ?_⟩
  rw [cli2_of_real, li2_zero]
  norm_num

/-- C12, amended: for every complex `z` whose squared modulus is below
`DBL_EPSILON`, `cli2(z)` returns `z` unchanged when the imaginary part is not
zero; when it is zero (`z = 0` and the tiny real `z` included) the real-axis
case comes first and `cli2(z)` is `li2(Re z) + 0i`. -/
theorem cli2_near_zero (log : α → α) (clog : DComplex α → DComplex α)
    (z : DComplex α) (hnz : z.re * z.re + z.im * z.im < DBL_EPSILON) :
    cli2 log clog z = if z.im = 0 then ⟨li2 log z.re, 0⟩ else z := by
  obtain ⟨re, im⟩ := z
  simp only at hnz
  by_cases him : im = 0
  · subst him
    have heps : (DBL_EPSILON : α) < 1 := by
      unfold DBL_EPSILON
      norm_num
    have hre : re ≤ 1 := by
      by_contra hc
      have h1 : 1 < re := lt_of_not_ge hc
      nlinarith
    rw [cli2_of_real]
    simp [hre]
  · have h0 : ¬ im = 0.0 := by
      rw [lit_zero]
      exact him
    simp only [cli2, if_neg h0, if_pos hnz, if_neg him]

/-- At `z = 1e-9 i` the hypothesis of the amended C12 holds, and `cli2`
returns `z`. -/
theorem cli2_near_zero_witness :
    cli2 Real.log (fun w => w) (⟨0, 1e-9⟩ : DComplex ℝ)
      = if (⟨0, 1e-9⟩ : DComplex ℝ).im = 0
        then ⟨li2 Real.log (⟨0, 1e-9⟩ : DComplex ℝ).re, 0⟩ else ⟨0, 1e-9⟩ :=
  cli2_near_zero Real.log (fun w => w) ⟨0, 1e-9⟩ (by norm_num [DBL_EPSILON])

/-! ## The argument reduction of `Cl2` -/

theorem fmod_of_nonneg [FloorRing α] (x y : α) (hx : 0 ≤ x) (hy : 0 < y) :
    fmod x y = x - (⌊x / y⌋ : α) * y := by
  have h : 0 ≤ x / y := div_nonneg hx hy.le
  simp only [fmod, h, if_true]

/-- The step `if (x >= PI2) x = fmod(x, PI2)` on a non-negative `x`, for any
positive constant in the place of `PI2`. -/
theorem fold_mod [FloorRing α] (P2 x : α) (hP : 0 < P2) (hx : 0 ≤ x) :
    (if x ≥ P2 then fmod x P2 else x) = x - (⌊x / P2⌋ : α) * P2 := by
  split_ifs with h
  · exact fmod_of_nonneg x P2 hx hP
  · have h1 : x < P2 := lt_of_not_ge h
    have h0 : ⌊x / P2⌋ = 0 := by
      rw [Int.floor_eq_zero_iff]
      exact ⟨div_nonneg hx hP.le, (div_lt_one hP).mpr h1⟩
    rw [h0]
    simp

theorem fold_mod_range [FloorRing α] (P2 x : α) (hP : 0 < P2) :
    0 ≤ x - (⌊x / P2⌋ : α) * P2 ∧ x - (⌊x / P2⌋ : α) * P2 < P2 := by
  have h1 : (⌊x / P2⌋ : α) ≤ x / P2 := Int.floor_le _
  have h2 : x / P2 < (⌊x / P2⌋ : α) + 1 := Int.lt_floor_add_one _
  have h3 : x / P2 * P2 = x := div_mul_cancel₀ x (ne_of_gt hP)
  constructor
  · have := mul_le_mul_of_nonneg_right h1 hP.le
    linarith
  · have := mul_lt_mul_of_pos_right h2 hP
    linarith

theorem fold_mod_add [FloorRing α] (P2 x : α) (k : Int) (hP : 0 < P2) :
    (x + P2 * k) - (⌊(x + P2 * k) / P2⌋ : α) * P2
      = x - (⌊x / P2⌋ : α) * P2 := by
  have e : (x + P2 * k) / P2 = x / P2 + k := by
    field_simp
    ring
  rw [e, Int.floor_add_int]
  push_cast
  ring

theorem Cl2_PI_pos : (0 : α) < Cl2.PI := by
  unfold Cl2.PI
  norm_num

theorem Cl2_long_double_PI_pos : (0 : α) < Cl2_long_double.PI := by
  unfold Cl2_long_double.PI
  norm_num

/-- The pair `(x, sgn)` of `Cl2(double)` after the absolute value and the
remainder, for a non-negative argument. -/
theorem Cl2_remainder_nonneg [FloorRing α] (x : α) (hx : 0 ≤ x) :
    Cl2.remainder x = (x - (⌊x / (2 * Cl2.PI)⌋ : α) * (2 * Cl2.PI), 1) := by
  have hP : (0 : α) < 2 * Cl2.PI := by linarith [Cl2_PI_pos (α := α)]
  simp only [Cl2.remainder, if_neg (not_lt.mpr hx)]
  rw [fold_mod _ _ hP hx]

/-- The pair `(x, sgn)` of `Cl2(double)` after the absolute value and the
remainder, for a negative argument. -/
theorem Cl2_remainder_neg [FloorRing α] (x : α) (hx : x < 0) :
    Cl2.remainder x = (-x - (⌊-x / (2 * Cl2.PI)⌋ : α) * (2 * Cl2.PI), -1) := by
  have hP : (0 : α) < 2 * Cl2.PI := by linarith [Cl2_PI_pos (α := α)]
  simp only [Cl2.remainder, if_pos hx]
  rw [fold_mod _ _ hP (by linarith)]

theorem Cl2_long_double_remainder_nonneg [FloorRing α] (x : α) (hx : 0 ≤ x) :
    Cl2_long_double.remainder x
      = (x - (⌊x / (2 * Cl2_long_double.PI)⌋ : α) * (2 * Cl2_long_double.PI), 1) := by
  have hP : (0 : α) < 2 * Cl2_long_double.PI := by
    linarith [Cl2_long_double_PI_pos (α := α)]
  simp only [Cl2_long_double.remainder, if_neg (not_lt.mpr hx)]
  rw [fold_mod _ _ hP hx]

theorem Cl2_long_double_remainder_neg [FloorRing α] (x : α) (hx : x < 0) :
    Cl2_long_double.remainder x
      = (-x - (⌊-x / (2 * Cl2_long_double.PI)⌋ : α) * (2 * Cl2_long_double.PI), -1) := by
  have hP : (0 : α) < 2 * Cl2_long_double.PI := by
    linarith [Cl2_long_double_PI_pos (α := α)]
  simp only [Cl2_long_double.remainder, if_pos hx]
  rw [fold_mod _ _ hP (by linarith)]

/-- The remainder of `Cl2(double)` lies in `[0, 2*PI)`. -/
theorem Cl2_remainder_range [FloorRing α] (x : α) :
    0 ≤ (Cl2.remainder x).1 ∧ (Cl2.remainder x).1 < 2 * Cl2.PI := by
  have hP : (0 : α) < 2 * Cl2.PI := by linarith [Cl2_PI_pos (α := α)]
  rcases lt_or_le x 0 with h | h
  · rw [Cl2_remainder_neg x h]
    exact fold_mod_range _ _ hP
  · rw [Cl2_remainder_nonneg x h]
    exact fold_mod_range _ _ hP

/-- The remainder of `Cl2(long double)` lies in `[0, 2*PI)`. -/
theorem Cl2_long_double_remainder_range [FloorRing α] (x : α) :
    0 ≤ (Cl2_long_double.remainder x).1 ∧
    (Cl2_long_double.remainder x).1 < 2 * Cl2_long_double.PI := by
  have hP : (0 : α) < 2 * Cl2_long_double.PI := by
    linarith [Cl2_long_double_PI_pos (α := α)]
  rcases lt_or_le x 0 with h | h
  · rw [Cl2_long_double_remainder_neg x h]
    exact fold_mod_range _ _ hP
  · rw [Cl2_long_double_remainder_nonneg x h]
    exact fold_mod_range _ _ hP

/-- When the remainder of `Cl2(double)` is `0` or `PI`, no reflection takes
place and the early exit returns `0`. -/
theorem Cl2_exit_of_remainder [FloorRing α] (log : α → α) (θ : α)
    (h : (Cl2.remainder θ).1 = 0 ∨ (Cl2.remainder θ).1 = Cl2.PI) :
    ((Cl2.reduce θ).1 = 0 ∨ (Cl2.reduce θ).1 = Cl2.PI) ∧ Cl2 log θ = 0 := by
  have hpos := Cl2_PI_pos (α := α)
  have hng : ¬ (Cl2.remainder θ).1 > Cl2.PI := by
    rcases h with h | h <;> rw [h] <;> simp [hpos.le]
  have hred : Cl2.reduce θ = ((Cl2.remainder θ).1, (Cl2.remainder θ).2) := by
    simp only [Cl2.reduce, if_neg hng]
  have hex : (Cl2.reduce θ).1 = 0 ∨ (Cl2.reduce θ).1 = Cl2.PI := by
    rw [hred]
    exact h
  exact ⟨hex, by rw [Cl2_eq_reduce, if_pos hex]⟩

/-- When the remainder of `Cl2(long double)` is `0` or `PI`, no reflection
takes place and the early exit returns `0`. -/
theorem Cl2_long_double_exit_of_remainder [FloorRing α] (log : α → α) (θ : α)
    (h : (Cl2_long_double.remainder θ).1 = 0
      ∨ (Cl2_long_double.remainder θ).1 = Cl2_long_double.PI) :
    ((Cl2_long_double.reduce θ).1 = 0
      ∨ (Cl2_long_double.reduce θ).1 = Cl2_long_double.PI) ∧
    Cl2_long_double log θ = 0 := by
  have hpos := Cl2_long_double_PI_pos (α := α)
  have hng : ¬ (Cl2_long_double.remainder θ).1 > Cl2_long_double.PI := by
    rcases h with h | h <;> rw [h] <;> simp [hpos.le]
  have hred : Cl2_long_double.reduce θ
      = ((Cl2_long_double.remainder θ).1, (Cl2_long_double.remainder θ).2) := by
    simp only [Cl2_long_double.reduce, if_neg hng]
  have hex : (Cl2_long_double.reduce θ).1 = 0
      ∨ (Cl2_long_double.reduce θ).1 = Cl2_long_double.PI := by
    rw [hred]
    exact h
  exact ⟨hex, by rw [Cl2_long_double_eq_reduce, if_pos hex]⟩

theorem Cl2_remainder_zero [FloorRing α] : (Cl2.remainder (0 : α)).1 = 0 := by
  rw [Cl2_remainder_nonneg 0 (le_refl _)]
  simp

theorem Cl2_remainder_PI [FloorRing α] :
    (Cl2.remainder (Cl2.PI : α)).1 = Cl2.PI := by
  have hpos := Cl2_PI_pos (α := α)
  simp only [Cl2.remainder, if_neg (not_lt.mpr hpos.le)]
  rw [if_neg (by simp only [ge_iff_le, not_le]; linarith)]

theorem Cl2_remainder_neg_PI [FloorRing α] :
    (Cl2.remainder (-Cl2.PI : α)).1 = Cl2.PI := by
  have hpos := Cl2_PI_pos (α := α)
  simp only [Cl2.remainder, if_pos (neg_lt_zero.mpr hpos), neg_neg]
  rw [if_neg (by simp only [ge_iff_le, not_le]; linarith)]

theorem Cl2_long_double_remainder_zero [FloorRing α] :
    (Cl2_long_double.remainder (0 : α)).1 = 0 := by
  rw [Cl2_long_double_remainder_nonneg 0 (le_refl _)]
  simp

theorem Cl2_long_double_remainder_PI [FloorRing α] :
    (Cl2_long_double.remainder (Cl2_long_double.PI : α)).1 = Cl2_long_double.PI := by
  have hpos := Cl2_long_double_PI_pos (α := α)
  simp only [Cl2_long_double.remainder, if_neg (not_lt.mpr hpos.le)]
  rw [if_neg (by simp only [ge_iff_le, not_le]; linarith)]

theorem Cl2_long_double_remainder_neg_PI [FloorRing α] :
    (Cl2_long_double.remainder (-Cl2_long_double.PI : α)).1
      = Cl2_long_double.PI := by
  have hpos := Cl2_long_double_PI_pos (α := α)
  simp only [Cl2_long_double.remainder, if_pos (neg_lt_zero.mpr hpos), neg_neg]
  rw [if_neg (by simp only [ge_iff_le, not_le]; linarith)]

/-- C13: in both tiers `Cl2(0) = 0`, `Cl2(PI) = 0` and `Cl2(-PI) = 0` with the
constant `PI` of the tier, and for every argument whose remainder (absolute
value, then modulo `2*PI`) is `0` or `PI` the test of the early exit holds and
`Cl2` returns `0`, whatever `log` is. -/
theorem Cl2_exact_zeros [FloorRing α] (log : α → α) (θ : α) :
    (Cl2 log 0 = 0 ∧ Cl2 log Cl2.PI = 0 ∧ Cl2 log (-Cl2.PI) = 0 ∧
      ((Cl2.remainder θ).1 = 0 ∨ (Cl2.remainder θ).1 = Cl2.PI →
        ((Cl2.reduce θ).1 = 0 ∨ (Cl2.reduce θ).1 = Cl2.PI) ∧ Cl2 log θ = 0)) ∧
    (Cl2_long_double log 0 = 0 ∧ Cl2_long_double log Cl2_long_double.PI = 0 ∧
      Cl2_long_double log (-Cl2_long_double.PI) = 0 ∧
      ((Cl2_long_double.remainder θ).1 = 0
          ∨ (Cl2_long_double.remainder θ).1 = Cl2_long_double.PI →
        ((Cl2_long_double.reduce θ).1 = 0
          ∨ (Cl2_long_double.reduce θ).1 = Cl2_long_double.PI) ∧
        Cl2_long_double log θ = 0)) :=
  ⟨⟨(Cl2_exit_of_remainder log 0 (Or.inl Cl2_remainder_zero)).2,
    (Cl2_exit_of_remainder log _ (Or.inr Cl2_remainder_PI)).2,
    (Cl2_exit_of_remainder log _ (Or.inr Cl2_remainder_neg_PI)).2,
    Cl2_exit_of_remainder log θ⟩,
   ⟨(Cl2_long_double_exit_of_remainder log 0
      (Or.inl Cl2_long_double_remainder_zero)).2,
    (Cl2_long_double_exit_of_remainder log _
      (Or.inr Cl2_long_double_remainder_PI)).2,
    (Cl2_long_double_exit_of_remainder log _
      (Or.inr Cl2_long_double_remainder_neg_PI)).2,
    Cl2_long_double_exit_of_remainder log θ⟩⟩

theorem Cl2_remainder_three_PI [FloorRing α] :
    (Cl2.remainder (3 * Cl2.PI : α)).1 = Cl2.PI := by
  have hpos := Cl2_PI_pos (α := α)
  rw [Cl2_remainder_nonneg _ (by linarith)]
  have hf : ⌊3 * (Cl2.PI : α) / (2 * Cl2.PI)⌋ = 1 := by
    rw [Int.floor_eq_iff]
    have e : 3 * (Cl2.PI : α) / (2 * Cl2.PI) = 3 / 2 := by
      field_simp
      ring
    rw [e]
    norm_num
  rw [hf]
  push_cast
  ring

/-- At `theta = 3*PI`, whose remainder is `PI`, the early exit of C13 returns
`0`. -/
theorem Cl2_exact_zeros_witness : Cl2 Real.log (3 * Cl2.PI) = 0 :=
  ((Cl2_exact_zeros Real.log (3 * Cl2.PI)).1.2.2.2
    (Or.inr Cl2_remainder_three_PI)).2

/-! ## Periodicity of `Cl2` -/

theorem Cl2_remainder_fst [FloorRing α] (x : α) :
    (Cl2.remainder x).1 = |x| - (⌊|x| / (2 * Cl2.PI)⌋ : α) * (2 * Cl2.PI) := by
  rcases lt_or_le x 0 with h | h
  · rw [Cl2_remainder_neg x h, abs_of_neg h]
  · rw [Cl2_remainder_nonneg x h, abs_of_nonneg h]

theorem Cl2_remainder_snd [FloorRing α] (x : α) :
    (Cl2.remainder x).2 = if x < 0 then -1 else 1 := by
  rcases lt_or_le x 0 with h | h
  · rw [Cl2_remainder_neg x h, if_pos h]
  · rw [Cl2_remainder_nonneg x h, if_neg (not_lt.mpr h)]

/-- The value of `Cl2(double)` is determined by the pair `(x, sgn)` reached
after the remainder, and by `x` alone when `x = 0`. -/
theorem Cl2_congr [FloorRing α] (log : α → α) (a b : α)
    (h1 : (Cl2.remainder a).1 = (Cl2.remainder b).1)
    (h2 : (Cl2.remainder a).2 = (Cl2.remainder b).2 ∨ (Cl2.remainder a).1 = 0) :
    Cl2 log a = Cl2 log b := by
  rcases h2 with h2 | h2
  · have hr : Cl2.remainder a = Cl2.remainder b := Prod.ext h1 h2
    have hred : Cl2.reduce a = Cl2.reduce b := by
      simp only [Cl2.reduce, hr]
    rw [Cl2_eq_reduce, Cl2_eq_reduce, hred]
  · rw [(Cl2_exit_of_remainder log a (Or.inl h2)).2,
      (Cl2_exit_of_remainder log b (Or.inl (h1 ▸ h2))).2]

/-- C14 as stated fails at `theta = -2`, `k = 1`: the argument `2*PI - 2` is
reflected with `p0 + p1`, which is not `2*PI`, to `1.9999999999999999969253`,
and `Cl2` differs there from its value at `2`. -/
theorem Cl2_shift_across_zero :
    Cl2 Real.log (-2 + 2 * Cl2.PI * ((1 : Int) : ℝ)) ≠ Cl2 Real.log (-2) := by
  have hr1 : Cl2.reduce (-2 + 2 * Cl2.PI * ((1 : Int) : ℝ))
      = (1.9999999999999999969253, -1) := by
    have h0 : ¬ (-2 + 2 * (Cl2.PI : ℝ) * ((1 : Int) : ℝ) < 0) := by
      norm_num [Cl2.PI]
    have h1 : ¬ (-2 + 2 * (Cl2.PI : ℝ) * ((1 : Int) : ℝ) ≥ 2 * Cl2.PI) := by
      norm_num [Cl2.PI]
    have h2 : -2 + 2 * (Cl2.PI : ℝ) * ((1 : Int) : ℝ) > Cl2.PI := by
      norm_num [Cl2.PI]
    simp only [Cl2.reduce, Cl2.remainder, if_neg h0, if_neg h1, if_pos h2]
    norm_num [Cl2.PI, Cl2.p0, Cl2.p1]
  have hr2 : Cl2.reduce (-2 : ℝ) = (2, -1) := by
    have h0 : (-2 : ℝ) < 0 := by norm_num
    have h1 : ¬ (-(-2 : ℝ) ≥ 2 * Cl2.PI) := by norm_num [Cl2.PI]
    have h2 : ¬ (-(-2 : ℝ) > Cl2.PI) := by norm_num [Cl2.PI]
    simp only [Cl2.reduce, Cl2.remainder, if_pos h0, if_neg h1, if_neg h2]
    norm_num
  rw [Cl2_eq_reduce, Cl2_eq_reduce, hr1, hr2]
  have e1 : ¬ ((1.9999999999999999969253 : ℝ) = 0
      ∨ (1.9999999999999999969253 : ℝ) = Cl2.PI) := by
    norm_num [Cl2.PI]
  have e2 : ¬ ((2 : ℝ) = 0 ∨ (2 : ℝ) = Cl2.PI) := by norm_num [Cl2.PI]
  have e3 : ¬ ((1.9999999999999999969253 : ℝ) < Cl2.PI / 2) := by
    norm_num [Cl2.PI]
  have e4 : ¬ ((2 : ℝ) < Cl2.PI / 2) := by norm_num [Cl2.PI]
  simp only [if_neg e1, if_neg e2, if_neg e3, if_neg e4]
  simp only [Cl2.high, Cl2.high.P, Cl2.high.Q, Cl2.PI, List.getD_cons_succ,
    List.getD_cons_zero]
  norm_num

/-- C14, amended: `Cl2(theta + 2*PI*k) = Cl2(theta)` for every real `theta`
and every integer `k` such that `theta` and `theta + 2*PI*k` are both
non-negative or both non-positive, with the remainder modulo `2*PI` exact and
`PI` the constant of the code. -/
theorem Cl2_periodic_same_sign [FloorRing α] (log : α → α) (θ : α) (k : Int)
    (h : (0 ≤ θ ∧ 0 ≤ θ + 2 * Cl2.PI * k) ∨ (θ ≤ 0 ∧ θ + 2 * Cl2.PI * k ≤ 0)) :
    Cl2 log (θ + 2 * Cl2.PI * k) = Cl2 log θ := by
  have hP : (0 : α) < 2 * Cl2.PI := by linarith [Cl2_PI_pos (α := α)]
  rcases h with ⟨h1, h2⟩ | ⟨h1, h2⟩
  · apply Cl2_congr
    · rw [Cl2_remainder_fst, Cl2_remainder_fst, abs_of_nonneg h1, abs_of_nonneg h2]
      exact fold_mod_add _ _ k hP
    · left
      rw [Cl2_remainder_snd, Cl2_remainder_snd, if_neg (not_lt.mpr h1),
        if_neg (not_lt.mpr h2)]
  · have hfst : (Cl2.remainder (θ + 2 * Cl2.PI * k)).1 = (Cl2.remainder θ).1 := by
      rw [Cl2_remainder_fst, Cl2_remainder_fst, abs_of_nonpos h1, abs_of_nonpos h2]
      have e : -(θ + 2 * Cl2.PI * (k : α)) = -θ + 2 * Cl2.PI * ((-k : Int) : α) := by
        push_cast
        ring
      rw [e]
      exact fold_mod_add _ _ (-k) hP
    apply Cl2_congr _ _ _ hfst
    rcases lt_or_eq_of_le h1 with h1 | h1
    · rcases lt_or_eq_of_le h2 with h2 | h2
      · left
        rw [Cl2_remainder_snd, Cl2_remainder_snd, if_pos h1, if_pos h2]
      · right
        rw [h2]
        exact Cl2_remainder_zero
    · right
      rw [hfst, h1]
      exact Cl2_remainder_zero

/-- At `theta = 1`, `k = 2` the hypothesis of the amended C14 holds. -/
theorem Cl2_periodic_same_sign_witness :
    Cl2 Real.log (1 + 2 * Cl2.PI * ((2 : Int) : ℝ)) = Cl2 Real.log 1 :=
  Cl2_periodic_same_sign Real.log 1 2
    (Or.inl ⟨by norm_num, by norm_num [Cl2.PI]⟩)

/-! ## The range classification of `li2` -/

/-- Exactly one of the six ranges of `li2` holds at every `T`. -/
theorem li2_ranges_exactly_one (T : α) :
    ([decide (T ≤ -2), decide (-2 < T ∧ T < -1), decide (-1 ≤ T ∧ T ≤ -1 / 2),
      decide (-1 / 2 < T ∧ T < 0), decide (0 ≤ T ∧ T ≤ 1), decide (1 < T)].count
        true) = 1 := by
  by_cases h1 : T ≤ -2
  · have n2 : ¬ (-2 < T ∧ T < -1) := fun h => by linarith [h.1]
    have n3 : ¬ (-1 ≤ T ∧ T ≤ -1 / 2) := fun h => by linarith [h.1]
    have n4 : ¬ (-1 / 2 < T ∧ T < 0) := fun h => by linarith [h.1]
    have n5 : ¬ (0 ≤ T ∧ T ≤ 1) := fun h => by linarith [h.1]
    have n6 : ¬ (1 < T) := fun h => by linarith
    simp [h1, n2, n3, n4, n5, n6]
  by_cases h2 : T < -1
  · have p2 : -2 < T ∧ T < -1 := ⟨lt_of_not_ge h1, h2⟩
    have n3 : ¬ (-1 ≤ T ∧ T ≤ -1 / 2) := fun h => by linarith [h.1]
    have n4 : ¬ (-1 / 2 < T ∧ T < 0) := fun h => by linarith [h.1]
    have n5 : ¬ (0 ≤ T ∧ T ≤ 1) := fun h => by linarith [h.1]
    have n6 : ¬ (1 < T) := fun h => by linarith
    simp [h1, p2, n3, n4, n5, n6]
  by_cases h3 : T ≤ -1 / 2
  · have n2 : ¬ (-2 < T ∧ T < -1) := fun h => h2 h.2
    have p3 : -1 ≤ T ∧ T ≤ -1 / 2 := ⟨le_of_not_lt h2, h3⟩
    have n4 : ¬ (-1 / 2 < T ∧ T < 0) := fun h => by linarith [h.1]
    have n5 : ¬ (0 ≤ T ∧ T ≤ 1) := fun h => by linarith [h.1]
    have n6 : ¬ (1 < T) := fun h => by linarith
    simp [h1, n2, p3, n4, n5, n6]
  by_cases h4 : T < 0
  · have n2 : ¬ (-2 < T ∧ T < -1) := fun h => h2 h.2
    have n3 : ¬ (-1 ≤ T ∧ T ≤ -1 / 2) := fun h => h3 h.2
    have p4 : -1 / 2 < T ∧ T < 0 := ⟨lt_of_not_ge h3, h4⟩
    have n5 : ¬ (0 ≤ T ∧ T ≤ 1) := fun h => by linarith [h.1]
    have n6 : ¬ (1 < T) := fun h => by linarith
    simp [h1, n2, n3, p4, n5, n6]
  by_cases h5 : T ≤ 1
  · have n2 : ¬ (-2 < T ∧ T < -1) := fun h => h2 h.2
    have n3 : ¬ (-1 ≤ T ∧ T ≤ -1 / 2) := fun h => h3 h.2
    have n4 : ¬ (-1 / 2 < T ∧ T < 0) := fun h => h4 h.2
    have p5 : 0 ≤ T ∧ T ≤ 1 := ⟨le_of_not_lt h4, h5⟩
    have n6 : ¬ (1 < T) := fun h => by linarith
    simp [h1, n2, n3, n4, p5, n6]
  · have n2 : ¬ (-2 < T ∧ T < -1) := fun h => h2 h.2
    have n3 : ¬ (-1 ≤ T ∧ T ≤ -1 / 2) := fun h => h3 h.2
    have n4 : ¬ (-1 / 2 < T ∧ T < 0) := fun h => h4 h.2
    have n5 : ¬ (0 ≤ T ∧ T ≤ 1) := fun h => h5 h.2
    have p6 : 1 < T := lt_of_not_ge h5
    simp [h1, n2, n3, n4, n5, p6]

/-- The reduced variable `Y` of `li2.classify` lies in `[0, 1]`. -/
theorem classify_Y_range (log : α → α) (T : α) :
    0 ≤ (li2.classify log T).1 ∧ (li2.classify log T).1 ≤ 1 := by
  by_cases h1 : T ≤ -2
  · rw [classify_first log T h1]
    have hd : 1 + T < 0 := by linarith
    exact ⟨div_nonneg_of_nonpos (by norm_num) hd.le,
      (div_le_one_of_neg hd).mpr (by linarith)⟩
  by_cases h2 : T < -1
  · rw [classify_second log T (lt_of_not_ge h1) h2]
    constructor
    · show (0 : α) ≤ -1 - T
      linarith
    · show -1 - T ≤ (1 : α)
      linarith [lt_of_not_ge h1]
  by_cases h3 : T ≤ -1 / 2
  · rw [classify_third log T (le_of_not_lt h2) h3]
    have hd : T < 0 := by linarith
    exact ⟨div_nonneg_of_nonpos (by linarith [le_of_not_lt h2]) hd.le,
      (div_le_one_of_neg hd).mpr (by linarith)⟩
  by_cases h4 : T < 0
  · rw [classify_fourth log T (lt_of_not_ge h3) h4]
    have hd : 0 < 1 + T := by linarith [lt_of_not_ge h3]
    exact ⟨div_nonneg (by linarith) hd.le,
      (div_le_one hd).mpr (by linarith [lt_of_not_ge h3])⟩
  by_cases h5 : T ≤ 1
  · rw [classify_fifth log T (le_of_not_lt h4) h5]
    exact ⟨le_of_not_lt h4, h5⟩
  · have h6 : 1 < T := lt_of_not_ge h5
    rw [classify_sixth log T h6]
    have hd : (0 : α) < T := by linarith
    exact ⟨div_nonneg (by norm_num) hd.le, (div_le_one hd).mpr h6.le⟩

/-- The argument `1 + 1/T` of the logarithm in the first two ranges is
strictly positive. -/
theorem one_add_inv_pos (T : α) (h : T < -1) : 0 < 1 + 1 / T := by
  have hT : T ≠ 0 := by
    intro hc
    rw [hc] at h
    linarith
  have e : 1 + 1 / T = (T + 1) / T := by
    field_simp
  rw [e]
  exact div_pos_of_neg_of_neg (by linarith) (by linarith)

/-- Away from `T = -1` no logarithm of `li2.classify` is taken of a number
that is not strictly positive and no division has the divisor zero: the
checked classification succeeds and is the classification. -/
theorem classify_checked_eq (log : α → α) (T : α) (hT : T ≠ -1) :
    li2.classify_checked log T = some (li2.classify log T) := by
  by_cases h1 : T ≤ -2
  · have d1 : (1 : α) + T ≠ 0 := by
      intro hc
      linarith
    have d2 : T ≠ 0 := by
      intro hc
      linarith
    have l1 : 0 < -T := by linarith
    have l2 : 0 < 1 + 1 / T := one_add_inv_pos T (by linarith)
    have l3 : 0 < 1 + T⁻¹ := by
      rw [← one_div]
      exact l2
    rw [classify_first log T h1]
    simp [li2.classify_checked, h1, checkedDiv, checkedLog, d1, d2, l1, l3]
  by_cases h2 : T < -1
  · have d2 : T ≠ 0 := by
      intro hc
      linarith
    have l1 : 0 < -T := by linarith
    have l2 : 0 < 1 + 1 / T := one_add_inv_pos T h2
    have l3 : 0 < 1 + T⁻¹ := by
      rw [← one_div]
      exact l2
    rw [classify_second log T (lt_of_not_ge h1) h2]
    simp [li2.classify_checked, h1, h2, checkedDiv, checkedLog, d2, l1, l3]
  by_cases h3 : T ≤ -1 / 2
  · have h3' : T ≤ -0.5 := by
      rw [lit_half]
      linarith
    have hge : -1 ≤ T := le_of_not_lt h2
    have hgt : -1 < T := lt_of_le_of_ne hge (Ne.symm hT)
    have d2 : T ≠ 0 := by
      intro hc
      linarith
    have l1 : 0 < -T := by linarith
    have l2 : 0 < 1 + T := by linarith
    rw [classify_third log T hge h3]
    simp [li2.classify_checked, h1, h2, h3', checkedDiv, checkedLog, d2, l1, l2]
  have n3 : ¬ T ≤ -0.5 := by
    rw [lit_half]
    intro hc
    apply h3
    linarith
  by_cases h4 : T < 0
  · have hgt : -1 / 2 < T := lt_of_not_ge h3
    have d1 : (1 : α) + T ≠ 0 := by
      intro hc
      linarith
    have l2 : 0 < 1 + T := by linarith
    rw [classify_fourth log T hgt h4]
    simp [li2.classify_checked, h1, h2, n3, h4, checkedDiv, checkedLog, d1, l2]
  by_cases h5 : T ≤ 1
  · rw [classify_fifth log T (le_of_not_lt h4) h5]
    simp [li2.classify_checked, h1, h2, n3, h4, h5]
  · have h6 : 1 < T := lt_of_not_ge h5
    have d2 : T ≠ 0 := by
      intro hc
      linarith
    have l1 : 0 < T := by linarith
    rw [classify_sixth log T h6]
    simp [li2.classify_checked, h1, h2, n3, h4, h5, checkedDiv, checkedLog, d2, l1]

/-- At `T = -1` the logarithm `log(1 + T)` of the third range has the
argument zero: the checked classification fails. -/
theorem classify_checked_neg_one (log : α → α) :
    li2.classify_checked log (-1) = none := by
  have h1 : ¬ ((-1 : α) ≤ -2) := by norm_num
  have h2 : ¬ ((-1 : α) < -1) := by norm_num
  have h3 : (-1 : α) ≤ -0.5 := by norm_num
  simp [li2.classify_checked, h1, h3, checkedDiv, checkedLog]

/-- C16: for every `x` other than `1` and `-1`, exactly one of the six ranges
holds at `T = -x` and `li2.classify` returns the triple of that range; the
reduced variable `Y` lies in `[0, 1]` and `H = 2Y - 1` in `[-1, 1]`; no
division has the divisor zero and every logarithm has a strictly positive
argument (the checked classification succeeds with the same triple).  At
`T = -1` the argument of `log(1 + T)` is zero and the checked classification
fails. -/
theorem li2_classification (log : α → α) (x : α) (hx1 : x ≠ 1) (_hx2 : x ≠ -1) :
    ([decide (-x ≤ -2), decide (-2 < -x ∧ -x < -1),
      decide (-1 ≤ -x ∧ -x ≤ -1 / 2), decide (-1 / 2 < -x ∧ -x < 0),
      decide (0 ≤ -x ∧ -x ≤ 1), decide (1 < -x)].count true = 1) ∧
    ((-x ≤ -2 → li2.classify log (-x) =
        ((-1) / (1 + -x), 1,
          -li2.PI3 + li2.HF * (log (-(-x)) * log (-(-x))
            - log (1 + 1 / -x) * log (1 + 1 / -x)))) ∧
     (-2 < -x ∧ -x < -1 → li2.classify log (-x) =
        (-1 - -x, -1,
          -li2.PI6 + log (-(-x)) * (log (-(-x)) + log (1 + 1 / -x)))) ∧
     (-1 ≤ -x ∧ -x ≤ -1 / 2 → li2.classify log (-x) =
        ((-(1 + -x)) / -x, 1,
          -li2.PI6 + log (-(-x)) * (-li2.HF * log (-(-x)) + log (1 + -x)))) ∧
     (-1 / 2 < -x ∧ -x < 0 → li2.classify log (-x) =
        ((-(-x)) / (1 + -x), -1, li2.HF * log (1 + -x) * log (1 + -x))) ∧
     (0 ≤ -x ∧ -x ≤ 1 → li2.classify log (-x) = (-x, 1, 0)) ∧
     (1 < -x → li2.classify log (-x) =
        (1 / -x, -1, li2.PI6 + li2.HF * log (-x) * log (-x)))) ∧
    li2.classify_checked log (-x) = some (li2.classify log (-x)) ∧
    (0 ≤ (li2.classify log (-x)).1 ∧ (li2.classify log (-x)).1 ≤ 1) ∧
    (-1 ≤ (li2.classify log (-x)).1 + (li2.classify log (-x)).1 - 1 ∧
      (li2.classify log (-x)).1 + (li2.classify log (-x)).1 - 1 ≤ 1) ∧
    li2.classify_checked log (-1) = none := by
  have hT : -x ≠ -1 := fun hc => hx1 (neg_injective hc)
  have hY := classify_Y_range log (-x)
  refine ⟨li2_ranges_exactly_one (-x),
    ⟨fun h => classify_first log _ h, fun h => classify_second log _ h.1 h.2,
     fun h => classify_third log _ h.1 h.2, fun h => classify_fourth log _ h.1 h.2,
     fun h => classify_fifth log _ h.1 h.2, fun h => classify_sixth log _ h⟩,
    classify_checked_eq log (-x) hT, hY, ⟨by linarith [hY.1], by linarith [hY.2]⟩,
    classify_checked_neg_one log⟩

/-- At `x = 2`, on the boundary `T = -2` of the first range, the hypotheses of
C16 hold: the checked classification succeeds. -/
theorem li2_classification_witness :
    li2.classify_checked Real.log (-2) = some (li2.classify Real.log (-2)) :=
  (li2_classification Real.log 2 (by norm_num) (by norm_num)).2.2.1

/-! ## The Chebyshev loop of `li2` is a Clenshaw evaluation -/

/-- The recurrence of the Chebyshev polynomials of the second kind, evaluated
at a point. -/
theorem U_eval_succ (H : α) (j : Int) :
    Polynomial.eval H (Polynomial.Chebyshev.U α (j + 1))
      = 2 * H * Polynomial.eval H (Polynomial.Chebyshev.U α j)
        - Polynomial.eval H (Polynomial.Chebyshev.U α (j - 1)) := by
  have h := Polynomial.Chebyshev.U_eq α (j + 1)
  have e1 : j + 1 - 1 = j := by ring
  have e2 : j + 1 - 2 = j - 1 := by ring
  rw [e1, e2] at h
  rw [h]
  simp

/-- The passes of the loop of `li2` over the indices `n-1, ..., 0`, started
from any state: the two trailing sums in terms of the Chebyshev polynomials of
the second kind. -/
theorem loop_fold (H : α) (n : Nat) (B0 B1 B2 : α) :
    (((List.range n).reverse).foldl (li2.step (H + H)) (B0, B1, B2)).2.1
      = (∑ k in Finset.range n, li2.C.getD k 0
          * Polynomial.eval H (Polynomial.Chebyshev.U α (k : Int)))
        + B1 * Polynomial.eval H (Polynomial.Chebyshev.U α (n : Int))
        - B2 * Polynomial.eval H (Polynomial.Chebyshev.U α ((n : Int) - 1)) ∧
    (((List.range n).reverse).foldl (li2.step (H + H)) (B0, B1, B2)).2.2
      = (∑ k in Finset.range n, li2.C.getD k 0
          * Polynomial.eval H (Polynomial.Chebyshev.U α ((k : Int) - 1)))
        + B1 * Polynomial.eval H (Polynomial.Chebyshev.U α ((n : Int) - 1))
        - B2 * Polynomial.eval H (Polynomial.Chebyshev.U α ((n : Int) - 2)) ∧
    (0 < n →
      (((List.range n).reverse).foldl (li2.step (H + H)) (B0, B1, B2)).1
        = (((List.range n).reverse).foldl (li2.step (H + H)) (B0, B1, B2)).2.1) := by
  induction n generalizing B0 B1 B2 with
  | zero =>
    refine ⟨?_, ?_, fun h => absurd h (lt_irrefl 0)⟩
    · simp
    · have e : ((0 : Nat) : Int) - 2 = -2 := by norm_num
      simp only [List.range_zero, List.reverse_nil, List.foldl_nil,
        Finset.range_zero, Finset.sum_empty, e]
      simp
  | succ n ih =>
    have hl : (List.range (n + 1)).reverse = n :: (List.range n).reverse := by
      rw [List.range_succ, List.reverse_append]
      rfl
    have hs : li2.step (H + H) (B0, B1, B2) n
        = (li2.C.getD n 0 + (H + H) * B1 - B2,
           li2.C.getD n 0 + (H + H) * B1 - B2, B1) := rfl
    obtain ⟨ih1, ih2, ih3⟩ := ih (li2.C.getD n 0 + (H + H) * B1 - B2)
      (li2.C.getD n 0 + (H + H) * B1 - B2) B1
    have c1 : ((n + 1 : Nat) : Int) = (n : Int) + 1 := by push_cast; ring
    have c2 : ((n + 1 : Nat) : Int) - 1 = (n : Int) := by push_cast; ring
    have c3 : ((n + 1 : Nat) : Int) - 2 = (n : Int) - 1 := by push_cast; ring
    have r1 := U_eval_succ H (n : Int)
    have r2 := U_eval_succ H ((n : Int) - 1)
    have e3 : (n : Int) - 1 + 1 = (n : Int) := by ring
    have e4 : (n : Int) - 1 - 1 = (n : Int) - 2 := by ring
    rw [e3, e4] at r2
    rw [hl, List.foldl_cons, hs]
    refine ⟨?_, ?_, fun _ => ?_⟩
    · rw [ih1, Finset.sum_range_succ, c2, c1, r1]
      ring
    · rw [ih2, Finset.sum_range_succ, c3, c2]
      rw [r2]
      ring
    · rcases Nat.eq_zero_or_pos n with h0 | hpos
      · subst h0
        rfl
      · exact ih3 hpos

/-- C17: for every `H` the loop of `li2`, run with `ALFA = 2H` from
`B1 = B2 = 0`, makes exactly 20 passes over the indices `19, ..., 0`, every
one of them inside the 20-entry table `C`, and leaves `B0 - H*B2` equal to the
Chebyshev sum `sum_{k=0..19} C[k]*T_k(H)`, with `T_k` the Chebyshev polynomials
of the first kind. -/
theorem li2_loop_clenshaw (H : α) :
    (li2.loop (H + H)).1 - H * (li2.loop (H + H)).2.2
      = ∑ k in Finset.range 20, li2.C.getD k 0
          * Polynomial.eval H (Polynomial.Chebyshev.T α (k : Int)) ∧
    ((List.range 20).reverse).length = 20 ∧
    (li2.C : List α).length = 20 ∧
    (∀ i ∈ (List.range 20).reverse, i < (li2.C : List α).length) := by
  refine ⟨?_, by simp, rfl, ?_⟩
  · obtain ⟨h1, h2, h3⟩ := loop_fold H 20 0 0 0
    have h0 : (li2.loop (H + H)).1 = (li2.loop (H + H)).2.1 := h3 (by norm_num)
    rw [h0]
    unfold li2.loop
    rw [h1, h2]
    simp only [zero_mul, add_zero, sub_zero]
    rw [Finset.mul_sum, ← Finset.sum_sub_distrib]
    apply Finset.sum_congr rfl
    intro k _
    rw [Polynomial.Chebyshev.T_eq_U_sub_X_mul_U]
    simp only [Polynomial.eval_sub, Polynomial.eval_mul, Polynomial.eval_X]
    ring
  · intro i hi
    have hlen : (li2.C : List α).length = 20 := rfl
    rw [hlen]
    simpa using hi

/-! ## The three maps of `cli2` -/

namespace DComplex

@[simp] theorem neg_re (a : DComplex α) : (-a).re = -a.re := rfl
@[simp] theorem neg_im (a : DComplex α) : (-a).im = -a.im := rfl
@[simp] theorem div_re (a b : DComplex α) :
    (a / b).re = (a.re * b.re + a.im * b.im) / (b.re * b.re + b.im * b.im) := rfl
@[simp] theorem div_im (a b : DComplex α) :
    (a / b).im = (a.im * b.re - a.re * b.im) / (b.re * b.re + b.im * b.im) := rfl

end DComplex

/-- The inversion map of `cli2` is taken when `Re z <= 0.5` and `|z|^2 > 1`. -/
theorem transform_inversion_left (clog : DComplex α → DComplex α) (z : DComplex α)
    (h1 : z.re ≤ 1 / 2) (h2 : 1 < z.re * z.re + z.im * z.im) :
    cli2.transform clog z =
      (DComplex.ofReal (-0.5) * clog (-z) * clog (-z),
       -clog (DComplex.ofReal 1.0 - DComplex.ofReal 1.0 / z), -1, -2) := by
  have a1 : z.re ≤ 0.5 := by rw [lit_half]; exact h1
  have a2 : z.re * z.re + z.im * z.im > 1.0 := by rw [lit_one]; exact h2
  simp only [cli2.transform, if_pos a1, if_pos a2]

/-- The direct map of `cli2` is taken when `Re z <= 0.5` and `|z|^2 <= 1`. -/
theorem transform_direct (clog : DComplex α → DComplex α) (z : DComplex α)
    (h1 : z.re ≤ 1 / 2) (h2 : z.re * z.re + z.im * z.im ≤ 1) :
    cli2.transform clog z =
      (DComplex.ofReal 0, -clog (DComplex.ofReal 1.0 - z), 1, 0) := by
  have a1 : z.re ≤ 0.5 := by rw [lit_half]; exact h1
  have a2 : ¬ z.re * z.re + z.im * z.im > 1.0 := by
    rw [lit_one]
    exact not_lt.mpr h2
  simp only [cli2.transform, if_pos a1, if_neg a2]

/-- The complementary map of `cli2` is taken when `Re z > 0.5` and
`|z|^2 <= 2 Re z`. -/
theorem transform_complementary (clog : DComplex α → DComplex α) (z : DComplex α)
    (h1 : 1 / 2 < z.re) (h2 : z.re * z.re + z.im * z.im ≤ 2 * z.re) :
    cli2.transform clog z =
      (-clog z * clog (DComplex.ofReal 1.0 - z), -clog z, -1, 2) := by
  have a1 : ¬ z.re ≤ 0.5 := by rw [lit_half]; exact not_le.mpr h1
  simp only [cli2.transform, if_neg a1, if_pos h2]

/-- The inversion map of `cli2` is taken when `Re z > 0.5` and
`|z|^2 > 2 Re z`. -/
theorem transform_inversion_right (clog : DComplex α → DComplex α) (z : DComplex α)
    (h1 : 1 / 2 < z.re) (h2 : 2 * z.re < z.re * z.re + z.im * z.im) :
    cli2.transform clog z =
      (DComplex.ofReal (-0.5) * clog (-z) * clog (-z),
       -clog (DComplex.ofReal 1.0 - DComplex.ofReal 1.0 / z), -1, -2) := by
  have a1 : ¬ z.re ≤ 0.5 := by rw [lit_half]; exact not_le.mpr h1
  simp only [cli2.transform, if_neg a1, if_neg (not_le.mpr h2)]

/-- The series argument `w = 1/z` of the inversion map: `|w|^2 <= 1` and
`Re w <= 1/2` as soon as `|z|^2 >= 1` and `|z|^2 >= 2 Re z`. -/
theorem inversion_argument (z : DComplex α)
    (h1 : 1 ≤ z.re * z.re + z.im * z.im)
    (h2 : 2 * z.re ≤ z.re * z.re + z.im * z.im) :
    (DComplex.ofReal 1.0 / z).re * (DComplex.ofReal 1.0 / z).re
      + (DComplex.ofReal 1.0 / z).im * (DComplex.ofReal 1.0 / z).im ≤ 1 ∧
    (DComplex.ofReal 1.0 / z).re ≤ 1 / 2 := by
  have hpos : 0 < z.re * z.re + z.im * z.im := by linarith
  have hne : z.re * z.re + z.im * z.im ≠ 0 := ne_of_gt hpos
  simp only [DComplex.div_re, DComplex.div_im, DComplex.ofReal_re,
    DComplex.ofReal_im, lit_one]
  constructor
  · have e : (1 * z.re + 0 * z.im) / (z.re * z.re + z.im * z.im)
          * ((1 * z.re + 0 * z.im) / (z.re * z.re + z.im * z.im))
        + (0 * z.re - 1 * z.im) / (z.re * z.re + z.im * z.im)
          * ((0 * z.re - 1 * z.im) / (z.re * z.re + z.im * z.im))
        = 1 / (z.re * z.re + z.im * z.im) := by
      field_simp
    rw [e, div_le_one hpos]
    exact h1
  · rw [div_le_iff₀ hpos]
    linarith

/-- The three maps of `cli2.transform`: for every `z` exactly one of the
direct, the complementary and the inversion map is selected, with its tuple
and with the bounds on the series argument `w`. -/
theorem transform_three_maps (clog : DComplex α → DComplex α) (z : DComplex α) :
    ((z.re ≤ 1 / 2 ∧ z.re * z.re + z.im * z.im ≤ 1) ∧
      ¬ (1 / 2 < z.re ∧ z.re * z.re + z.im * z.im ≤ 2 * z.re) ∧
      cli2.transform clog z =
        (DComplex.ofReal 0, -clog (DComplex.ofReal 1.0 - z), 1, 0) ∧
      z.re * z.re + z.im * z.im ≤ 1 ∧ z.re ≤ 1 / 2) ∨
    (¬ (z.re ≤ 1 / 2 ∧ z.re * z.re + z.im * z.im ≤ 1) ∧
      (1 / 2 < z.re ∧ z.re * z.re + z.im * z.im ≤ 2 * z.re) ∧
      cli2.transform clog z =
        (-clog z * clog (DComplex.ofReal 1.0 - z), -clog z, -1, 2) ∧
      ((DComplex.ofReal 1.0 - (DComplex.ofReal 1.0 - z)).re = z.re ∧
        (DComplex.ofReal 1.0 - (DComplex.ofReal 1.0 - z)).im = z.im) ∧
      (DComplex.ofReal 1.0 - z).re * (DComplex.ofReal 1.0 - z).re
        + (DComplex.ofReal 1.0 - z).im * (DComplex.ofReal 1.0 - z).im ≤ 1 ∧
      (DComplex.ofReal 1.0 - z).re ≤ 1 / 2) ∨
    (¬ (z.re ≤ 1 / 2 ∧ z.re * z.re + z.im * z.im ≤ 1) ∧
      ¬ (1 / 2 < z.re ∧ z.re * z.re + z.im * z.im ≤ 2 * z.re) ∧
      cli2.transform clog z =
        (DComplex.ofReal (-0.5) * clog (-z) * clog (-z),
         -clog (DComplex.ofReal 1.0 - DComplex.ofReal 1.0 / z), -1, -2) ∧
      z.re * z.re + z.im * z.im ≠ 0 ∧
      (DComplex.ofReal 1.0 / z).re * (DComplex.ofReal 1.0 / z).re
        + (DComplex.ofReal 1.0 / z).im * (DComplex.ofReal 1.0 / z).im ≤ 1 ∧
      (DComplex.ofReal 1.0 / z).re ≤ 1 / 2) := by
  by_cases h1 : z.re ≤ 1 / 2
  · by_cases h2 : z.re * z.re + z.im * z.im ≤ 1
    · left
      exact ⟨⟨h1, h2⟩, fun h => absurd h.1 (not_lt.mpr h1),
        transform_direct clog z h1 h2, h2, h1⟩
    · right
      right
      have h3 : 1 < z.re * z.re + z.im * z.im := lt_of_not_ge h2
      have hw := inversion_argument z h3.le (by linarith)
      exact ⟨fun h => h2 h.2, fun h => absurd h.1 (not_lt.mpr h1),
        transform_inversion_left clog z h1 h3, by linarith, hw⟩
  · have h1' : 1 / 2 < z.re := lt_of_not_ge h1
    by_cases h2 : z.re * z.re + z.im * z.im ≤ 2 * z.re
    · right
      left
      refine ⟨fun h => h1 h.1, ⟨h1', h2⟩, transform_complementary clog z h1' h2,
        ?_, ?_, ?_⟩
      · simp [lit_one]
      · simp only [DComplex.sub_re, DComplex.sub_im, DComplex.ofReal_re,
          DComplex.ofReal_im, lit_one]
        nlinarith
      · simp only [DComplex.sub_re, DComplex.ofReal_re, lit_one]
        linarith
    · right
      right
      have h3 : 2 * z.re < z.re * z.re + z.im * z.im := lt_of_not_ge h2
      have hw := inversion_argument z (by linarith) h3.le
      exact ⟨fun h => h1 h.1, fun h => h2 h.2,
        transform_inversion_right clog z h1' h3, by linarith, hw⟩

/-- C18: for every `z` on the general path of `cli2` (`Im z` not zero and
`|z|^2` not below `DBL_EPSILON`), `cli2(z)` is the value of the general path,
which is the series and the recombination `jsgn*sum + cy + ipi12*PI*PI/12`
applied to the tuple `(cy, cz, jsgn, ipi12)` of the transformation, and
exactly one of the three maps is selected for that tuple: the direct map iff
`Re z <= 0.5` and `|z|^2 <= 1`, the complementary map iff `Re z > 0.5` and
`|z|^2 <= 2 Re z`, the inversion map otherwise, with `(jsgn, ipi12)` equal to
`(1, 0)`, `(-1, 2)`, `(-1, -2)`; the series argument `w` (`z`, `1 - z`,
`1/z`), for which `cz = -clog(1 - w)`, has `|w|^2 <= 1` and `Re w <= 1/2`; in
the inversion map `|z|^2` is not zero. -/
theorem cli2_transform_maps (log : α → α) (clog : DComplex α → DComplex α)
    (z : DComplex α) (him : z.im ≠ 0)
    (hnz : ¬ z.re * z.re + z.im * z.im < DBL_EPSILON) :
    cli2 log clog z = cli2.general clog z ∧
    cli2.general clog z =
      (let bf (i : Nat) : DComplex α := DComplex.ofReal (cli2.bf.getD i 0)
       let t := cli2.transform clog z
       let cy := t.1
       let cz := t.2.1
       let jsgn := t.2.2.1
       let ipi12 := t.2.2.2
       let cz2 := cz * cz
       let sum :=
         cz +
         cz2 * (bf 0 +
         cz  * (bf 1 +
         cz2 * (bf 2 +
         cz2 * (bf 3 +
         cz2 * (bf 4 +
         cz2 * (bf 5 +
         cz2 * (bf 6 +
         cz2 * (bf 7 +
         cz2 * (bf 8 +
         cz2 * (bf 9))))))))))
       DComplex.ofReal (jsgn : α) * sum + cy
         + DComplex.ofReal ((ipi12 : α) * li2.PI * li2.PI / 12.0)) ∧
    (((z.re ≤ 1 / 2 ∧ z.re * z.re + z.im * z.im ≤ 1) ∧
      ¬ (1 / 2 < z.re ∧ z.re * z.re + z.im * z.im ≤ 2 * z.re) ∧
      cli2.transform clog z =
        (DComplex.ofReal 0, -clog (DComplex.ofReal 1.0 - z), 1, 0) ∧
      z.re * z.re + z.im * z.im ≤ 1 ∧ z.re ≤ 1 / 2) ∨
    (¬ (z.re ≤ 1 / 2 ∧ z.re * z.re + z.im * z.im ≤ 1) ∧
      (1 / 2 < z.re ∧ z.re * z.re + z.im * z.im ≤ 2 * z.re) ∧
      cli2.transform clog z =
        (-clog z * clog (DComplex.ofReal 1.0 - z), -clog z, -1, 2) ∧
      ((DComplex.ofReal 1.0 - (DComplex.ofReal 1.0 - z)).re = z.re ∧
        (DComplex.ofReal 1.0 - (DComplex.ofReal 1.0 - z)).im = z.im) ∧
      (DComplex.ofReal 1.0 - z).re * (DComplex.ofReal 1.0 - z).re
        + (DComplex.ofReal 1.0 - z).im * (DComplex.ofReal 1.0 - z).im ≤ 1 ∧
      (DComplex.ofReal 1.0 - z).re ≤ 1 / 2) ∨
    (¬ (z.re ≤ 1 / 2 ∧ z.re * z.re + z.im * z.im ≤ 1) ∧
      ¬ (1 / 2 < z.re ∧ z.re * z.re + z.im * z.im ≤ 2 * z.re) ∧
      cli2.transform clog z =
        (DComplex.ofReal (-0.5) * clog (-z) * clog (-z),
         -clog (DComplex.ofReal 1.0 - DComplex.ofReal 1.0 / z), -1, -2) ∧
      z.re * z.re + z.im * z.im ≠ 0 ∧
      (DComplex.ofReal 1.0 / z).re * (DComplex.ofReal 1.0 / z).re
        + (DComplex.ofReal 1.0 / z).im * (DComplex.ofReal 1.0 / z).im ≤ 1 ∧
      (DComplex.ofReal 1.0 / z).re ≤ 1 / 2)) := by
  have h0 : ¬ z.im = 0.0 := by
    rw [lit_zero]
    exact him
  refine ⟨?_, cli2_general_eq clog z, transform_three_maps clog z⟩
  simp only [cli2, if_neg h0, if_neg hnz]

/-- At `z = 2 + i`, which the inversion map takes to `1/z`, the hypotheses of
C18 hold: `cli2` takes the general path and the tuple has `jsgn = -1`,
`ipi12 = -2`. -/
theorem cli2_transform_maps_witness :
    cli2 Real.log (fun w => w) (⟨2, 1⟩ : DComplex ℝ)
        = cli2.general (fun w => w) ⟨2, 1⟩ ∧
    (cli2.transform (fun w => w) (⟨2, 1⟩ : DComplex ℝ)).2.2 = (-1, -2) := by
  have h := cli2_transform_maps Real.log (fun w => w) (⟨2, 1⟩ : DComplex ℝ)
    (by norm_num) (by norm_num [DBL_EPSILON])
  refine ⟨h.1, ?_⟩
  rcases h.2.2 with h | h | h
  · exact absurd h.1.1 (by norm_num)
  · exact absurd h.2.1.2 (by norm_num)
  · rw [h.2.2.1]

/-! ## The nested blocks of `Cl3(long double)` -/

theorem Cl3_high_p_eq_sum (z : α) :
    Cl3_long_double.high.p z
      = ∑ k in Finset.range 23, Cl3_long_double.high.P.getD k 0 * z ^ k := by
  simp only [Cl3_long_double.high.p, Finset.sum_range_succ, Finset.sum_range_zero]
  ring

theorem Cl3_high_q_eq_sum (z : α) :
    Cl3_long_double.high.q z
      = ∑ k in Finset.range 23, Cl3_long_double.high.Q.getD k 0 * z ^ k := by
  simp only [Cl3_long_double.high.q, Finset.sum_range_succ, Finset.sum_range_zero]
  ring

theorem Cl3_low_p_eq_sum (z : α) :
    Cl3_long_double.low.p z
      = ∑ k in Finset.range 9, Cl3_long_double.low.P.getD k 0 * z ^ k := by
  simp only [Cl3_long_double.low.p, Finset.sum_range_succ, Finset.sum_range_zero]
  ring

theorem Cl3_low_q_eq_sum (z : α) :
    Cl3_long_double.low.q z
      = ∑ k in Finset.range 9, Cl3_long_double.low.Q.getD k 0 * z ^ k := by
  simp only [Cl3_long_double.low.q, Finset.sum_range_succ, Finset.sum_range_zero]
  ring

/-- C20: in `Cl3(long double)` the nested blocks in `z`, `z^2`, `z^4`, `z^8`,
`z^16` of the `x >= PIH` branch are the plain polynomials
`sum_{k=0..22} P[k]*z^k` and `sum_{k=0..22} Q[k]*z^k` over the two 23-entry
tables, and the blocks of the `x < PIH` branch are `sum_{k=0..8} P[k]*z^k` and
`sum_{k=0..8} Q[k]*z^k` over the two 9-entry tables; the two branches are the
quotients of these sums at `z = (PI - x)^2 - PI28` and `z = x^2 - PI28`. -/
theorem Cl3_long_double_blocks (log : α → α) (PI PI28 zeta3 x z : α) :
    (Cl3_long_double.high.p z
        = ∑ k in Finset.range 23, Cl3_long_double.high.P.getD k 0 * z ^ k ∧
      Cl3_long_double.high.q z
        = ∑ k in Finset.range 23, Cl3_long_double.high.Q.getD k 0 * z ^ k ∧
      (Cl3_long_double.high.P : List α).length = 23 ∧
      (Cl3_long_double.high.Q : List α).length = 23 ∧
      Cl3_long_double.high PI PI28 x
        = (∑ k in Finset.range 23, Cl3_long_double.high.P.getD k 0
            * ((PI - x) * (PI - x) - PI28) ^ k)
          / (∑ k in Finset.range 23, Cl3_long_double.high.Q.getD k 0
            * ((PI - x) * (PI - x) - PI28) ^ k)) ∧
    (Cl3_long_double.low.p z
        = ∑ k in Finset.range 9, Cl3_long_double.low.P.getD k 0 * z ^ k ∧
      Cl3_long_double.low.q z
        = ∑ k in Finset.range 9, Cl3_long_double.low.Q.getD k 0 * z ^ k ∧
      (Cl3_long_double.low.P : List α).length = 9 ∧
      (Cl3_long_double.low.Q : List α).length = 9 ∧
      Cl3_long_double.low log PI28 zeta3 x
        = zeta3 + x * x *
          ((∑ k in Finset.range 9, Cl3_long_double.low.P.getD k 0
              * (x * x - PI28) ^ k)
            / (∑ k in Finset.range 9, Cl3_long_double.low.Q.getD k 0
              * (x * x - PI28) ^ k)
            + log x / 2)) := by
  refine ⟨⟨Cl3_high_p_eq_sum z, Cl3_high_q_eq_sum z, rfl, rfl, ?_⟩,
    ⟨Cl3_low_p_eq_sum z, Cl3_low_q_eq_sum z, rfl, rfl, ?_⟩⟩
  · rw [Cl3_long_double_high_eq, Cl3_high_p_eq_sum, Cl3_high_q_eq_sum]
  · rw [Cl3_long_double_low_eq, Cl3_low_p_eq_sum, Cl3_low_q_eq_sum]

/-! ## The exact inversion identities of `li2` -/

/-- The inversion identity below minus one: for `x < -1` the arguments `x` and
`1/x` share the reduced variable `Y = -1/x` with opposite sign flags, and
`li2(x)` is exactly `-li2(1/x) - PI^2/6 - log(-x)^2/2`, whatever `log` is. -/
theorem li2_inversion_neg (log : α → α) (x : α) (h : x < -1) :
    li2 log x = -li2 log (1 / x) - li2.PI ^ 2 / 6 - 1 / 2 * log (-x) ^ 2 ∧
    (li2.classify log (-x)).1 = (li2.classify log (-(1 / x))).1 ∧
    (li2.classify log (-x)).2.1 = -(li2.classify log (-(1 / x))).2.1 := by
  have hx0 : x < 0 := by linarith
  have hinv0 : 1 / x < 0 := one_div_neg.mpr hx0
  have hinv1 : -1 < 1 / x := by
    have := one_div_lt_one_div_of_neg_of_lt (show (-1 : α) < 0 by norm_num) h
    have e : (1 : α) / -1 = -1 := by norm_num
    rw [e] at this
    exact this
  have e1 : (1 : α) / -x = -(1 / x) := div_neg 1
  have c1 := classify_sixth log (-x) (by linarith)
  have c2 := classify_fifth log (-(1 / x)) (by linarith) (by linarith)
  rw [e1] at c1
  refine ⟨?_, by rw [c1, c2], by rw [c1, c2]⟩
  rw [li2_of_classify log x _ _ _ (by linarith) (by linarith) c1,
    li2_of_classify log (1 / x) _ _ _ (by linarith) (by linarith) c2]
  simp only [li2.PI6, li2.PI2, li2.HF, lit_half]
  ring

/-- C24: in exact real arithmetic over the constants of the code, with the
natural logarithm, `li2(x) + li2(1/x) = PI^2/3 - ln(x)^2/2` exactly for every
real `x > 1` other than `2`, the arguments `x` and `1/x` having the same
reduced variable `Y` and opposite sign flags `S`; and
`li2(y) = -li2(1/y) - PI^2/6 - ln(-y)^2/2` exactly for every real `y < -1`. -/
theorem li2_inversion_exact (x y : ℝ) (hx : 1 < x) (hx2 : x ≠ 2) (hy : y < -1) :
    (li2 Real.log x + li2 Real.log (1 / x)
        = li2.PI ^ 2 / 3 - 1 / 2 * Real.log x ^ 2 ∧
      (li2.classify Real.log (-x)).1 = (li2.classify Real.log (-(1 / x))).1 ∧
      (li2.classify Real.log (-x)).2.1
        = -(li2.classify Real.log (-(1 / x))).2.1) ∧
    li2 Real.log y
      = -li2 Real.log (1 / y) - li2.PI ^ 2 / 6 - 1 / 2 * Real.log (-y) ^ 2 := by
  refine ⟨?_, (li2_inversion_neg Real.log y hy).1⟩
  rcases lt_or_gt_of_ne hx2 with h | h
  · have hlog : Real.log (1 / x) = -Real.log x := by
      rw [one_div, Real.log_inv]
    exact li2_inversion_lt_two Real.log x hx h hlog
  · exact li2_inversion_gt_two Real.log x h

/-- At `x = 3` and `y = -3` the hypotheses of C24 hold. -/
theorem li2_inversion_exact_witness :
    li2 Real.log 3 + li2 Real.log (1 / 3)
        = li2.PI ^ 2 / 3 - 1 / 2 * Real.log 3 ^ 2 ∧
    li2 Real.log (-3)
      = -li2 Real.log (1 / -3) - li2.PI ^ 2 / 6 - 1 / 2 * Real.log (-(-3)) ^ 2 :=
  ⟨(li2_inversion_exact 3 (-3) (by norm_num) (by norm_num) (by norm_num)).1.1,
   (li2_inversion_exact 3 (-3) (by norm_num) (by norm_num) (by norm_num)).2⟩

/-! ## The signs of `neg_eta` at the negative odd integers -/

/-- The signs of the 109 entries of `NEG_ETA_NEG_N`: strictly negative at the
even indices, strictly positive at the odd ones. -/
theorem NEG_ETA_NEG_N_signs :
    (NEG_ETA_NEG_N).map (fun v => Dbl.sign (Dbl.fin v))
      = (List.range 109).map (fun i => if i % 2 = 0 then -1 else 1) := by
  simp only [NEG_ETA_NEG_N, List.map_cons, List.map_nil, Dbl.sign]
  norm_num
  decide

/-- The sign of entry `i` of `NEG_ETA_NEG_N`. -/
theorem NEG_ETA_NEG_N_sign_at (i : Nat) (h : i < 109) :
    ((NEG_ETA_NEG_N).get? i).map (fun v => Dbl.sign (Dbl.fin v))
      = some (if i % 2 = 0 then -1 else 1) := by
  have e := congrArg (fun l => l.get? i) NEG_ETA_NEG_N_signs
  simp only [List.get?_eq_getElem?, List.getElem?_map] at e
  rw [List.get?_eq_getElem?, e, List.getElem?_range h]
  rfl

/-- C21: for every odd `int64_t` value `n < 0`, with `k = -(1+n)/2`,
`neg_eta(n)` is strictly negative (a negative table entry or `-infinity`) when
`k` is even and strictly positive (a positive table entry or `+infinity`) when
`k` is odd; the 109 table entries alternate in this way and the infinities
beyond the table continue the alternation. -/
theorem neg_eta_sign_alternates (n : Int) (hmin : INT64_MIN ≤ n) (hneg : n < 0)
    (hodd : Odd n) :
    (neg_eta n).map Dbl.sign
      = some (if Int.tdiv (-(1 + n)) 2 % 2 = 0 then -1 else 1) ∧
    (NEG_ETA_NEG_N).map (fun v => Dbl.sign (Dbl.fin v))
      = (List.range 109).map (fun i => if i % 2 = 0 then -1 else 1) := by
  refine ⟨?_, NEG_ETA_NEG_N_signs⟩
  have hodd' : n % 2 = 1 := Int.odd_iff.mp hodd
  have hidx := (neg_index_eq n hmin hneg hodd').2
  have hval := neg_eta_neg_odd n hmin hneg hodd'
  rw [hidx, hval]
  by_cases h : -217 ≤ n
  · rw [if_pos h]
    have hk0 : 0 ≤ (-(1 + n)) / 2 := by omega
    have hk1 : ((-(1 + n)) / 2).toNat < 109 := by omega
    have hs := NEG_ETA_NEG_N_sign_at _ hk1
    have hpar : (((-(1 + n)) / 2).toNat % 2 = 0) ↔ ((-(1 + n)) / 2 % 2 = 0) := by
      omega
    unfold readAt
    rw [if_neg (by omega), Option.map_map]
    have hcomp : (Dbl.sign ∘ Dbl.fin) = (fun v => Dbl.sign (Dbl.fin v)) := rfl
    rw [hcomp, hs]
    by_cases hp : (-(1 + n)) / 2 % 2 = 0
    · rw [if_pos hp, if_pos (hpar.mpr hp)]
    · rw [if_neg hp, if_neg (fun hc => hp (hpar.mp hc))]
  · rw [if_neg h]
    by_cases hp : (1 - n) / 2 % 2 = 0
    · rw [if_pos hp, if_neg (by omega)]
      rfl
    · rw [if_neg hp, if_pos (by omega)]
      rfl

/-- At `n = -219`, the first odd argument beyond the table, where `k = 109` is
odd, the hypotheses of C21 hold and the sign is `1`. -/
theorem neg_eta_sign_alternates_witness :
    (neg_eta (-219)).map Dbl.sign
      = some (if Int.tdiv (-(1 + (-219 : Int))) 2 % 2 = 0 then -1 else 1) :=
  (neg_eta_sign_alternates (-219) (by decide) (by decide) ⟨-110, by decide⟩).1

/-! ## `neg_eta` and 64-bit overflow -/

/-- The function `neg_eta_unbounded` on a negative odd integer. -/
theorem neg_eta_unbounded_neg_odd (n : Int) (hneg : n < 0) (hodd : n % 2 = 1) :
    neg_eta_unbounded n =
      if -217 ≤ n then readAt NEG_ETA_NEG_N ((-(1 + n)) / 2)
      else if (1 - n) / 2 % 2 = 0 then some Dbl.inf else some Dbl.negInf := by
  have h1 : ¬ Int.tmod n 2 = 0 := by
    rw [tmod_two]
    split_ifs <;> omega
  have h2 : Int.tdiv (-(1 + n)) 2 = (-(1 + n)) / 2 := by
    rw [tdiv_two, if_pos (by omega)]
  have h3 : Int.tdiv (1 - n) 2 = (1 - n) / 2 := by
    rw [tdiv_two, if_pos (by omega)]
  have h4 : Int.tmod ((1 - n) / 2) 2 = (1 - n) / 2 % 2 := by
    rw [tmod_two, if_pos (by omega)]
  unfold neg_eta_unbounded
  rw [if_pos hneg, if_neg h1, h2, h3, h4, NEG_ETA_NEG_N_length]
  by_cases h : -217 ≤ n
  · rw [if_pos h, if_pos]
    push_cast
    omega
  · rw [if_neg h, if_neg]
    push_cast
    omega

/-- C23: for every `int64_t` value `n`, `neg_eta` evaluated with
two's-complement wraparound and the conversions to `size_t` returns what the
same branches return over the unbounded integers.  For a negative odd `n` the
index `-(1+n)/2` is computed without overflow, and `1 - n` overflows exactly
at `n = -2^63 + 1`, where it wraps to `-2^63` and both evaluations return
`+infinity`. -/
theorem neg_eta_wraparound (n : Int) (hmin : INT64_MIN ≤ n) (hmax : n ≤ INT64_MAX) :
    neg_eta n = neg_eta_unbounded n ∧
    (n < 0 ∧ Odd n →
      add64 1 n = 1 + n ∧ neg64 (add64 1 n) = -(1 + n) ∧
      div64 (neg64 (add64 1 n)) 2 = Int.tdiv (-(1 + n)) 2 ∧
      (sub64 1 n ≠ 1 - n ↔ n = INT64_MIN + 1)) ∧
    sub64 1 (INT64_MIN + 1) = INT64_MIN ∧
    neg_eta (INT64_MIN + 1) = some Dbl.inf ∧
    neg_eta_unbounded (INT64_MIN + 1) = some Dbl.inf := by
  have hmin' := hmin
  have hmax' := hmax
  rw [INT64_MIN_lit] at hmin'
  rw [INT64_MAX_lit] at hmax'
  refine ⟨?_, ?_, by decide, rfl, ?_⟩
  · by_cases hneg : n < 0
    · rcases Int.emod_two_eq n with he | ho
      · have e1 : is_even n = true := (is_even_iff n).mpr he
        have e2 : Int.tmod n 2 = 0 := by
          rw [tmod_two]
          split_ifs <;> omega
        simp only [neg_eta, neg_eta_unbounded, if_pos hneg, e1, e2, if_true]
      · rw [neg_eta_neg_odd n hmin hneg ho, neg_eta_unbounded_neg_odd n hneg ho]
    · unfold neg_eta neg_eta_unbounded
      rw [if_neg hneg, if_neg hneg]
      by_cases hz : n = 0
      · rw [if_pos hz, if_pos hz]
      · rw [if_neg hz, if_neg hz, NEG_ETA_length, toSizeT_lit]
        have hs : sub64 n 1 = n - 1 := wrap64_eq _ (by omega) (by omega)
        rw [hs]
        by_cases h : n ≤ 54
        · rw [if_pos (by omega), if_pos (by push_cast; exact h)]
        · rw [if_neg (by omega), if_neg (by push_cast; exact h)]
  · rintro ⟨hneg, hodd⟩
    have hodd' : n % 2 = 1 := Int.odd_iff.mp hodd
    have e1 : add64 1 n = 1 + n := wrap64_eq _ (by omega) (by omega)
    have e2 : neg64 (1 + n) = -(1 + n) := wrap64_eq _ (by omega) (by omega)
    refine ⟨e1, by rw [e1, e2], (neg_index_eq n hmin hneg hodd').1, ?_⟩
    rw [INT64_MIN_lit]
    unfold sub64
    rw [wrap64_lit]
    omega
  · rw [neg_eta_unbounded_neg_odd _ (by decide) (by decide)]
    decide

/-- At `n = -2^63 + 1`, where `1 - n` overflows, the hypotheses of C23 hold and
the two evaluations agree. -/
theorem neg_eta_wraparound_witness :
    neg_eta (INT64_MIN + 1) = neg_eta_unbounded (INT64_MIN + 1) :=
  (neg_eta_wraparound (INT64_MIN + 1) (by decide) (by decide)).1

/-! ## The literal types of the tables of `Cl2(long double)` -/

/-- C22 fails on the code: the four tables of `Cl2(long double)` are the
listed literals, all of them `long double` literals except the last entry
`P[12]` of the `x >= PIH` branch, `5.600638109466570497480415519182233229048e-18`,
which has no suffix and is a `double` literal; it is the entry that `horner`
reads first in that branch. -/
theorem Cl2_long_double_literal_types :
    ((Cl2_long_double.low.P_literals : List (α × LiteralType)).map Prod.fst
        = Cl2_long_double.low.P ∧
      (Cl2_long_double.low.Q_literals : List (α × LiteralType)).map Prod.fst
        = Cl2_long_double.low.Q ∧
      (Cl2_long_double.high.P_literals : List (α × LiteralType)).map Prod.fst
        = Cl2_long_double.high.P ∧
      (Cl2_long_double.high.Q_literals : List (α × LiteralType)).map Prod.fst
        = Cl2_long_double.high.Q) ∧
    ((Cl2_long_double.low.P_literals : List (α × LiteralType)).map Prod.snd
        = List.replicate 9 LiteralType.long_double ∧
      (Cl2_long_double.low.Q_literals : List (α × LiteralType)).map Prod.snd
        = List.replicate 9 LiteralType.long_double ∧
      (Cl2_long_double.high.Q_literals : List (α × LiteralType)).map Prod.snd
        = List.replicate 13 LiteralType.long_double) ∧
    (Cl2_long_double.high.P_literals : List (α × LiteralType)).map Prod.snd
      = List.replicate 12 LiteralType.long_double ++ [LiteralType.double] ∧
    (Cl2_long_double.high.P_literals : List (α × LiteralType)).get? 12
      = some (5.600638109466570497480415519182233229048e-18, LiteralType.double) ∧
    (Cl2_long_double.high.P : List α).getD
        ((Cl2_long_double.high.P : List α).length - 1) 0
      = 5.600638109466570497480415519182233229048e-18 :=
  ⟨⟨rfl, rfl, rfl, rfl⟩, ⟨rfl, rfl, rfl⟩, rfl, rfl, rfl⟩

/-! ## The accuracy of `li2` at zero -/

/-- The Chebyshev sum of `li2` at `Y = 0`, `S = 1`, `A = 0` in double
arithmetic is `2^-54`. -/
theorem li2_ieee_series_zero :
    li2_ieee.series roundDouble 0 1 0 = 1 / 2 ^ 54 := by decide!

/-- In double arithmetic `li2(0)` is `2^-54`, whatever `log` is: the branch
`0 <= T <= 1` calls no logarithm. -/
theorem li2_ieee_zero (log : ℚ → ℚ) :
    li2_ieee roundDouble log 0 = 1 / 2 ^ 54 := by
  have h : li2_ieee roundDouble log 0 = li2_ieee.series roundDouble 0 1 0 := by
    simp only [li2_ieee, li2_ieee.classify]
    norm_num
  rw [h, li2_ieee_series_zero]

/-- In double arithmetic `li2(2^-67)` is `-2^-54` when `log(1) = 0`: the sum
`1 + T` rounds to `1`, the Chebyshev sum is the one at zero, and the sign `S`
of the branch `-0.5 < T < 0` is `-1`; the dilogarithm at `2^-67` is at least
`2^-67`, so the returned value has the wrong sign. -/
theorem li2_ieee_tiny (log : ℚ → ℚ) (h1 : log 1 = 0) :
    li2_ieee roundDouble log (1 / 2 ^ 67) = -(1 / 2 ^ 54) ∧
    (1 / 2 ^ 67 : ℝ)
      ≤ tsum (fun k : Nat => (1 / 2 ^ 67 : ℝ) ^ (k + 1) / ((k : ℝ) + 1) ^ 2) := by
  have e1 : roundDouble (147573952589676412927 / 147573952589676412928) = 1 := by
    decide!
  have e2 : roundDouble (1 / 147573952589676412928) = 1 / 147573952589676412928 := by
    decide!
  have e3 : li2_ieee.series roundDouble (1 / 147573952589676412928) (-1) 0
      = -(1 / 2 ^ 54) := by decide!
  have e4 : roundDouble 0 = 0 := by decide!
  have h : li2_ieee roundDouble log (1 / 2 ^ 67)
      = li2_ieee.series roundDouble (1 / 147573952589676412928) (-1) 0 := by
    simp only [li2_ieee, li2_ieee.classify]
    norm_num [e1, e2, e4, h1]
  refine ⟨by rw [h, e3], ?_⟩
  have hx0 : (0 : ℝ) ≤ 1 / 2 ^ 67 := by positivity
  have hx1 : (1 / 2 ^ 67 : ℝ) < 1 := by
    rw [div_lt_one (by positivity)]
    norm_num
  have hs : Summable (fun k : Nat => (1 / 2 ^ 67 : ℝ) ^ (k + 1) / ((k : ℝ) + 1) ^ 2) := by
    refine Summable.of_nonneg_of_le (fun k => by positivity) (fun k => ?_)
      ((summable_geometric_of_lt_one hx0 hx1).mul_left (1 / 2 ^ 67 : ℝ))
    have hk : (1 : ℝ) ≤ ((k : ℝ) + 1) ^ 2 := by
      have : (0 : ℝ) ≤ (k : ℝ) := Nat.cast_nonneg k
      nlinarith
    rw [pow_succ, mul_comm]
    exact div_le_self (by positivity) hk
  have h0 := le_tsum hs 0 (fun j _ => by positivity)
  simpa using h0

/-- C15 fails on the code at `x = 0`: the dilogarithm `sum_{k>=1} x^k/k^2` is
`0` there, while `li2(0)`, computed without any logarithm as the Chebyshev sum
at `H = -1`, is `2^-54` in double arithmetic (round to nearest, ties to even)
and `1e-17` in exact arithmetic over the constants of the code.  The double
`2^-54` has the unit in the last place `2^-106`, so the error of the returned
double is `2^52` such units; the exact value `1e-17` lies in `[2^-57, 2^-56)`,
where the unit in the last place is `2^-109`, and is more than `10^15` such
units away from `0`. -/
theorem li2_zero_error (log : ℚ → ℚ) :
    li2_ieee roundDouble log 0 = 1 / 2 ^ 54 ∧
    tsum (fun k : Nat => (0 : ℝ) ^ (k + 1) / ((k : ℝ) + 1) ^ 2) = 0 ∧
    |((li2_ieee roundDouble log 0 : ℚ) : ℝ)
        - tsum (fun k : Nat => (0 : ℝ) ^ (k + 1) / ((k : ℝ) + 1) ^ 2)|
      = 2 ^ 52 * (2 : ℝ) ^ (-106 : Int) ∧
    li2 Real.log 0 = 1e-17 ∧
    ((2 : ℝ) ^ (-57 : Int) ≤ li2 Real.log 0 ∧
      li2 Real.log 0 < (2 : ℝ) ^ (-56 : Int)) ∧
    10 ^ 15 * (2 : ℝ) ^ (-109 : Int)
      < |li2 Real.log 0
          - tsum (fun k : Nat => (0 : ℝ) ^ (k + 1) / ((k : ℝ) + 1) ^ 2)| := by
  have hs : tsum (fun k : Nat => (0 : ℝ) ^ (k + 1) / ((k : ℝ) + 1) ^ 2) = 0 := by
    have hz : (fun k : Nat => (0 : ℝ) ^ (k + 1) / ((k : ℝ) + 1) ^ 2)
        = fun _ => 0 := by
      funext k
      simp
    rw [hz, tsum_zero]
  rw [hs, li2_zero, li2_ieee_zero]
  refine ⟨rfl, rfl, ?_, rfl, ⟨?_, ?_⟩, ?_⟩
  · rw [sub_zero, zpow_neg]
    push_cast
    rw [abs_of_pos (by positivity)]
    norm_num
  · rw [zpow_neg]
    norm_num
  · rw [zpow_neg]
    norm_num
  · rw [sub_zero, abs_of_pos (by norm_num), zpow_neg]
    norm_num

/-! ## Floating-point numbers -/

theorem IsFloat_zero (p : Nat) (emin emax : Int) (h : emin ≤ emax) :
    IsFloat p emin emax 0 :=
  ⟨0, emin, by simp, le_refl _, h, by simp⟩

theorem IsFloat_neg (p : Nat) (emin emax : Int) (q : ℚ) (h : IsFloat p emin emax q) :
    IsFloat p emin emax (-q) := by
  obtain ⟨m, e, hm, h1, h2, rfl⟩ := h
  refine ⟨-m, e, by rwa [abs_neg], h1, h2, ?_⟩
  push_cast
  ring

theorem IsFloat_abs (p : Nat) (emin emax : Int) (q : ℚ) (h : IsFloat p emin emax q) :
    IsFloat p emin emax |q| := by
  rcases abs_choice q with hq | hq
  · rw [hq]
    exact h
  · rw [hq]
    exact IsFloat_neg p emin emax q h

/-- A number of the format of magnitude at least `2^t` is an integer times
`2^(t + 1 - p)`. -/
theorem float_grid (p : Nat) (emin emax : Int) (q : ℚ) (t : Int)
    (h : IsFloat p emin emax q) (h2 : (2 : ℚ) ^ t ≤ |q|) :
    ∃ j : Int, q = (j : ℚ) * (2 : ℚ) ^ (t + 1 - (p : Int)) := by
  obtain ⟨m, e, hm, _, _, rfl⟩ := h
  by_cases he : t + 1 - (p : Int) ≤ e
  · refine ⟨m * 2 ^ (e - (t + 1 - (p : Int))).toNat, ?_⟩
    have hk : e = ((e - (t + 1 - (p : Int))).toNat : Int) + (t + 1 - (p : Int)) := by
      omega
    have hp : (2 : ℚ) ^ e
        = 2 ^ (e - (t + 1 - (p : Int))).toNat * 2 ^ (t + 1 - (p : Int)) := by
      conv_lhs => rw [hk]
      rw [zpow_add₀ (by norm_num), zpow_natCast]
    rw [hp]
    push_cast
    ring
  · exfalso
    have he' : e ≤ t - (p : Int) := by omega
    have h3 : (2 : ℚ) ^ e ≤ 2 ^ (t - (p : Int)) :=
      zpow_le_zpow_right₀ (by norm_num) he'
    have h4 : (0 : ℚ) < 2 ^ e := by positivity
    have hm' : |(m : ℚ)| < 2 ^ p := by
      have : ((|m| : Int) : ℚ) < ((2 ^ p : Int) : ℚ) := by exact_mod_cast hm
      rw [Int.cast_abs] at this
      push_cast at this
      exact this
    have h5 : |(m : ℚ) * 2 ^ e| < 2 ^ t := by
      rw [abs_mul, abs_of_pos h4]
      have h6 : |(m : ℚ)| * 2 ^ e ≤ |(m : ℚ)| * 2 ^ (t - (p : Int)) :=
        mul_le_mul_of_nonneg_left h3 (abs_nonneg _)
      have h7 : |(m : ℚ)| * 2 ^ (t - (p : Int)) < 2 ^ p * 2 ^ (t - (p : Int)) :=
        mul_lt_mul_of_pos_right hm' (by positivity)
      have h8 : (2 : ℚ) ^ p * 2 ^ (t - (p : Int)) = 2 ^ t := by
        rw [← zpow_natCast, ← zpow_add₀ (by norm_num)]
        congr 1
        ring
      linarith
    linarith

/-! ## The rounding to nearest is monotone and leaves the format unchanged -/

theorem log2Fuel_spec (fuel n : Nat) (h1 : 1 ≤ n) (hf : n ≤ fuel) :
    2 ^ log2Fuel fuel n ≤ n ∧ n < 2 ^ (log2Fuel fuel n + 1) := by
  induction fuel generalizing n with
  | zero => omega
  | succ k ih =>
    unfold log2Fuel
    split_ifs with h2
    · have hd1 : 1 ≤ n / 2 := by omega
      have hd2 : n / 2 ≤ k := by omega
      obtain ⟨ha, hb⟩ := ih (n / 2) hd1 hd2
      rw [pow_succ] at hb ⊢
      rw [pow_succ]
      constructor <;> omega
    · have : n = 1 := by omega
      subst this
      simp

theorem ilog2_spec (a : ℚ) (ha : 0 < a) :
    (2 : ℚ) ^ ilog2 a ≤ a ∧ a < (2 : ℚ) ^ (ilog2 a + 1) := by
  have hn : 0 < a.num := Rat.num_pos.mpr ha
  have hd : 0 < a.den := a.den_pos
  have hn1 : 1 ≤ a.num.natAbs := by omega
  obtain ⟨n1, n2⟩ := log2Fuel_spec a.num.natAbs a.num.natAbs hn1 (le_refl _)
  obtain ⟨d1, d2⟩ := log2Fuel_spec a.den a.den hd (le_refl _)
  have hq : a = (a.num.natAbs : ℚ) / (a.den : ℚ) := by
    have hc : ((a.num.natAbs : Nat) : ℚ) = (a.num : ℚ) := by
      rw [← Int.cast_natCast, Int.natAbs_of_nonneg hn.le]
    rw [hc]
    exact (Rat.num_div_den a).symm
  have hdq : (0 : ℚ) < (a.den : ℚ) := by exact_mod_cast hd
  have N1 : (2 : ℚ) ^ (log2Fuel a.num.natAbs a.num.natAbs : Int) ≤ (a.num.natAbs : ℚ) := by
    rw [zpow_natCast]
    exact_mod_cast n1
  have N2 : (a.num.natAbs : ℚ) < (2 : ℚ) ^ ((log2Fuel a.num.natAbs a.num.natAbs : Int) + 1) := by
    rw [zpow_add_one₀ (by norm_num), zpow_natCast, ← pow_succ]
    exact_mod_cast n2
  have D1 : (2 : ℚ) ^ (log2Fuel a.den a.den : Int) ≤ (a.den : ℚ) := by
    rw [zpow_natCast]
    exact_mod_cast d1
  have D2 : (a.den : ℚ) < (2 : ℚ) ^ ((log2Fuel a.den a.den : Int) + 1) := by
    rw [zpow_add_one₀ (by norm_num), zpow_natCast, ← pow_succ]
    exact_mod_cast d2
  have hlow : (2 : ℚ) ^ ((log2Fuel a.num.natAbs a.num.natAbs : Int)
      - (log2Fuel a.den a.den : Int) - 1) < a := by
    have e : (2 : ℚ) ^ ((log2Fuel a.num.natAbs a.num.natAbs : Int)
        - (log2Fuel a.den a.den : Int) - 1)
        = 2 ^ (log2Fuel a.num.natAbs a.num.natAbs : Int)
          / 2 ^ ((log2Fuel a.den a.den : Int) + 1) := by
      rw [← zpow_sub₀ (by norm_num)]
      congr 1
      ring
    rw [e]
    conv_rhs => rw [hq]
    rw [div_lt_div_iff₀ (by positivity) hdq]
    have p1 : (0 : ℚ) < 2 ^ (log2Fuel a.num.natAbs a.num.natAbs : Int) := by positivity
    nlinarith
  have hupp : a < (2 : ℚ) ^ ((log2Fuel a.num.natAbs a.num.natAbs : Int)
      - (log2Fuel a.den a.den : Int) + 1) := by
    have e : (2 : ℚ) ^ ((log2Fuel a.num.natAbs a.num.natAbs : Int)
        - (log2Fuel a.den a.den : Int) + 1)
        = 2 ^ ((log2Fuel a.num.natAbs a.num.natAbs : Int) + 1)
          / 2 ^ (log2Fuel a.den a.den : Int) := by
      rw [← zpow_sub₀ (by norm_num)]
      congr 1
      ring
    rw [e]
    conv_lhs => rw [hq]
    rw [div_lt_div_iff₀ hdq (by positivity)]
    have p1 : (0 : ℚ) < 2 ^ (log2Fuel a.den a.den : Int) := by positivity
    have p2 : (0 : ℚ) ≤ (a.num.natAbs : ℚ) := by positivity
    nlinarith
  unfold ilog2
  simp only
  split_ifs with h
  · exact ⟨h, hupp⟩
  · refine ⟨hlow.le, ?_⟩
    rw [sub_add_cancel]
    exact lt_of_not_ge h

theorem ilog2_mono (a b : ℚ) (ha : 0 < a) (hab : a ≤ b) : ilog2 a ≤ ilog2 b := by
  have h1 := (ilog2_spec a ha).1
  have h2 := (ilog2_spec b (lt_of_lt_of_le ha hab)).2
  have h3 : (2 : ℚ) ^ ilog2 a < (2 : ℚ) ^ (ilog2 b + 1) := by linarith
  have h4 := (zpow_lt_zpow_iff_right₀ (by norm_num : (1 : ℚ) < 2)).mp h3
  omega

theorem roundHalfEven_int (n : Int) : roundHalfEven (n : ℚ) = n := by
  unfold roundHalfEven
  simp

theorem roundHalfEven_bounds (q : ℚ) :
    ⌊q⌋ ≤ roundHalfEven q ∧ roundHalfEven q ≤ ⌊q⌋ + 1 := by
  unfold roundHalfEven
  simp only
  split_ifs <;> constructor <;> omega

theorem roundHalfEven_mono (s t : ℚ) (h : s ≤ t) : roundHalfEven s ≤ roundHalfEven t := by
  have hf : ⌊s⌋ ≤ ⌊t⌋ := Int.floor_mono h
  rcases lt_or_eq_of_le hf with hlt | heq
  · have h1 := (roundHalfEven_bounds s).2
    have h2 := (roundHalfEven_bounds t).1
    omega
  · have hr : s - (⌊s⌋ : ℚ) ≤ t - (⌊s⌋ : ℚ) := by linarith
    unfold roundHalfEven
    simp only
    rw [← heq]
    split_ifs <;> first | omega | (exfalso; linarith)

theorem roundFloat_zero (p : Nat) (emin : Int) : roundFloat p emin 0 = 0 := by
  have h := roundHalfEven_int 0
  rw [Int.cast_zero] at h
  simp only [roundFloat, zero_div, h, Int.cast_zero, zero_mul]

/-- The rounding of a number below a multiple of a power of two that is at
least the spacing stays below it. -/
theorem roundFloat_le_grid (p : Nat) (emin : Int) (q : ℚ) (n k : Int)
    (hk : ulpExp p emin q ≤ k) (h : q ≤ (n : ℚ) * 2 ^ k) :
    roundFloat p emin q ≤ (n : ℚ) * 2 ^ k := by
  have hE : (0 : ℚ) < 2 ^ ulpExp p emin q := by positivity
  have hk2 : (2 : ℚ) ^ k = 2 ^ (k - ulpExp p emin q).toNat * 2 ^ ulpExp p emin q := by
    have : k = ((k - ulpExp p emin q).toNat : Int) + ulpExp p emin q := by omega
    conv_lhs => rw [this]
    rw [zpow_add₀ (by norm_num), zpow_natCast]
  have hN : (n : ℚ) * 2 ^ k
      = ((n * 2 ^ (k - ulpExp p emin q).toNat : Int) : ℚ) * 2 ^ ulpExp p emin q := by
    rw [hk2]
    push_cast
    ring
  rw [hN] at h ⊢
  have h1 : q / 2 ^ ulpExp p emin q ≤ ((n * 2 ^ (k - ulpExp p emin q).toNat : Int) : ℚ) :=
    (div_le_iff₀ hE).mpr h
  have h2 := roundHalfEven_mono _ _ h1
  rw [roundHalfEven_int] at h2
  have h3 : ((roundHalfEven (q / 2 ^ ulpExp p emin q) : Int) : ℚ)
      ≤ ((n * 2 ^ (k - ulpExp p emin q).toNat : Int) : ℚ) := by exact_mod_cast h2
  exact mul_le_mul_of_nonneg_right h3 hE.le

/-- The rounding of a number above a multiple of a power of two that is at
least the spacing stays above it. -/
theorem roundFloat_ge_grid (p : Nat) (emin : Int) (q : ℚ) (n k : Int)
    (hk : ulpExp p emin q ≤ k) (h : (n : ℚ) * 2 ^ k ≤ q) :
    (n : ℚ) * 2 ^ k ≤ roundFloat p emin q := by
  have hE : (0 : ℚ) < 2 ^ ulpExp p emin q := by positivity
  have hk2 : (2 : ℚ) ^ k = 2 ^ (k - ulpExp p emin q).toNat * 2 ^ ulpExp p emin q := by
    have : k = ((k - ulpExp p emin q).toNat : Int) + ulpExp p emin q := by omega
    conv_lhs => rw [this]
    rw [zpow_add₀ (by norm_num), zpow_natCast]
  have hN : (n : ℚ) * 2 ^ k
      = ((n * 2 ^ (k - ulpExp p emin q).toNat : Int) : ℚ) * 2 ^ ulpExp p emin q := by
    rw [hk2]
    push_cast
    ring
  rw [hN] at h ⊢
  have h1 : ((n * 2 ^ (k - ulpExp p emin q).toNat : Int) : ℚ) ≤ q / 2 ^ ulpExp p emin q :=
    (le_div_iff₀ hE).mpr h
  have h2 := roundHalfEven_mono _ _ h1
  rw [roundHalfEven_int] at h2
  have h3 : ((n * 2 ^ (k - ulpExp p emin q).toNat : Int) : ℚ)
      ≤ ((roundHalfEven (q / 2 ^ ulpExp p emin q) : Int) : ℚ) := by exact_mod_cast h2
  exact mul_le_mul_of_nonneg_right h3 hE.le

/-- The rounding to nearest leaves the numbers of the format unchanged. -/
theorem roundFloat_fix (p : Nat) (emin emax : Int) (q : ℚ)
    (h : IsFloat p emin emax q) : roundFloat p emin q = q := by
  obtain ⟨m, e, hm, h1, _, rfl⟩ := h
  by_cases hm0 : m = 0
  · subst hm0
    simp only [Int.cast_zero, zero_mul]
    exact roundFloat_zero p emin
  · have hle : ulpExp p emin ((m : ℚ) * 2 ^ e) ≤ e := by
      have hp2 : |(m : ℚ)| < 2 ^ p := by
        have : ((|m| : Int) : ℚ) < ((2 ^ p : Int) : ℚ) := by exact_mod_cast hm
        rw [Int.cast_abs] at this
        push_cast at this
        exact this
      have hq : 0 < |(m : ℚ) * 2 ^ e| :=
        abs_pos.mpr (mul_ne_zero (Int.cast_ne_zero.mpr hm0) (by positivity))
      have hs := (ilog2_spec _ hq).1
      have hlt : |(m : ℚ) * 2 ^ e| < 2 ^ ((p : Int) + e) := by
        rw [abs_mul, abs_of_pos (by positivity : (0 : ℚ) < 2 ^ e),
          zpow_add₀ (by norm_num), zpow_natCast]
        exact mul_lt_mul_of_pos_right hp2 (by positivity)
      have h3 : (2 : ℚ) ^ ilog2 |(m : ℚ) * 2 ^ e| < 2 ^ ((p : Int) + e) := by linarith
      have h4 := (zpow_lt_zpow_iff_right₀ (by norm_num : (1 : ℚ) < 2)).mp h3
      unfold ulpExp
      exact max_le (by omega) h1
    have h1 := roundFloat_le_grid p emin _ m e hle (le_refl _)
    have h2 := roundFloat_ge_grid p emin _ m e hle (le_refl _)
    exact le_antisymm h1 h2

theorem roundFloat_eq (p : Nat) (emin : Int) (q : ℚ) :
    roundFloat p emin q
      = (roundHalfEven (q / 2 ^ ulpExp p emin q) : ℚ) * 2 ^ ulpExp p emin q := rfl

theorem ulpExp_mono (p : Nat) (emin : Int) (a b : ℚ) (ha : 0 < |a|) (hab : |a| ≤ |b|) :
    ulpExp p emin a ≤ ulpExp p emin b := by
  unfold ulpExp
  have := ilog2_mono _ _ ha hab
  exact max_le_max (by omega) (le_refl _)

/-- Where the spacing grows from `a` to `b`, the power of two at the foot of
the binade of `b` separates the magnitudes. -/
theorem ulpExp_lt_split (p : Nat) (emin : Int) (a b : ℚ) (hp : 1 ≤ p) (ha : 0 < |a|)
    (hb : 0 < |b|) (h : ulpExp p emin a < ulpExp p emin b) :
    ulpExp p emin a ≤ ilog2 |b| ∧ ulpExp p emin b ≤ ilog2 |b| ∧
    |a| < 2 ^ ilog2 |b| ∧ (2 : ℚ) ^ ilog2 |b| ≤ |b| := by
  have hsb := ilog2_spec _ hb
  have hsa := ilog2_spec _ ha
  unfold ulpExp at h ⊢
  have hE2 : max (ilog2 |b| - ((p : Int) - 1)) emin = ilog2 |b| - ((p : Int) - 1) := by
    rcases max_choice (ilog2 |b| - ((p : Int) - 1)) emin with hc | hc
    · exact hc
    · exfalso
      rw [hc] at h
      have := le_max_right (ilog2 |a| - ((p : Int) - 1)) emin
      omega
  rw [hE2] at h ⊢
  have h1 := le_max_left (ilog2 |a| - ((p : Int) - 1)) emin
  have hlt : ilog2 |a| + 1 ≤ ilog2 |b| := by omega
  refine ⟨by omega, by omega, ?_, hsb.1⟩
  have : (2 : ℚ) ^ (ilog2 |a| + 1) ≤ 2 ^ ilog2 |b| :=
    zpow_le_zpow_right₀ (by norm_num) hlt
  linarith [hsa.2]

/-- The rounding to nearest is monotone. -/
theorem roundFloat_mono (p : Nat) (emin : Int) (hp : 1 ≤ p) :
    Monotone (roundFloat p emin) := by
  intro a b hab
  rcases le_or_lt a 0 with ha | ha
  · rcases le_or_lt 0 b with hb | hb
    · have h1 := roundFloat_le_grid p emin a 0 _ (le_refl _) (by simpa using ha)
      have h2 := roundFloat_ge_grid p emin b 0 _ (le_refl _) (by simpa using hb)
      simp only [Int.cast_zero, zero_mul] at h1 h2
      linarith
    · have ha' : a < 0 := lt_of_le_of_lt hab hb
      have hpa : 0 < |a| := abs_pos.mpr ha'.ne
      have hpb : 0 < |b| := abs_pos.mpr hb.ne
      have hab' : |b| ≤ |a| := by
        rw [abs_of_neg ha', abs_of_neg hb]
        linarith
      rcases lt_or_eq_of_le (ulpExp_mono p emin b a hpb hab') with hlt | heq
      · obtain ⟨k1, k2, k3, k4⟩ := ulpExp_lt_split p emin b a hp hpb hpa hlt
        have ea : |a| = -a := abs_of_neg ha'
        have eb : |b| = -b := abs_of_neg hb
        have h1 := roundFloat_le_grid p emin a (-1) _ k2
          (by push_cast; linarith)
        have h2 := roundFloat_ge_grid p emin b (-1) _ k1
          (by push_cast; linarith)
        push_cast at h1 h2
        linarith
      · rw [roundFloat_eq, roundFloat_eq, ← heq]
        have hE : (0 : ℚ) < 2 ^ ulpExp p emin b := by positivity
        have h1 : a / 2 ^ ulpExp p emin b ≤ b / 2 ^ ulpExp p emin b :=
          div_le_div_of_nonneg_right hab hE.le
        have h2 := roundHalfEven_mono _ _ h1
        have h3 : ((roundHalfEven (a / 2 ^ ulpExp p emin b) : Int) : ℚ)
            ≤ ((roundHalfEven (b / 2 ^ ulpExp p emin b) : Int) : ℚ) := by exact_mod_cast h2
        exact mul_le_mul_of_nonneg_right h3 hE.le
  · have hb : 0 < b := lt_of_lt_of_le ha hab
    have hpa : 0 < |a| := abs_pos.mpr ha.ne'
    have hpb : 0 < |b| := abs_pos.mpr hb.ne'
    have hab' : |a| ≤ |b| := by
      rw [abs_of_pos ha, abs_of_pos hb]
      exact hab
    rcases lt_or_eq_of_le (ulpExp_mono p emin a b hpa hab') with hlt | heq
    · obtain ⟨k1, k2, k3, k4⟩ := ulpExp_lt_split p emin a b hp hpa hpb hlt
      have ea : |a| = a := abs_of_pos ha
      have eb : |b| = b := abs_of_pos hb
      have h1 := roundFloat_le_grid p emin a 1 _ k1
        (by push_cast; linarith)
      have h2 := roundFloat_ge_grid p emin b 1 _ k2
        (by push_cast; linarith)
      push_cast at h1 h2
      linarith
    · rw [roundFloat_eq, roundFloat_eq, heq]
      have hE : (0 : ℚ) < 2 ^ ulpExp p emin b := by positivity
      have h1 : a / 2 ^ ulpExp p emin b ≤ b / 2 ^ ulpExp p emin b :=
        div_le_div_of_nonneg_right hab hE.le
      have h2 := roundHalfEven_mono _ _ h1
      have h3 : ((roundHalfEven (a / 2 ^ ulpExp p emin b) : Int) : ℚ)
          ≤ ((roundHalfEven (b / 2 ^ ulpExp p emin b) : Int) : ℚ) := by exact_mod_cast h2
      exact mul_le_mul_of_nonneg_right h3 hE.le

theorem roundHalfEven_near (q : ℚ) : |(roundHalfEven q : ℚ) - q| ≤ 1 / 2 := by
  have h1 : (⌊q⌋ : ℚ) ≤ q := Int.floor_le q
  have h2 : q < (⌊q⌋ : ℚ) + 1 := Int.lt_floor_add_one q
  unfold roundHalfEven
  simp only
  rw [abs_le]
  split_ifs <;> push_cast <;> constructor <;> linarith

/-- The rounding to nearest moves a number by at most half the spacing. -/
theorem roundFloat_near (p : Nat) (emin : Int) (q : ℚ) :
    |roundFloat p emin q - q| ≤ 2 ^ ulpExp p emin q / 2 := by
  have hE : (0 : ℚ) < 2 ^ ulpExp p emin q := by positivity
  have h := roundHalfEven_near (q / 2 ^ ulpExp p emin q)
  have e : roundFloat p emin q - q
      = ((roundHalfEven (q / 2 ^ ulpExp p emin q) : ℚ) - q / 2 ^ ulpExp p emin q)
        * 2 ^ ulpExp p emin q := by
    rw [roundFloat_eq, sub_mul, div_mul_cancel₀ _ hE.ne']
  rw [e, abs_mul, abs_of_pos hE]
  have := mul_le_mul_of_nonneg_right h hE.le
  linarith

/-! ## The reduced angle of `Cl2` in floating-point arithmetic -/

/-- The remainder of `Cl2` in floating-point arithmetic, in closed form. -/
theorem Cl2_float_remainder_fst (PI : ℚ) (rnd : ℚ → ℚ) (θ : ℚ) (hP : 0 < 2 * PI)
    (h2 : rnd (2 * PI) = 2 * PI) :
    (Cl2_float.remainder PI rnd θ).1 = |θ| - (⌊|θ| / (2 * PI)⌋ : ℚ) * (2 * PI) := by
  rcases lt_or_le θ 0 with h | h
  · simp only [Cl2_float.remainder, if_pos h, h2]
    rw [fold_mod _ _ hP (by linarith), abs_of_neg h]
  · simp only [Cl2_float.remainder, if_neg (not_lt.mpr h), h2]
    rw [fold_mod _ _ hP h, abs_of_nonneg h]

/-- The reduced angle of `Cl2` lies in `[0, PI]` for every argument of the
format, in a format with `p` significant bits in which `PI` is `J` times the
spacing `2^(2-p)` and `p0 + p1` is within one spacing of `2*PI`, under a
rounding that is monotone and leaves the numbers of the format unchanged. -/
theorem Cl2_float_reduce_bounds (p : Nat) (emin emax : Int) (PI p1 : ℚ) (J : Int)
    (rnd : ℚ → ℚ) (θ : ℚ)
    (hp : 7 ≤ p) (he1 : emin ≤ 2 - (p : Int)) (he2 : 3 - (p : Int) ≤ emax)
    (hPI : PI = (J : ℚ) * (2 : ℚ) ^ (2 - (p : Int))) (hPI3 : 3 < PI) (hPI4 : PI < 4)
    (hlo : -(2 : ℚ) ^ (2 - (p : Int)) ≤ 201 / 32 + p1 - 2 * PI)
    (hhi : 201 / 32 + p1 - 2 * PI ≤ (2 : ℚ) ^ (2 - (p : Int)))
    (hmono : Monotone rnd) (hfix : ∀ q, IsFloat p emin emax q → rnd q = q)
    (hθ : IsFloat p emin emax θ) :
    0 ≤ (Cl2_float.reduce PI (201 / 32) p1 rnd θ).1 ∧
    (Cl2_float.reduce PI (201 / 32) p1 rnd θ).1 ≤ PI := by
  have hg0 : (0 : ℚ) < 2 ^ (2 - (p : Int)) := by positivity
  have hgp : (2 : ℚ) ^ p * 2 ^ (2 - (p : Int)) = 4 := by
    rw [← zpow_natCast, ← zpow_add₀ (by norm_num)]
    have : (p : Int) + (2 - (p : Int)) = 2 := by ring
    rw [this]
    norm_num
  have hJ0 : 0 < J := by
    have h1 : (0 : ℚ) < (J : ℚ) * 2 ^ (2 - (p : Int)) := by
      rw [← hPI]
      linarith
    have h2 : (0 : ℚ) < (J : ℚ) := (mul_pos_iff_of_pos_right hg0).mp h1
    exact_mod_cast h2
  have hJ2 : J < 2 ^ p := by
    have h1 : (J : ℚ) * 2 ^ (2 - (p : Int)) < 2 ^ p * 2 ^ (2 - (p : Int)) := by
      rw [← hPI, hgp]
      exact hPI4
    have h2 : (J : ℚ) < 2 ^ p := lt_of_mul_lt_mul_right h1 hg0.le
    exact_mod_cast h2
  have hPIf : IsFloat p emin emax PI :=
    ⟨J, 2 - (p : Int), by rwa [abs_of_pos hJ0], he1, by omega, hPI⟩
  have hPI2f : IsFloat p emin emax (2 * PI) := by
    refine ⟨J, 3 - (p : Int), by rwa [abs_of_pos hJ0], by omega, he2, ?_⟩
    have e3 : (2 : ℚ) ^ (3 - (p : Int)) = 2 * 2 ^ (2 - (p : Int)) := by
      have : 3 - (p : Int) = 1 + (2 - (p : Int)) := by ring
      rw [this, zpow_add₀ (by norm_num)]
      norm_num
    rw [e3, hPI]
    ring
  have h0f : IsFloat p emin emax 0 := IsFloat_zero p emin emax (by omega)
  have hP : (0 : ℚ) < 2 * PI := by linarith
  have hr := Cl2_float_remainder_fst PI rnd θ hP (hfix _ hPI2f)
  have hrange := fold_mod_range (2 * PI) |θ| hP
  rw [← hr] at hrange
  by_cases hgt : (Cl2_float.remainder PI rnd θ).1 > PI
  · have hgrid : ∃ j : Int,
        (Cl2_float.remainder PI rnd θ).1 = (j : ℚ) * 2 ^ (2 - (p : Int)) := by
      by_cases h2 : 2 ≤ |θ|
      · obtain ⟨j, hj⟩ := float_grid p emin emax |θ| 1 (IsFloat_abs p emin emax θ hθ)
          (by rw [abs_abs]; simpa using h2)
        have e2 : (1 : Int) + 1 - (p : Int) = 2 - (p : Int) := by ring
        rw [e2] at hj
        obtain ⟨n, hn⟩ : ∃ n : Int,
            (Cl2_float.remainder PI rnd θ).1 = |θ| - (n : ℚ) * (2 * PI) := ⟨_, hr⟩
        refine ⟨j - n * (2 * J), ?_⟩
        rw [hn, hj, hPI]
        push_cast
        ring
      · exfalso
        have hlt : |θ| < 2 := lt_of_not_ge h2
        have hf : ⌊|θ| / (2 * PI)⌋ = 0 := by
          rw [Int.floor_eq_zero_iff]
          refine ⟨div_nonneg (abs_nonneg _) hP.le, (div_lt_one hP).mpr ?_⟩
          linarith
        rw [hf] at hr
        rw [hr] at hgt
        simp only [Int.cast_zero, zero_mul, sub_zero] at hgt
        linarith
    obtain ⟨j, hj⟩ := hgrid
    have hjJ : J < j := by
      have h1 : (J : ℚ) * 2 ^ (2 - (p : Int)) < (j : ℚ) * 2 ^ (2 - (p : Int)) := by
        rw [← hPI, ← hj]
        exact hgt
      have h2 : (J : ℚ) < (j : ℚ) := lt_of_mul_lt_mul_right h1 hg0.le
      exact_mod_cast h2
    have hj2J : j < 2 * J := by
      have h1 : (j : ℚ) * 2 ^ (2 - (p : Int)) < (2 * (J : ℚ)) * 2 ^ (2 - (p : Int)) := by
        rw [← hj, mul_assoc, ← hPI]
        exact hrange.2
      have h2 : (j : ℚ) < 2 * (J : ℚ) := lt_of_mul_lt_mul_right h1 hg0.le
      exact_mod_cast h2
    have hlow : PI + 2 ^ (2 - (p : Int)) ≤ (Cl2_float.remainder PI rnd θ).1 := by
      have h1 : ((J + 1 : Int) : ℚ) ≤ (j : ℚ) := by exact_mod_cast (by omega : J + 1 ≤ j)
      have h2 := mul_le_mul_of_nonneg_right h1 hg0.le
      rw [hj, hPI]
      push_cast at h2
      linarith
    have hupp : (Cl2_float.remainder PI rnd θ).1 ≤ 2 * PI - 2 ^ (2 - (p : Int)) := by
      have h1 : (j : ℚ) ≤ ((2 * J - 1 : Int) : ℚ) := by
        exact_mod_cast (by omega : j ≤ 2 * J - 1)
      have h2 := mul_le_mul_of_nonneg_right h1 hg0.le
      rw [hj, hPI]
      push_cast at h2
      linarith
    have hK : (201 / 32 : ℚ)
        = ((201 * 2 ^ (p - 7) : Int) : ℚ) * 2 ^ (2 - (p : Int)) := by
      push_cast
      rw [mul_assoc, ← zpow_natCast, ← zpow_add₀ (by norm_num)]
      have : ((p - 7 : Nat) : Int) + (2 - (p : Int)) = -5 := by omega
      rw [this, zpow_neg]
      norm_num
    have hd : 201 / 32 - (Cl2_float.remainder PI rnd θ).1
        = ((201 * 2 ^ (p - 7) - j : Int) : ℚ) * 2 ^ (2 - (p : Int)) := by
      rw [Int.cast_sub, sub_mul, ← hK, ← hj]
    have hdd : IsFloat p emin emax (201 / 32 - (Cl2_float.remainder PI rnd θ).1) := by
      refine ⟨201 * 2 ^ (p - 7) - j, 2 - (p : Int), ?_, he1, by omega, hd⟩
      have h1 : |201 / 32 - (Cl2_float.remainder PI rnd θ).1| < 4 := by
        rw [abs_lt]
        constructor <;> linarith [hrange.2]
      rw [hd, abs_mul, abs_of_pos hg0, ← hgp] at h1
      have h2 : |((201 * 2 ^ (p - 7) - j : Int) : ℚ)| < 2 ^ p :=
        lt_of_mul_lt_mul_right h1 hg0.le
      rw [← Int.cast_abs] at h2
      exact_mod_cast h2
    have hred : (Cl2_float.reduce PI (201 / 32) p1 rnd θ).1
        = rnd (rnd (201 / 32 - (Cl2_float.remainder PI rnd θ).1) + p1) := by
      simp only [Cl2_float.reduce, if_pos hgt]
    have hs0 : 0 ≤ 201 / 32 - (Cl2_float.remainder PI rnd θ).1 + p1 := by linarith
    have hs1 : 201 / 32 - (Cl2_float.remainder PI rnd θ).1 + p1 ≤ PI := by linarith
    rw [hred, hfix _ hdd]
    constructor
    · have := hmono hs0
      rwa [hfix 0 h0f] at this
    · have := hmono hs1
      rwa [hfix _ hPIf] at this
  · have hred : (Cl2_float.reduce PI (201 / 32) p1 rnd θ).1
        = (Cl2_float.remainder PI rnd θ).1 := by
      simp only [Cl2_float.reduce, if_neg hgt]
    rw [hred]
    exact ⟨hrange.1, not_lt.mp hgt⟩


/-! ## The constants of `Cl2` in the three formats -/

theorem Cl2_ieee_PI_eq : Cl2_ieee.PI = 884279719003555 / 2 ^ 48 := by decide!

theorem Cl2_ieee_p0_eq : Cl2_ieee.p0 = 201 / 32 := by decide!

theorem Cl2_ieee_p1_eq : Cl2_ieee.p1 = 4462514530730549 / 2 ^ 61 := by decide!

theorem Cl2_long_double_ieee_PI_53 :
    Cl2_long_double_ieee.PI 53 (-1074) = 884279719003555 / 2 ^ 48 := by decide!

theorem Cl2_long_double_ieee_p0_53 :
    Cl2_long_double_ieee.p0 53 (-1074) = 201 / 32 := by decide!

theorem Cl2_long_double_ieee_p1_53 :
    Cl2_long_double_ieee.p1 53 (-1074) = 4462514530730549 / 2 ^ 61 := by decide!

theorem Cl2_long_double_ieee_PI_64 :
    Cl2_long_double_ieee.PI 64 (-16445) = 14488038916154245685 / 2 ^ 62 := by decide!

theorem Cl2_long_double_ieee_p0_64 :
    Cl2_long_double_ieee.p0 64 (-16445) = 201 / 32 := by decide!

theorem Cl2_long_double_ieee_p1_64 :
    Cl2_long_double_ieee.p1 64 (-16445) = 4569614879468081939 / 2 ^ 71 := by decide!

theorem Cl2_long_double_ieee_PI_113 :
    Cl2_long_double_ieee.PI 113 (-16494)
      = 1019505104126898525104217885171767 / 2 ^ 108 := by decide!

theorem Cl2_long_double_ieee_p0_113 :
    Cl2_long_double_ieee.p0 113 (-16494) = 201 / 32 := by decide!

theorem Cl2_long_double_ieee_p1_113 :
    Cl2_long_double_ieee.p1 113 (-16494)
      = 5144928967099781953429635882402253 / 2 ^ 121 := by decide!

theorem Cl2_ieee_reduce_eq (rnd : ℚ → ℚ) (θ : ℚ) :
    Cl2_ieee.reduce rnd θ
      = Cl2_float.reduce Cl2_ieee.PI Cl2_ieee.p0 Cl2_ieee.p1 rnd θ := rfl

theorem Cl2_long_double_ieee_reduce_eq (p : Nat) (emin : Int) (rnd : ℚ → ℚ) (θ : ℚ) :
    Cl2_long_double_ieee.reduce p emin rnd θ
      = Cl2_float.reduce (Cl2_long_double_ieee.PI p emin)
          (Cl2_long_double_ieee.p0 p emin) (Cl2_long_double_ieee.p1 p emin) rnd θ := rfl

/-- The reduced angle of `Cl2(double)` in double arithmetic lies in `[0, PI]`
for every double argument, under a rounding that is monotone and leaves the
doubles unchanged. -/
theorem Cl2_ieee_reduce_bounds (rnd : ℚ → ℚ) (hmono : Monotone rnd)
    (hfix : ∀ q, IsDouble q → rnd q = q) (θ : ℚ) (hθ : IsDouble θ) :
    0 ≤ (Cl2_ieee.reduce rnd θ).1 ∧ (Cl2_ieee.reduce rnd θ).1 ≤ Cl2_ieee.PI := by
  rw [Cl2_ieee_reduce_eq, Cl2_ieee_p0_eq]
  have hg : (2 : ℚ) ^ (2 - ((53 : Nat) : Int)) = 1 / 2 ^ 51 := by
    rw [show (2 : Int) - ((53 : Nat) : Int) = -51 by norm_num, zpow_neg]
    norm_num
  refine Cl2_float_reduce_bounds 53 (-1074) 971 Cl2_ieee.PI Cl2_ieee.p1
    7074237752028440 rnd θ (by norm_num) (by norm_num) (by norm_num) ?_ ?_ ?_ ?_ ?_
    hmono hfix hθ
  · rw [hg, Cl2_ieee_PI_eq]
    norm_num
  · rw [Cl2_ieee_PI_eq]
    norm_num
  · rw [Cl2_ieee_PI_eq]
    norm_num
  · rw [hg, Cl2_ieee_PI_eq, Cl2_ieee_p1_eq]
    norm_num
  · rw [hg, Cl2_ieee_PI_eq, Cl2_ieee_p1_eq]
    norm_num

/-- The reduced angle of `Cl2(long double)` lies in `[0, PI]` for every
argument of the format, when `long double` is IEEE binary64, the extended
format of the x87 or IEEE binary128, under a rounding that is monotone and
leaves the numbers of the format unchanged. -/
theorem Cl2_long_double_ieee_reduce_bounds (p : Nat) (emin emax : Int)
    (hfmt : (p, emin, emax) = (53, -1074, 971) ∨ (p, emin, emax) = (64, -16445, 16320)
      ∨ (p, emin, emax) = (113, -16494, 16271))
    (rnd : ℚ → ℚ) (hmono : Monotone rnd)
    (hfix : ∀ q, IsFloat p emin emax q → rnd q = q) (θ : ℚ)
    (hθ : IsFloat p emin emax θ) :
    0 ≤ (Cl2_long_double_ieee.reduce p emin rnd θ).1 ∧
    (Cl2_long_double_ieee.reduce p emin rnd θ).1 ≤ Cl2_long_double_ieee.PI p emin := by
  rw [Cl2_long_double_ieee_reduce_eq]
  rcases hfmt with h | h | h
  · simp only [Prod.mk.injEq] at h
    obtain ⟨rfl, rfl, rfl⟩ := h
    have hg : (2 : ℚ) ^ (2 - ((53 : Nat) : Int)) = 1 / 2 ^ 51 := by
      rw [show (2 : Int) - ((53 : Nat) : Int) = -51 by norm_num, zpow_neg]
      norm_num
    rw [Cl2_long_double_ieee_p0_53]
    refine Cl2_float_reduce_bounds 53 (-1074) 971 _ _
      7074237752028440 rnd θ (by norm_num) (by norm_num) (by norm_num) ?_ ?_ ?_ ?_ ?_
      hmono hfix hθ
    · rw [hg, Cl2_long_double_ieee_PI_53]
      norm_num
    · rw [Cl2_long_double_ieee_PI_53]
      norm_num
    · rw [Cl2_long_double_ieee_PI_53]
      norm_num
    · rw [hg, Cl2_long_double_ieee_PI_53, Cl2_long_double_ieee_p1_53]
      norm_num
    · rw [hg, Cl2_long_double_ieee_PI_53, Cl2_long_double_ieee_p1_53]
      norm_num
  · simp only [Prod.mk.injEq] at h
    obtain ⟨rfl, rfl, rfl⟩ := h
    have hg : (2 : ℚ) ^ (2 - ((64 : Nat) : Int)) = 1 / 2 ^ 62 := by
      rw [show (2 : Int) - ((64 : Nat) : Int) = -62 by norm_num, zpow_neg]
      norm_num
    rw [Cl2_long_double_ieee_p0_64]
    refine Cl2_float_reduce_bounds 64 (-16445) 16320 _ _
      14488038916154245685 rnd θ (by norm_num) (by norm_num) (by norm_num) ?_ ?_ ?_ ?_ ?_
      hmono hfix hθ
    · rw [hg, Cl2_long_double_ieee_PI_64]
      norm_num
    · rw [Cl2_long_double_ieee_PI_64]
      norm_num
    · rw [Cl2_long_double_ieee_PI_64]
      norm_num
    · rw [hg, Cl2_long_double_ieee_PI_64, Cl2_long_double_ieee_p1_64]
      norm_num
    · rw [hg, Cl2_long_double_ieee_PI_64, Cl2_long_double_ieee_p1_64]
      norm_num
  · simp only [Prod.mk.injEq] at h
    obtain ⟨rfl, rfl, rfl⟩ := h
    have hg : (2 : ℚ) ^ (2 - ((113 : Nat) : Int)) = 1 / 2 ^ 111 := by
      rw [show (2 : Int) - ((113 : Nat) : Int) = -111 by norm_num, zpow_neg]
      norm_num
    rw [Cl2_long_double_ieee_p0_113]
    refine Cl2_float_reduce_bounds 113 (-16494) 16271 _ _
      8156040833015188200833743081374136 rnd θ (by norm_num) (by norm_num) (by norm_num)
      ?_ ?_ ?_ ?_ ?_ hmono hfix hθ
    · rw [hg, Cl2_long_double_ieee_PI_113]
      norm_num
    · rw [Cl2_long_double_ieee_PI_113]
      norm_num
    · rw [Cl2_long_double_ieee_PI_113]
      norm_num
    · rw [hg, Cl2_long_double_ieee_PI_113, Cl2_long_double_ieee_p1_113]
      norm_num
    · rw [hg, Cl2_long_double_ieee_PI_113, Cl2_long_double_ieee_p1_113]
      norm_num

/-! ## The constants of `Cl2_ieee` are the doubles nearest to the literals -/

/-- The constant `Cl2_ieee.PI` is the one double nearest to the literal
`3.14159265358979324` of the source. -/
theorem Cl2_ieee_PI_nearest (d : ℚ) (hd : IsDouble d) (hne : d ≠ Cl2_ieee.PI) :
    |Cl2_ieee.PI - 3.14159265358979324| < |d - 3.14159265358979324| := by
  rw [Cl2_ieee_PI_eq] at hne ⊢
  have hPI : |(884279719003555 / 2 ^ 48 : ℚ) - 3.14159265358979324|
      = 3.14159265358979324 - 884279719003555 / 2 ^ 48 := by
    rw [abs_of_neg (by norm_num)]
    ring
  rw [hPI, lt_abs]
  by_cases h2 : 2 ≤ |d|
  · obtain ⟨j, hj⟩ := float_grid 53 (-1074) 971 d 1 hd (by simpa using h2)
    have hg : (2 : ℚ) ^ ((1 : Int) + 1 - ((53 : Nat) : Int)) = 1 / 2 ^ 51 := by
      rw [show (1 : Int) + 1 - ((53 : Nat) : Int) = -51 by norm_num, zpow_neg]
      norm_num
    rw [hg] at hj
    have hjne : j ≠ 7074237752028440 := by
      intro hc
      apply hne
      rw [hj, hc]
      norm_num
    rcases lt_or_gt_of_ne hjne with hlt | hgt
    · right
      have : (j : ℚ) ≤ ((7074237752028439 : Int) : ℚ) := by
        exact_mod_cast (by omega : j ≤ (7074237752028439 : Int))
      push_cast at this
      have hd' : d ≤ 7074237752028439 * (1 / 2 ^ 51) := by
        rw [hj]
        exact mul_le_mul_of_nonneg_right this (by norm_num)
      norm_num at hd' ⊢
      linarith
    · left
      have : ((7074237752028441 : Int) : ℚ) ≤ (j : ℚ) := by
        exact_mod_cast (by omega : (7074237752028441 : Int) ≤ j)
      push_cast at this
      have hd' : 7074237752028441 * (1 / 2 ^ 51) ≤ d := by
        rw [hj]
        exact mul_le_mul_of_nonneg_right this (by norm_num)
      norm_num at hd' ⊢
      linarith
  · right
    have hlt : |d| < 2 := lt_of_not_ge h2
    have := (abs_lt.mp hlt).2
    norm_num
    linarith

/-- The constant `Cl2_ieee.p1` is the one double nearest to the literal
`0.0019353071795864769253` of the source. -/
theorem Cl2_ieee_p1_nearest (d : ℚ) (hd : IsDouble d) (hne : d ≠ Cl2_ieee.p1) :
    |Cl2_ieee.p1 - 0.0019353071795864769253|
      < |d - 0.0019353071795864769253| := by
  rw [Cl2_ieee_p1_eq] at hne ⊢
  have hp1 : |(4462514530730549 / 2 ^ 61 : ℚ) - 0.0019353071795864769253|
      = 4462514530730549 / 2 ^ 61 - 0.0019353071795864769253 := by
    rw [abs_of_pos (by norm_num)]
  rw [hp1, lt_abs]
  by_cases h2 : (2 : ℚ) ^ (-10 : Int) ≤ |d|
  · obtain ⟨j, hj⟩ := float_grid 53 (-1074) 971 d (-10) hd h2
    have hg : (2 : ℚ) ^ ((-10 : Int) + 1 - ((53 : Nat) : Int)) = 1 / 2 ^ 62 := by
      rw [show (-10 : Int) + 1 - ((53 : Nat) : Int) = -62 by norm_num, zpow_neg]
      norm_num
    rw [hg] at hj
    have hjne : j ≠ 8925029061461098 := by
      intro hc
      apply hne
      rw [hj, hc]
      norm_num
    rcases lt_or_gt_of_ne hjne with hlt | hgt
    · right
      have : (j : ℚ) ≤ ((8925029061461097 : Int) : ℚ) := by
        exact_mod_cast (by omega : j ≤ (8925029061461097 : Int))
      push_cast at this
      have hd' : d ≤ 8925029061461097 * (1 / 2 ^ 62) := by
        rw [hj]
        exact mul_le_mul_of_nonneg_right this (by norm_num)
      norm_num at hd' ⊢
      linarith
    · left
      have : ((8925029061461099 : Int) : ℚ) ≤ (j : ℚ) := by
        exact_mod_cast (by omega : (8925029061461099 : Int) ≤ j)
      push_cast at this
      have hd' : 8925029061461099 * (1 / 2 ^ 62) ≤ d := by
        rw [hj]
        exact mul_le_mul_of_nonneg_right this (by norm_num)
      norm_num at hd' ⊢
      linarith
  · right
    have hlt : |d| < (2 : ℚ) ^ (-10 : Int) := lt_of_not_ge h2
    have h10 : (2 : ℚ) ^ (-10 : Int) = 1 / 1024 := by
      rw [zpow_neg]
      norm_num
    rw [h10] at hlt
    have := (abs_lt.mp hlt).2
    norm_num
    linarith

/-! ## The reduced angle of `Cl2` lies in `[0, PI]` -/

/-- The arguments next to the ends of the reflected range, with the rounding
to nearest: the least double above `PI` is reduced to `PI` itself and the
greatest double below `2*PI` to `2613 * 2^-61`; in the extended format of the
x87 the least number above `PI` is reduced to the greatest number below `PI`
and the greatest number below `2*PI` to `787 * 2^-71`. -/
theorem Cl2_ieee_reduce_edges :
    Cl2_ieee.reduce roundDouble (7074237752028441 / 2 ^ 51) = (Cl2_ieee.PI, -1) ∧
    Cl2_ieee.reduce roundDouble (7074237752028439 / 2 ^ 50) = (2613 / 2 ^ 61, -1) ∧
    Cl2_long_double_ieee.reduce 64 (-16445) (roundFloat 64 (-16445))
        (7244019458077122843 / 2 ^ 61)
      = (3622009729038561421 / 2 ^ 60, -1) ∧
    Cl2_long_double_ieee.reduce 64 (-16445) (roundFloat 64 (-16445))
        (3622009729038561421 / 2 ^ 59)
      = (787 / 2 ^ 71, -1) := by decide!

/-- C19: in floating-point arithmetic the argument reduction of `Cl2` (absolute
value, remainder modulo `2*PI`, reflection
`(6.28125 - x) + 0.0019353071795864769253` above `PI`) lands in `[0, PI]`, for
both overloads.  For `Cl2(double)`: `theta` is any double, the constants are
the doubles nearest to the literals and `rnd` is a rounding to double that is
monotone and leaves the doubles unchanged.  For `Cl2(long double)`: the same
with the format of `long double` one of IEEE binary64, the extended format of
the x87 and IEEE binary128.  Consequently the logarithm of the low branch has
a strictly positive argument (`Cl2` never takes a logarithm of a number that
is not strictly positive, and always returns a value), and the high branch
uses `y = PI - x >= 0`. -/
theorem Cl2_ieee_reduce_range (rnd : ℚ → ℚ) (log : ℚ → ℚ) (θ : ℚ)
    (hmono : Monotone rnd) (hfix : ∀ q, IsDouble q → rnd q = q)
    (hθ : IsDouble θ)
    (p : Nat) (emin emax : Int) (rndL : ℚ → ℚ) (logL : ℚ → ℚ) (θL : ℚ)
    (hfmt : (p, emin, emax) = (53, -1074, 971) ∨ (p, emin, emax) = (64, -16445, 16320)
      ∨ (p, emin, emax) = (113, -16494, 16271))
    (hmonoL : Monotone rndL) (hfixL : ∀ q, IsFloat p emin emax q → rndL q = q)
    (hθL : IsFloat p emin emax θL) :
    ((0 ≤ (Cl2_ieee.reduce rnd θ).1 ∧ (Cl2_ieee.reduce rnd θ).1 ≤ Cl2_ieee.PI) ∧
      Cl2_ieee rnd log θ =
        (if (Cl2_ieee.reduce rnd θ).1 = 0 ∨ (Cl2_ieee.reduce rnd θ).1 = Cl2_ieee.PI
          then some 0
          else (if (Cl2_ieee.reduce rnd θ).1 < rnd (Cl2_ieee.PI / 2)
              then Cl2_ieee.low rnd log (rnd (rnd (Cl2_ieee.PI * Cl2_ieee.PI) / 8))
                (Cl2_ieee.reduce rnd θ).1
              else some (Cl2_ieee.high rnd Cl2_ieee.PI
                (rnd (rnd (Cl2_ieee.PI * Cl2_ieee.PI) / 8))
                (Cl2_ieee.reduce rnd θ).1)).map
            (fun h => rnd ((Cl2_ieee.reduce rnd θ).2 * h))) ∧
      ((Cl2_ieee.reduce rnd θ).1 ≠ 0 →
        0 < (Cl2_ieee.reduce rnd θ).1 ∧
        checkedLog log (Cl2_ieee.reduce rnd θ).1
          = some (log (Cl2_ieee.reduce rnd θ).1)) ∧
      (0 ≤ Cl2_ieee.PI - (Cl2_ieee.reduce rnd θ).1 ∧
        0 ≤ rnd (Cl2_ieee.PI - (Cl2_ieee.reduce rnd θ).1)) ∧
      (∃ v, Cl2_ieee rnd log θ = some v)) ∧
    ((0 ≤ (Cl2_long_double_ieee.reduce p emin rndL θL).1 ∧
        (Cl2_long_double_ieee.reduce p emin rndL θL).1 ≤ Cl2_long_double_ieee.PI p emin) ∧
      Cl2_long_double_ieee p emin rndL logL θL =
        (if (Cl2_long_double_ieee.reduce p emin rndL θL).1 = 0
            ∨ (Cl2_long_double_ieee.reduce p emin rndL θL).1
              = Cl2_long_double_ieee.PI p emin
          then some 0
          else (if (Cl2_long_double_ieee.reduce p emin rndL θL).1
                < rndL (Cl2_long_double_ieee.PI p emin / 2)
              then Cl2_long_double_ieee.low p emin rndL logL
                (rndL (rndL (Cl2_long_double_ieee.PI p emin
                  * Cl2_long_double_ieee.PI p emin) / 8))
                (Cl2_long_double_ieee.reduce p emin rndL θL).1
              else some (Cl2_long_double_ieee.high p emin rndL
                (Cl2_long_double_ieee.PI p emin)
                (rndL (rndL (Cl2_long_double_ieee.PI p emin
                  * Cl2_long_double_ieee.PI p emin) / 8))
                (Cl2_long_double_ieee.reduce p emin rndL θL).1)).map
            (fun h => rndL ((Cl2_long_double_ieee.reduce p emin rndL θL).2 * h))) ∧
      ((Cl2_long_double_ieee.reduce p emin rndL θL).1 ≠ 0 →
        0 < (Cl2_long_double_ieee.reduce p emin rndL θL).1 ∧
        checkedLog logL (Cl2_long_double_ieee.reduce p emin rndL θL).1
          = some (logL (Cl2_long_double_ieee.reduce p emin rndL θL).1)) ∧
      (0 ≤ Cl2_long_double_ieee.PI p emin
          - (Cl2_long_double_ieee.reduce p emin rndL θL).1 ∧
        0 ≤ rndL (Cl2_long_double_ieee.PI p emin
          - (Cl2_long_double_ieee.reduce p emin rndL θL).1)) ∧
      (∃ v, Cl2_long_double_ieee p emin rndL logL θL = some v)) := by
  constructor
  · have hb := Cl2_ieee_reduce_bounds rnd hmono hfix θ hθ
    have hy : 0 ≤ Cl2_ieee.PI - (Cl2_ieee.reduce rnd θ).1 := by linarith [hb.2]
    have hpos : (Cl2_ieee.reduce rnd θ).1 ≠ 0 → 0 < (Cl2_ieee.reduce rnd θ).1 :=
      fun hne => lt_of_le_of_ne hb.1 (Ne.symm hne)
    have hry : 0 ≤ rnd (Cl2_ieee.PI - (Cl2_ieee.reduce rnd θ).1) := by
      have := hmono hy
      rwa [hfix 0 (IsFloat_zero 53 (-1074) 971 (by norm_num))] at this
    have heq : Cl2_ieee rnd log θ =
        (if (Cl2_ieee.reduce rnd θ).1 = 0 ∨ (Cl2_ieee.reduce rnd θ).1 = Cl2_ieee.PI
          then some 0
          else (if (Cl2_ieee.reduce rnd θ).1 < rnd (Cl2_ieee.PI / 2)
              then Cl2_ieee.low rnd log (rnd (rnd (Cl2_ieee.PI * Cl2_ieee.PI) / 8))
                (Cl2_ieee.reduce rnd θ).1
              else some (Cl2_ieee.high rnd Cl2_ieee.PI
                (rnd (rnd (Cl2_ieee.PI * Cl2_ieee.PI) / 8))
                (Cl2_ieee.reduce rnd θ).1)).map
            (fun h => rnd ((Cl2_ieee.reduce rnd θ).2 * h))) := rfl
    refine ⟨hb, heq, fun hne => ⟨hpos hne, by simp [checkedLog, hpos hne]⟩,
      ⟨hy, hry⟩, ?_⟩
    rw [heq]
    by_cases hex : (Cl2_ieee.reduce rnd θ).1 = 0
        ∨ (Cl2_ieee.reduce rnd θ).1 = Cl2_ieee.PI
    · exact ⟨0, by rw [if_pos hex]⟩
    · have hne : (Cl2_ieee.reduce rnd θ).1 ≠ 0 := fun h => hex (Or.inl h)
      rw [if_neg hex]
      by_cases hlow : (Cl2_ieee.reduce rnd θ).1 < rnd (Cl2_ieee.PI / 2)
      · rw [if_pos hlow]
        simp [Cl2_ieee.low, checkedLog, hpos hne]
      · rw [if_neg hlow]
        simp
  · have hb := Cl2_long_double_ieee_reduce_bounds p emin emax hfmt rndL hmonoL hfixL θL hθL
    have hee : emin ≤ emax := by
      rcases hfmt with h | h | h <;> simp only [Prod.mk.injEq] at h <;>
        obtain ⟨_, rfl, rfl⟩ := h <;> norm_num
    have hy : 0 ≤ Cl2_long_double_ieee.PI p emin
        - (Cl2_long_double_ieee.reduce p emin rndL θL).1 := by linarith [hb.2]
    have hpos : (Cl2_long_double_ieee.reduce p emin rndL θL).1 ≠ 0 →
        0 < (Cl2_long_double_ieee.reduce p emin rndL θL).1 :=
      fun hne => lt_of_le_of_ne hb.1 (Ne.symm hne)
    have hry : 0 ≤ rndL (Cl2_long_double_ieee.PI p emin
        - (Cl2_long_double_ieee.reduce p emin rndL θL).1) := by
      have := hmonoL hy
      rwa [hfixL 0 (IsFloat_zero p emin emax hee)] at this
    have heq : Cl2_long_double_ieee p emin rndL logL θL =
        (if (Cl2_long_double_ieee.reduce p emin rndL θL).1 = 0
            ∨ (Cl2_long_double_ieee.reduce p emin rndL θL).1
              = Cl2_long_double_ieee.PI p emin
          then some 0
          else (if (Cl2_long_double_ieee.reduce p emin rndL θL).1
                < rndL (Cl2_long_double_ieee.PI p emin / 2)
              then Cl2_long_double_ieee.low p emin rndL logL
                (rndL (rndL (Cl2_long_double_ieee.PI p emin
                  * Cl2_long_double_ieee.PI p emin) / 8))
                (Cl2_long_double_ieee.reduce p emin rndL θL).1
              else some (Cl2_long_double_ieee.high p emin rndL
                (Cl2_long_double_ieee.PI p emin)
                (rndL (rndL (Cl2_long_double_ieee.PI p emin
                  * Cl2_long_double_ieee.PI p emin) / 8))
                (Cl2_long_double_ieee.reduce p emin rndL θL).1)).map
            (fun h => rndL ((Cl2_long_double_ieee.reduce p emin rndL θL).2 * h))) := rfl
    refine ⟨hb, heq, fun hne => ⟨hpos hne, by simp [checkedLog, hpos hne]⟩,
      ⟨hy, hry⟩, ?_⟩
    rw [heq]
    by_cases hex : (Cl2_long_double_ieee.reduce p emin rndL θL).1 = 0
        ∨ (Cl2_long_double_ieee.reduce p emin rndL θL).1 = Cl2_long_double_ieee.PI p emin
    · exact ⟨0, by rw [if_pos hex]⟩
    · have hne : (Cl2_long_double_ieee.reduce p emin rndL θL).1 ≠ 0 :=
        fun h => hex (Or.inl h)
      rw [if_neg hex]
      by_cases hlow : (Cl2_long_double_ieee.reduce p emin rndL θL).1
          < rndL (Cl2_long_double_ieee.PI p emin / 2)
      · rw [if_pos hlow]
        simp [Cl2_long_double_ieee.low, checkedLog, hpos hne]
      · rw [if_neg hlow]
        simp

/-- At `theta = 4`, a number of both formats whose remainder `4` is reflected,
with the roundings to nearest of IEEE double and of the x87 extended format,
the hypotheses of C19 hold. -/
theorem Cl2_ieee_reduce_range_witness :
    (0 ≤ (Cl2_ieee.reduce roundDouble 4).1 ∧
      (Cl2_ieee.reduce roundDouble 4).1 ≤ Cl2_ieee.PI) ∧
    (0 ≤ (Cl2_long_double_ieee.reduce 64 (-16445) (roundFloat 64 (-16445)) 4).1 ∧
      (Cl2_long_double_ieee.reduce 64 (-16445) (roundFloat 64 (-16445)) 4).1
        ≤ Cl2_long_double_ieee.PI 64 (-16445)) :=
  have h := Cl2_ieee_reduce_range roundDouble (fun x => x) 4
    (roundFloat_mono 53 (-1074) (by norm_num))
    (fun q hq => roundFloat_fix 53 (-1074) 971 q hq)
    ⟨1, 2, by norm_num, by norm_num, by norm_num, by norm_num⟩
    64 (-16445) 16320 (roundFloat 64 (-16445)) (fun x => x) 4
    (Or.inr (Or.inl rfl))
    (roundFloat_mono 64 (-16445) (by norm_num))
    (fun q hq => roundFloat_fix 64 (-16445) 16320 q hq)
    ⟨1, 2, by norm_num, by norm_num, by norm_num, by norm_num⟩
  ⟨h.1.1, h.2.1⟩

end polylogarithm
